import Mathlib

/-!
# spotitube: canonical file names, fuzzy matching and the stages of the pipeline

A shallow embedding of `entity/track.go` (`Track.Song`, `TrackPath.Final`), of the
two matchers of `cmd/sync.go` (`fuzzySearchLocalFiles`, `fuzzyFindTracksForSpotify`), of
the stages `routineIndex`, `routineAuth`, `routineFetch`, `routineDecide`, `routineInstall`
and `routineMix` and of `PreRun` of `cmd/sync.go`, of the cached accessors of
`entity/id3/id3.go`, and of the length and the score of `provider/youtube.go`.

Modelling conventions
* A Go `string` is modelled as the list of its Unicode code points (`Str`); the strings
  handled are taken to be valid UTF-8, where searching, replacing and splitting on code
  points and on bytes agree. Go's `len` of a string is its UTF-8 byte length (`goLen`).
* The Unicode case tables of the Go runtime (`unicode.ToLower`, and the simple case
  folding behind the `(?i)` flag of `regexp`) are parameters (`CaseTables`).
* `util.LegalizeFilename` is not part of the sources at hand and is a parameter.
* `sort.Slice` is a parameter, constrained only by its documented contract.
* A run-time panic (indexing an empty artist list) is the value `none`; in the run of the
  Indexer, whose deferred call closes the signal also then, it is the flag `panicked`.
* The package `entity/index` is not part of the sources at hand; its `SetPath` and
  `GetPath` are modelled from the specification (insert-or-overwrite, lookup by path), and
  so are `Get` and `Set` by track (by the canonical final path of the track).
* A stage is a function on an explicit state: the queues and the error channel are the
  lists of what was sent, the answers of the user and the results of the collaborators
  (`provider.Search`, the catalog client, the playlist encoder, `util.FileMoveOrCopy`,
  `tag.Save()`) are inputs. The printing of progress is left out.
* A `float64` that stands for an integer is modelled by that integer, with the rounding of
  the conversion to the nearest double (ties to the even mantissa) made explicit; a Go
  `int` is an integer wrapped around at 64 bits.
* Concrete scenarios are evaluated with the ASCII part of the case tables, which decides
  the result for ASCII strings.
-/

namespace Spotitube

/-- A Go string, as the list of its code points. -/
abbrev Str := List Char

/-- Go's `len(s)` for a string: the number of bytes of the UTF-8 encoding. -/
def goLen (s : Str) : Nat := (s.map Char.utf8Size).sum

/-- The case tables of the Go runtime: `toLower` is `unicode.ToLower`, and `foldEq r c`
says that `c` lies in the simple-case-folding orbit of `r`, which is how a literal rune of
a `(?i)` regular expression matches an input rune. -/
structure CaseTables where
  toLower : Char → Char
  foldEq : Char → Char → Bool

/-- The ASCII part of the case tables: `A`..`Z` are lowered, everything else is fixed. -/
def asciiLower (c : Char) : Char :=
  if 65 ≤ c.toNat ∧ c.toNat ≤ 90 then Char.ofNat (c.toNat + 32) else c

/-- Case tables that know the ASCII letters only. -/
def asciiTables : CaseTables where
  toLower := asciiLower
  foldEq := fun r c => asciiLower r == asciiLower c

namespace unicode

/-- Go's `unicode.IsSpace`: the Latin-1 white space and the `White_Space` code points
beyond Latin-1. -/
def IsSpace (r : Char) : Bool :=
  let n := r.toNat
  n == 9 || n == 10 || n == 11 || n == 12 || n == 13 || n == 32 || n == 0x85 || n == 0xA0
    || n == 0x1680 || (0x2000 ≤ n && n ≤ 0x200a) || n == 0x2028 || n == 0x2029
    || n == 0x202f || n == 0x205f || n == 0x3000

end unicode

namespace strings

/-- Go's `strings.ToLower` on valid UTF-8: every rune is mapped by `unicode.ToLower`. -/
def ToLower (U : CaseTables) (s : Str) : Str := s.map U.toLower

/-- Go's `strings.HasSuffix`. -/
def HasSuffix (s suffix : Str) : Bool := suffix.isSuffixOf s

/-- Go's `strings.TrimSuffix`. -/
def TrimSuffix (s suffix : Str) : Str :=
  if HasSuffix s suffix then s.take (s.length - suffix.length) else s

/-- Search loop of `strings.Index`: `n` is the offset of the part still to be searched. -/
def indexFrom (substr : Str) : Str → Nat → Int
  | [], n => if substr.isPrefixOf [] then (n : Int) else -1
  | c :: cs, n => if substr.isPrefixOf (c :: cs) then (n : Int) else indexFrom substr cs (n + 1)

/-- Go's `strings.Index`: offset of the first occurrence of `substr` in `s`, or `-1`. -/
def Index (s substr : Str) : Int := indexFrom substr s 0

/-- Go's `strings.Contains`. -/
def Contains (s substr : Str) : Bool := decide (Index s substr ≥ 0)

/-- Replacement loop of `strings.ReplaceAll` for a non-empty `old`: occurrences are found
left to right and do not overlap; `skip` counts the runes of a matched occurrence that
are still to be passed over. -/
def replaceGo (old new : Str) : Str → Nat → Str
  | [], _ => []
  | _ :: cs, skip + 1 => replaceGo old new cs skip
  | c :: cs, 0 =>
    if old.isPrefixOf (c :: cs) then new ++ replaceGo old new cs (old.length - 1)
    else c :: replaceGo old new cs 0

/-- Go's `strings.ReplaceAll(s, old, new)`. With an empty `old` Go inserts `new` before
every rune and at the end. -/
def ReplaceAll (s old new : Str) : Str :=
  if old = [] then new ++ (s.map fun c => c :: new).flatten else replaceGo old new s 0

/-- Go's `strings.TrimSpace`: leading and trailing white space removed. -/
def TrimSpace (s : Str) : Str :=
  ((s.dropWhile unicode.IsSpace).reverse.dropWhile unicode.IsSpace).reverse

/-- Scanning loop of `strings.Fields`; `cur` is the current field, reversed. -/
def fieldsGo : Str → Str → List Str
  | [], cur => if cur = [] then [] else [cur.reverse]
  | c :: cs, cur =>
    if unicode.IsSpace c then (if cur = [] then fieldsGo cs [] else cur.reverse :: fieldsGo cs [])
    else fieldsGo cs (c :: cur)

/-- Go's `strings.Fields`: the maximal runs of non-space runes. -/
def Fields (s : Str) : List Str := fieldsGo s []

/-- Splitting loop of `strings.Split` for a non-empty separator; `cur` is the current
piece, reversed, and `skip` counts the runes of a matched separator still to pass over. -/
def splitGo (sep : Str) : Str → Nat → Str → List Str
  | [], _, cur => [cur.reverse]
  | _ :: cs, skip + 1, cur => splitGo sep cs skip cur
  | c :: cs, 0, cur =>
    if sep.isPrefixOf (c :: cs) then cur.reverse :: splitGo sep cs (sep.length - 1) []
    else splitGo sep cs 0 (c :: cur)

/-- Go's `strings.Split(s, sep)`. With an empty `sep` Go explodes `s` into its runes. -/
def Split (s sep : Str) : List Str :=
  if sep = [] then s.map fun c => [c] else splitGo sep s 0 []

/-- Go's `strings.SplitN(s, sep, 2)` for a non-empty `sep`: cut at the first occurrence. -/
def SplitN2 (s sep : Str) : List Str :=
  let m := Index s sep
  if m < 0 then [s] else [s.take m.toNat, s.drop (m.toNat + sep.length)]

/-- Go's `strings.Join`. -/
def Join (elems : List Str) (sep : Str) : Str := sep.intercalate elems

end strings

/-- The `Artwork` struct of `entity/track.go`. -/
structure Artwork where
  URL : Str
  Data : List Nat
deriving DecidableEq, Repr

/-- The `Track` struct of `entity/track.go`. -/
structure Track where
  ID : Str
  Title : Str
  Artists : List Str
  Album : Str
  Artwork : Artwork
  Duration : Int
  Lyrics : Str
  Number : Int
  Year : Int
  UpstreamURL : Str
deriving DecidableEq, Repr

/-- The constant `TrackFormat`. -/
def TrackFormat : Str := "mp3".toList

/-- `Track.Song`: the title with its variant description stripped, by three successive
`strings.Split(song+sep, sep)[0]`. -/
def Track.Song (track : Track) : Str :=
  let song := track.Title
  let song := (strings.Split (song ++ " - ".toList) " - ".toList).headD []
  let song := (strings.Split (song ++ " (".toList) " (".toList).headD []
  let song := (strings.Split (song ++ " [".toList) " [".toList).headD []
  song

/-- Loop of `TrackPath.Final` collecting the featured artists: for `i` from `1` to
`len(Artists)-1`, the artist `i` with its dots removed is appended. -/
def featuredArtists (artists : List Str) : List Str :=
  (List.range' 1 (artists.length - 1)).foldl
    (fun acc i => acc ++ [strings.ReplaceAll (artists.getD i []) ".".toList []]) []

/-- `TrackPath.Final`: the canonical file name of a track. `LegalizeFilename` stands for
`util.LegalizeFilename`. Indexing `Artists[0]` of an empty list panics (`none`). -/
def Track.Final (LegalizeFilename : Str → Str) (track : Track) : Option Str :=
  match track.Artists with
  | [] => none
  | artist0 :: _ =>
    let primaryArtist := strings.ReplaceAll artist0 ".".toList []
    let title := track.Title
    let idx := strings.Index title " - ".toList
    let title :=
      if idx > 0 then
        let baseName := strings.TrimSpace (title.take idx.toNat)
        let remixInfo := strings.TrimSpace (title.drop (idx + 3).toNat)
        baseName ++ " (".toList ++ remixInfo ++ ")".toList
      else title
    let title :=
      if track.Artists.length > 1 then
        title ++ " (ft ".toList ++ strings.Join (featuredArtists track.Artists) ", ".toList
          ++ ")".toList
      else title
    some (LegalizeFilename (primaryArtist ++ " - ".toList ++ title ++ ".".toList ++ TrackFormat))

/-- A track with the given identifier, title and artists, and empty remaining fields. -/
def mkTrack (id title : String) (artists : List String) : Track where
  ID := id.toList
  Title := title.toList
  Artists := artists.map String.toList
  Album := []
  Artwork := ⟨[], []⟩
  Duration := 0
  Lyrics := []
  Number := 0
  Year := 0
  UpstreamURL := []

/-- The track of the scenarios: `123`, `Song - Remix`, by `A.B.`. -/
def scenarioTrack : Track := mkTrack "123" "Song - Remix" ["A.B."]

/-- The track of the comment on `Track.Song`: `Name - Acoustic`. -/
def acousticTrack : Track := mkTrack "1" "Name - Acoustic" ["Artist"]

/-- A track whose title ends in a blank and a dash. -/
def trailingDashTrack : Track := mkTrack "1" "Name -" ["Artist"]

namespace regexp

/-- A literal pattern of a `(?i)` expression matched at the start of the input: rune by
rune, up to simple case folding. -/
def foldPrefixOf (U : CaseTables) : Str → Str → Bool
  | [], _ => true
  | _ :: _, [] => false
  | p :: ps, c :: cs => U.foldEq p c && foldPrefixOf U ps cs

/-- `regexp.MustCompile("(?i)" + regexp.QuoteMeta(literal)).MatchString(s)`: the quoted
literal is found somewhere in `s`, case-insensitively. -/
def MatchFold (U : CaseTables) (literal : Str) : Str → Bool
  | [] => foldPrefixOf U literal []
  | c :: cs => foldPrefixOf U literal (c :: cs) || MatchFold U literal cs

/-- The class `\s` of Go's `regexp`: tab, line feed, form feed, carriage return, blank. -/
def isPerlSpace (c : Char) : Bool :=
  let n := c.toNat
  n == 9 || n == 10 || n == 12 || n == 13 || n == 32

/-- Loop of `ReplaceAllString` for the pattern `\s+`: `inRun` tells that the previous
rune belonged to a run of `\s`, which has already been replaced by a blank. -/
def collapseGo : Str → Bool → Str
  | [], _ => []
  | c :: cs, inRun =>
    if isPerlSpace c then (if inRun then collapseGo cs true else ' ' :: collapseGo cs true)
    else c :: collapseGo cs false

/-- The call `ReplaceAllString(s, " ")` on the compiled pattern `\s+`: every maximal run
of `\s` becomes one blank. -/
def collapseSpace (s : Str) : Str := collapseGo s false

end regexp

namespace filepath

/-- Go's `filepath.Base` with `/` as the separator: the last element of the path, trailing
slashes removed; `.` for the empty path and `/` for a path of slashes only. -/
def Base (path : Str) : Str :=
  if path = [] then ".".toList
  else
    let stripped := (path.reverse.dropWhile fun c => c == '/').reverse
    let last := (stripped.reverse.takeWhile fun c => c != '/').reverse
    if last = [] then "/".toList else last

/-- Go's `filepath.Ext`: the suffix starting at the last dot of the last element of the
path, empty when that element has no dot. -/
def Ext (path : Str) : Str :=
  let tail := path.reverse.takeWhile fun c => c != '.' && c != '/'
  match path.reverse.drop tail.length with
  | '.' :: _ => '.' :: tail.reverse
  | _ => []

end filepath

/-- The closure `cleanTerm` of `fuzzySearchLocalFiles`. -/
def fuzzySearchLocalFiles.cleanTerm (U : CaseTables) (input : Str) : Str :=
  let result := strings.ToLower U input
  let result := strings.ReplaceAll result "&".toList "and".toList
  let result := strings.ReplaceAll result " - ".toList " ".toList
  let result := strings.ReplaceAll result " - ".toList " ".toList
  let result := strings.ReplaceAll result "-".toList "".toList
  let result := strings.ReplaceAll result "_".toList " ".toList
  let result := strings.ReplaceAll result "(".toList " ".toList
  let result := strings.ReplaceAll result ")".toList " ".toList
  let result := strings.ReplaceAll result "[".toList " ".toList
  let result := strings.ReplaceAll result "]".toList " ".toList
  let result := strings.ReplaceAll result "feat.".toList " ".toList
  let result := strings.ReplaceAll result "feat".toList " ".toList
  let result := strings.ReplaceAll result "ft.".toList " ".toList
  let result := strings.ReplaceAll result "ft".toList " ".toList
  let result := strings.ReplaceAll result " mix".toList " ".toList
  let result := strings.ReplaceAll result " remix".toList " ".toList
  let result := strings.ReplaceAll result " edit".toList " ".toList
  let result := strings.ReplaceAll result " version".toList " ".toList
  let result := strings.ReplaceAll result " original".toList " ".toList
  let result := strings.TrimSpace result
  let result := regexp.collapseSpace result
  result

/-- What `fuzzySearchLocalFiles` computes from the track before walking the directory.
`expectedFilenamePattern` is the literal behind the quoted pattern. -/
structure SearchTerms where
  artist0 : Str
  baseTitle : Str
  expectedFilenamePattern : Str
  cleanedTitle : Str
  cleanedBaseTitle : Str
  cleanedArtist : Str
  titleWords : List Str
  artistWords : List Str

/-- The statements of `fuzzySearchLocalFiles` before the walk; `track.Artists[0]` panics
on a track without artists. -/
def fuzzySearchLocalFiles.terms (U : CaseTables) (track : Track) : Option SearchTerms :=
  match track.Artists with
  | [] => none
  | artist0 :: _ =>
    let baseTitle := track.Song
    let expectedFilenamePattern :=
      strings.ReplaceAll artist0 ".".toList [] ++ " - ".toList ++ baseTitle
    let cleanedTitle := fuzzySearchLocalFiles.cleanTerm U track.Title
    let cleanedBaseTitle := fuzzySearchLocalFiles.cleanTerm U baseTitle
    let cleanedArtist := fuzzySearchLocalFiles.cleanTerm U artist0
    let titleWords := strings.Fields cleanedTitle
    let artistWords := strings.Fields cleanedArtist
    some { artist0, baseTitle, expectedFilenamePattern, cleanedTitle, cleanedBaseTitle,
           cleanedArtist, titleWords, artistWords }

/-- The loops of the walk function over the words of the title and of the artist: 5
points for every word with `len(word) > 3` that the cleaned file name contains. -/
def fuzzySearchLocalFiles.wordPoints (cleanedFileName : Str) (words : List Str) (score : Nat) :
    Nat :=
  words.foldl (fun score word =>
    if goLen word > 3 && strings.Contains cleanedFileName word then score + 5 else score) score

/-- The score that the walk function of `fuzzySearchLocalFiles` gives to the file at
`path`. The score is a Go `int`; it only grows from 0 by 100, 50, 40, 30 and 5, so it is
kept as a natural number. -/
def fuzzySearchLocalFiles.score (U : CaseTables) (terms : SearchTerms) (path : Str) : Nat :=
  let fileName := filepath.Base path
  let fileNameWithoutExt := strings.TrimSuffix fileName (filepath.Ext fileName)
  let cleanedFileName := fuzzySearchLocalFiles.cleanTerm U fileName
  let score := 0
  let score :=
    if regexp.MatchFold U terms.expectedFilenamePattern fileName then score + 100 else score
  let score := if regexp.MatchFold U terms.artist0 fileName then score + 50 else score
  let score := if regexp.MatchFold U terms.baseTitle fileName then score + 40 else score
  let score :=
    if strings.Contains fileNameWithoutExt " - ".toList then
      let parts := strings.SplitN2 fileNameWithoutExt " - ".toList
      let artistPart := fuzzySearchLocalFiles.cleanTerm U (parts.getD 0 [])
      let titlePart := fuzzySearchLocalFiles.cleanTerm U (parts.getD 1 [])
      if strings.Contains artistPart terms.cleanedArtist
          && strings.Contains titlePart terms.cleanedBaseTitle then score + 30
      else score
    else score
  let score := fuzzySearchLocalFiles.wordPoints cleanedFileName terms.titleWords score
  let score := fuzzySearchLocalFiles.wordPoints cleanedFileName terms.artistWords score
  score

/-- The struct `ScoredMatch` declared inside `fuzzySearchLocalFiles`. -/
structure ScoredMatch where
  Path : Str
  Score : Nat
deriving DecidableEq, Repr

/-- One call of the walk function by `filepath.Walk`: the path, whether it is a directory,
and whether the walk reports an error for it. -/
structure WalkEntry where
  path : Str
  isDir : Bool
  err : Bool
deriving DecidableEq, Repr

/-- The test of the walk function for a music file: no error, not a directory, and the
lower-cased path ends in `mp3`. -/
def fuzzySearchLocalFiles.isMusicFile (U : CaseTables) (e : WalkEntry) : Bool :=
  !(e.err || e.isDir || !strings.HasSuffix (strings.ToLower U e.path) TrackFormat)

/-- The walk of `fuzzySearchLocalFiles`: the entries in walk order, each music file with a
positive score appended to `scoredMatches`. -/
def fuzzySearchLocalFiles.walk (U : CaseTables) (terms : SearchTerms) (dir : List WalkEntry) :
    List ScoredMatch :=
  dir.foldl (fun scoredMatches e =>
    if e.err || e.isDir || !strings.HasSuffix (strings.ToLower U e.path) TrackFormat then
      scoredMatches
    else
      let score := fuzzySearchLocalFiles.score U terms e.path
      if score > 0 then scoredMatches ++ [{ Path := e.path, Score := score }]
      else scoredMatches) []

/-- The comparison given to `sort.Slice`: a higher score comes first. -/
def fuzzySearchLocalFiles.less (a b : ScoredMatch) : Bool := decide (a.Score > b.Score)

/-- The loop taking the top 10 results: `i` is the index of the next match. -/
def fuzzySearchLocalFiles.top : Nat → List ScoredMatch → List Str → List Str
  | _, [], results => results
  | i, m :: ms, results =>
    if i ≥ 10 then results else fuzzySearchLocalFiles.top (i + 1) ms (results ++ [m.Path])

/-- `fuzzySearchLocalFiles(dir, track)`, with the directory given by the sequence of calls
that `filepath.Walk` makes, and `sort.Slice` given as `sortSlice`. The error returned is
always `nil`, since the walk function never returns one. -/
def fuzzySearchLocalFiles (U : CaseTables)
    (sortSlice : (ScoredMatch → ScoredMatch → Bool) → List ScoredMatch → List ScoredMatch)
    (dir : List WalkEntry) (track : Track) : Option (List Str) :=
  match fuzzySearchLocalFiles.terms U track with
  | none => none
  | some terms =>
    let scoredMatches := fuzzySearchLocalFiles.walk U terms dir
    let scoredMatches := sortSlice fuzzySearchLocalFiles.less scoredMatches
    some (fuzzySearchLocalFiles.top 0 scoredMatches [])

/-- The score of a file for a track (`none` when the track has no artist). -/
def fuzzyScore (U : CaseTables) (track : Track) (path : Str) : Option Nat :=
  (fuzzySearchLocalFiles.terms U track).map fun terms => fuzzySearchLocalFiles.score U terms path

/-- The closure `cleanTerm` of `fuzzyFindTracksForSpotify`. -/
def fuzzyFindTracksForSpotify.cleanTerm (U : CaseTables) (input : Str) : Str :=
  let result := strings.ToLower U input
  let result := strings.ReplaceAll result "&".toList "and".toList
  let result := strings.ReplaceAll result "-".toList " ".toList
  let result := strings.ReplaceAll result "_".toList " ".toList
  let result := strings.ReplaceAll result "(".toList " ".toList
  let result := strings.ReplaceAll result ")".toList " ".toList
  let result := strings.ReplaceAll result "[".toList " ".toList
  let result := strings.ReplaceAll result "]".toList " ".toList
  let result := strings.ReplaceAll result "feat.".toList "".toList
  let result := strings.ReplaceAll result "feat".toList "".toList
  let result := strings.ReplaceAll result "ft.".toList "".toList
  let result := strings.ReplaceAll result "ft".toList "".toList
  let result := strings.ReplaceAll result "mix".toList "".toList
  let result := strings.ReplaceAll result "remix".toList "".toList
  let result := strings.ReplaceAll result "edit".toList "".toList
  let result := strings.ReplaceAll result "version".toList "".toList
  let result := strings.TrimSpace result
  result

/-- What `fuzzyFindTracksForSpotify` computes from a track before it looks at the files. -/
structure ReconcileTerms where
  title : Str
  artist : Str
  baseTitle : Str
  titleWords : List Str
  artistWords : List Str

/-- The base title of `fuzzyFindTracksForSpotify`: the title cut at its first ` -` and then
at its first `(`, when these stand at a position greater than 0, and trimmed. -/
def fuzzyFindTracksForSpotify.baseTitle (title : Str) : Str :=
  let baseTitle := title
  let idx := strings.Index baseTitle " -".toList
  let baseTitle := if idx > 0 then strings.TrimSpace (baseTitle.take idx.toNat) else baseTitle
  let idx := strings.Index baseTitle "(".toList
  let baseTitle := if idx > 0 then strings.TrimSpace (baseTitle.take idx.toNat) else baseTitle
  baseTitle

/-- The statements of the loop over the tracks before the loop over the files;
`track.Artists[0]` panics on a track without artists. -/
def fuzzyFindTracksForSpotify.terms (U : CaseTables) (track : Track) : Option ReconcileTerms :=
  match track.Artists with
  | [] => none
  | artist0 :: _ =>
    let title := fuzzyFindTracksForSpotify.cleanTerm U track.Title
    let artist := fuzzyFindTracksForSpotify.cleanTerm U artist0
    let baseTitle :=
      fuzzyFindTracksForSpotify.cleanTerm U (fuzzyFindTracksForSpotify.baseTitle track.Title)
    let titleWords := strings.Fields title
    let artistWords := strings.Fields artist
    some { title, artist, baseTitle, titleWords, artistWords }

/-- The counting loops of `fuzzyFindTracksForSpotify`: `matchCount` grows by one for every
word with `len(word) > 3` that the cleaned file name contains. -/
def fuzzyFindTracksForSpotify.countWords (cleanFileName : Str) (words : List Str)
    (matchCount : Nat) : Nat :=
  words.foldl (fun matchCount word =>
    if goLen word > 3 && strings.Contains cleanFileName word then matchCount + 1
    else matchCount) matchCount

/-- The loops with `break` of `fuzzyFindTracksForSpotify`: whether some word with
`len(word) > 3` is contained in the cleaned file name. -/
def fuzzyFindTracksForSpotify.wordFound (cleanFileName : Str) : List Str → Bool
  | [] => false
  | word :: words =>
    if goLen word > 3 && strings.Contains cleanFileName word then true
    else fuzzyFindTracksForSpotify.wordFound cleanFileName words

/-- The value of `isMatch` that `fuzzyFindTracksForSpotify` computes for a file and a
track: whether the pair is printed as a possible match. -/
def fuzzyFindTracksForSpotify.isMatch (U : CaseTables) (terms : ReconcileTerms)
    (filePath : Str) : Bool :=
  let fileName := strings.ToLower U (filepath.Base filePath)
  let cleanFileName := fuzzyFindTracksForSpotify.cleanTerm U fileName
  let isMatch := false
  if strings.Contains cleanFileName terms.artist && strings.Contains cleanFileName terms.title
  then true
  else if strings.Contains cleanFileName terms.artist
      && strings.Contains cleanFileName terms.baseTitle
  then true
  else
    let matchCount := 0
    let matchCount :=
      fuzzyFindTracksForSpotify.countWords cleanFileName terms.titleWords matchCount
    let matchCount :=
      fuzzyFindTracksForSpotify.countWords cleanFileName terms.artistWords matchCount
    if matchCount ≥ 2 then
      let titleWordFound := fuzzyFindTracksForSpotify.wordFound cleanFileName terms.titleWords
      let artistWordFound := fuzzyFindTracksForSpotify.wordFound cleanFileName terms.artistWords
      if titleWordFound && artistWordFound then true else isMatch
    else isMatch

/-- Whether `fuzzyFindTracksForSpotify` proposes the file for the track (`none` when the
track has no artist). -/
def proposesMatch (U : CaseTables) (track : Track) (filePath : Str) : Option Bool :=
  (fuzzyFindTracksForSpotify.terms U track).map fun terms =>
    fuzzyFindTracksForSpotify.isMatch U terms filePath

namespace strconv

/-- Go's `strconv.Itoa`: the decimal text of an integer. -/
def Itoa (i : Int) : Str :=
  match i with
  | Int.ofNat n => Nat.toDigits 10 n
  | Int.negSucc n => '-' :: Nat.toDigits 10 (n + 1)

end strconv

namespace id3

/-- The frames of a media file that the accessors of `entity/id3/id3.go` read and write, as
stored in the file: the user-defined text frames `Spotify ID`, `Artwork URL`, `Duration`
and `Upstream URL`, the standard text frames, the lyrics and the attached picture. An
absent frame reads as the empty string. -/
structure StoredTag where
  SpotifyID : Str
  ArtworkURL : Str
  Duration : Str
  UpstreamURL : Str
  Title : Str
  Artist : Str
  Album : Str
  TrackNumber : Str
  Year : Str
  Lyrics : Str
  Picture : List Nat
deriving DecidableEq, Repr

/-- A file without any of the frames. -/
def StoredTag.empty : StoredTag :=
  { SpotifyID := [], ArtworkURL := [], Duration := [], UpstreamURL := [], Title := [],
    Artist := [], Album := [], TrackNumber := [], Year := [], Lyrics := [], Picture := [] }

/-- `Tag.SetSpotifyID`: the user-defined text frame `Spotify ID` is set. -/
def StoredTag.SetSpotifyID (tag : StoredTag) (id : Str) : StoredTag := { tag with SpotifyID := id }

/-- `Tag.SetArtworkURL`. -/
def StoredTag.SetArtworkURL (tag : StoredTag) (url : Str) : StoredTag :=
  { tag with ArtworkURL := url }

/-- `Tag.SetDuration`. -/
def StoredTag.SetDuration (tag : StoredTag) (duration : Str) : StoredTag :=
  { tag with Duration := duration }

/-- `Tag.SetTrackNumber`. -/
def StoredTag.SetTrackNumber (tag : StoredTag) (number : Str) : StoredTag :=
  { tag with TrackNumber := number }

/-- `SetTitle` of the embedded `id3v2.Tag`. -/
def StoredTag.SetTitle (tag : StoredTag) (title : Str) : StoredTag := { tag with Title := title }

/-- `SetArtist` of the embedded `id3v2.Tag`. -/
def StoredTag.SetArtist (tag : StoredTag) (artist : Str) : StoredTag :=
  { tag with Artist := artist }

/-- `SetAlbum` of the embedded `id3v2.Tag`. -/
def StoredTag.SetAlbum (tag : StoredTag) (album : Str) : StoredTag := { tag with Album := album }

/-- `SetYear` of the embedded `id3v2.Tag`. -/
def StoredTag.SetYear (tag : StoredTag) (year : Str) : StoredTag := { tag with Year := year }

end id3

namespace index

/-- Modelled from the spec: the status values of the package `entity/index`, which is not
among the sources: the enumeration Online, Offline, Installed, Flush. -/
inductive Status where
  | Online
  | Offline
  | Installed
  | Flush
deriving DecidableEq, Repr

/-- Modelled from the spec: the Index of the package `entity/index`, a mapping from a local
file path to a status with at most one entry per path. -/
abbrev Index := List (Str × Status)

/-- Modelled from the spec: `GetPath`, the status of a path and whether it was found. -/
def Index.GetPath (data : Index) (path : Str) : Option Status :=
  match data with
  | [] => none
  | (p, status) :: rest => if p = path then some status else Index.GetPath rest path

/-- Modelled from the spec: `SetPath(path, status)`, insert-or-overwrite. -/
def Index.SetPath (data : Index) (path : Str) (status : Status) : Index :=
  match data with
  | [] => [(path, status)]
  | (p, old) :: rest =>
    if p = path then (p, status) :: rest else (p, old) :: Index.SetPath rest path status

end index

/-- The media files that `id3.Open` can open, each with its stored tag. -/
abbrev Disk := List (Str × id3.StoredTag)

/-- The stored tag of the file at `path`, or `none` when `id3.Open` fails. -/
def Disk.open (disk : Disk) (path : Str) : Option id3.StoredTag :=
  match disk with
  | [] => none
  | (p, tag) :: rest => if p = path then some tag else Disk.open rest path

/-- The disk after a successful `tag.Save()` on the file at `path`. -/
def Disk.save (disk : Disk) (path : Str) (tag : id3.StoredTag) : Disk :=
  match disk with
  | [] => []
  | (p, old) :: rest =>
    if p = path then (p, tag) :: rest else (p, old) :: Disk.save rest path tag

/-- What the loops of `fuzzyFindTracksForSpotify` read and change: the media files, the
index `indexData`, and the map `filesWithoutIDs`. -/
structure ReconcileState where
  disk : Disk
  indexData : index.Index
  filesWithoutIDs : List Str
deriving DecidableEq, Repr

/-- The body of the loop over the files in `fuzzyFindTracksForSpotify` for one track and
one file of `filesWithoutIDs`: when the pair is a possible match the user is asked, and on
the answer `y` the file is tagged, the index set to Installed and the file removed from the
map. `confirmation` is the answer to the prompt and `saveFails` tells whether `tag.Save()`
returns an error. -/
def fuzzyFindTracksForSpotify.body (U : CaseTables) (saveFails : Str → Bool) (track : Track)
    (confirmation : Str) (st : ReconcileState) (filePath : Str) : Option ReconcileState :=
  match fuzzyFindTracksForSpotify.terms U track, track.Artists with
  | some terms, artist0 :: _ =>
    if fuzzyFindTracksForSpotify.isMatch U terms filePath then
      if strings.ToLower U confirmation = "y".toList then
        match st.disk.open filePath with
        | none => some st
        | some tag =>
          let tag := tag.SetSpotifyID track.ID
          let tag := tag.SetTitle track.Title
          let tag := tag.SetArtist artist0
          let tag := tag.SetAlbum track.Album
          let tag := tag.SetArtworkURL track.Artwork.URL
          let tag := tag.SetDuration (strconv.Itoa track.Duration)
          let tag := tag.SetTrackNumber (strconv.Itoa track.Number)
          let tag := tag.SetYear (strconv.Itoa track.Year)
          if saveFails filePath then some st
          else
            some { disk := st.disk.save filePath tag
                   indexData := st.indexData.SetPath filePath index.Status.Installed
                   filesWithoutIDs := st.filesWithoutIDs.erase filePath }
      else some st
    else some st
  | _, _ => none

/-- The first pass of `fuzzyFindTracksForSpotify`, with the directory given by the sequence
of calls that `filepath.Walk` makes: an entry with an error ends the walk with that error;
directories, paths whose lower-cased text does not end in `mp3`, and files that `id3.Open`
cannot open are skipped; a file whose stored Spotify ID is empty is added to the map
`filesWithoutIDs`. The result is the map, and whether the walk returns an error. -/
def fuzzyFindTracksForSpotify.walk (U : CaseTables) (disk : Disk) :
    List WalkEntry → List Str → List Str × Bool
  | [], filesWithoutIDs => (filesWithoutIDs, false)
  | e :: rest, filesWithoutIDs =>
    if e.err then (filesWithoutIDs, true)
    else if e.isDir then fuzzyFindTracksForSpotify.walk U disk rest filesWithoutIDs
    else if !strings.HasSuffix (strings.ToLower U e.path) TrackFormat then
      fuzzyFindTracksForSpotify.walk U disk rest filesWithoutIDs
    else
      match disk.open e.path with
      | none => fuzzyFindTracksForSpotify.walk U disk rest filesWithoutIDs
      | some tag =>
        if goLen tag.SpotifyID == 0 then
          fuzzyFindTracksForSpotify.walk U disk rest
            (if e.path ∈ filesWithoutIDs then filesWithoutIDs else filesWithoutIDs ++ [e.path])
        else fuzzyFindTracksForSpotify.walk U disk rest filesWithoutIDs

/-- The loop over the files of `filesWithoutIDs` for one track, in the order of the list
(Go leaves the order of a map unspecified). `Reads` gives the answer of `tui.Reads` to the
prompt with a given number, `asked` counts the prompts made so far: a prompt is made for
every possible match. `none` is the panic of the body on a track without artists. -/
def fuzzyFindTracksForSpotify.files (U : CaseTables) (saveFails : Str → Bool)
    (Reads : Nat → Str) (track : Track) (terms : ReconcileTerms) :
    List Str → ReconcileState → Nat → Option (ReconcileState × Nat)
  | [], st, asked => some (st, asked)
  | filePath :: rest, st, asked =>
    match fuzzyFindTracksForSpotify.body U saveFails track (Reads asked) st filePath with
    | none => none
    | some st2 =>
      fuzzyFindTracksForSpotify.files U saveFails Reads track terms rest st2
        (if fuzzyFindTracksForSpotify.isMatch U terms filePath then asked + 1 else asked)

/-- The loop over the tracks of `fuzzyFindTracksForSpotify`: for every track the terms are
computed, where `track.Artists[0]` panics on a track without artists (`none`), and then the
files that are in the map at that moment are gone through. -/
def fuzzyFindTracksForSpotify.tracks (U : CaseTables) (saveFails : Str → Bool)
    (Reads : Nat → Str) : List Track → ReconcileState → Nat → Option (ReconcileState × Nat)
  | [], st, asked => some (st, asked)
  | track :: rest, st, asked =>
    match fuzzyFindTracksForSpotify.terms U track with
    | none => none
    | some terms =>
      match fuzzyFindTracksForSpotify.files U saveFails Reads track terms st.filesWithoutIDs
          st asked with
      | none => none
      | some (st2, asked2) =>
        fuzzyFindTracksForSpotify.tracks U saveFails Reads rest st2 asked2

/-- `fuzzyFindTracksForSpotify(localPath, tracks)`: the walk collects the files without
Spotify ID; an error of the walk is returned; without such files the function returns; else
the tracks are gone through. The result is the state left behind and whether an error is
returned; `none` is the run-time panic of `track.Artists[0]` on a track without artists. -/
def fuzzyFindTracksForSpotify (U : CaseTables) (saveFails : Str → Bool) (Reads : Nat → Str)
    (dir : List WalkEntry) (tracks : List Track) (disk : Disk) (indexData : index.Index) :
    Option (ReconcileState × Bool) :=
  let walked := fuzzyFindTracksForSpotify.walk U disk dir []
  let filesWithoutIDs := walked.1
  let st : ReconcileState := { disk, indexData, filesWithoutIDs }
  if walked.2 then some (st, true)
  else if filesWithoutIDs.length == 0 then some (st, false)
  else
    (fuzzyFindTracksForSpotify.tracks U saveFails Reads tracks st 0).map fun r => (r.1, false)

/-- What `sort.Slice` asks of `less`: a strict weak ordering (asymmetric, and whatever is
below `c` is below `b` or `b` is below `c`). -/
def IsStrictWeakOrder (less : ScoredMatch → ScoredMatch → Bool) : Prop :=
  (∀ a b, less a b = true → less b a = false)
    ∧ ∀ a b c, less a c = true → less a b = true ∨ less b c = true

/-- The documented contract of `sort.Slice`: the slice is rearranged so that no element is
`less` than an element before it. The documentation adds that the sort is not guaranteed
to be stable: equal elements may be reversed from their original order. -/
def SortSliceContract
    (sortSlice : (ScoredMatch → ScoredMatch → Bool) → List ScoredMatch → List ScoredMatch) :
    Prop :=
  ∀ less, IsStrictWeakOrder less → ∀ xs,
    (sortSlice less xs).Perm xs ∧ (sortSlice less xs).Pairwise fun a b => less b a = false

/-- An insertion sort, which keeps equal elements in their original order. -/
def stableSort (less : ScoredMatch → ScoredMatch → Bool) (xs : List ScoredMatch) :
    List ScoredMatch :=
  xs.insertionSort fun a b => less b a = false

/-- A sort that puts equal elements in the reverse of their original order. -/
def tieReversingSort (less : ScoredMatch → ScoredMatch → Bool) (xs : List ScoredMatch) :
    List ScoredMatch :=
  stableSort less xs.reverse

/-! ### The Decider: `routineDecide` -/

namespace filepath

/-- Loop of `filepath.Clean` over the elements of a path: empty elements and `.` are
dropped, `..` removes the element before it, is dropped at the root, and is kept at the
start of a relative path. `out` holds the elements kept so far, last first. -/
def cleanGo (rooted : Bool) : List Str → List Str → List Str
  | [], out => out.reverse
  | e :: es, out =>
    if e = [] || e = ".".toList then cleanGo rooted es out
    else if e = "..".toList then
      match out with
      | [] => if rooted then cleanGo rooted es [] else cleanGo rooted es ["..".toList]
      | o :: os =>
        if o = "..".toList then cleanGo rooted es ("..".toList :: o :: os)
        else cleanGo rooted es os
    else cleanGo rooted es (e :: out)

/-- Go's `filepath.Clean` with `/` as the separator: the shortest path equivalent to
`path` by purely lexical processing. -/
def Clean (path : Str) : Str :=
  if path = [] then ".".toList
  else
    let rooted := path.head? = some '/'
    let out := "/".toList.intercalate (cleanGo rooted (strings.Split path "/".toList) [])
    if rooted then '/' :: out else if out = [] then ".".toList else out

/-- Go's `filepath.Join`: the non-empty elements joined by `/` and cleaned; the empty
string when there is nothing to join. -/
def Join (elem : List Str) : Str :=
  match elem.filter fun e => e != [] with
  | [] => []
  | es => Clean ("/".toList.intercalate es)

/-- Go's `filepath.Dir`: all but the last element of the path, cleaned. -/
def Dir (path : Str) : Str :=
  Clean ((path.reverse.dropWhile fun c => c != '/').reverse)

end filepath

namespace strconv

/-- The digits of `strconv.Atoi` read from left to right; `n` is the value so far. -/
def parseDigits : Str → Nat → Option Nat
  | [], n => some n
  | c :: cs, n =>
    if 48 ≤ c.toNat ∧ c.toNat ≤ 57 then parseDigits cs (n * 10 + (c.toNat - 48)) else none

/-- Go's `strconv.Atoi` for a 64-bit `int`: an optional sign and at least one decimal
digit; `none` stands for the syntax error and for the range error. -/
def Atoi (s : Str) : Option Int :=
  let negative := s.head? = some '-'
  let digits := if s.head? = some '-' ∨ s.head? = some '+' then s.drop 1 else s
  if digits = [] then none
  else
    match parseDigits digits 0 with
    | none => none
    | some n =>
      let value : Int := if negative then -(n : Int) else (n : Int)
      if -(2 ^ 63 : Int) ≤ value ∧ value ≤ 2 ^ 63 - 1 then some value else none

end strconv

namespace provider

/-- The struct `Match` of the package `provider`: the URL of a search result and its
score. -/
structure Match where
  URL : Str
  Score : Int
deriving DecidableEq, Repr

/-- Modelled from the spec: `provider.Search`, whose file is not among the sources. It
hands the track to the provider's `search` and returns a ranked list of matches,
descending by score with ties in input order (a stable sort); an empty list is not an
error, and a failure of the provider is returned as the error. `found` is what the
provider's `search` returns. -/
def Search (found : Except Str (List Match)) : Except Str (List Match) :=
  match found with
  | Except.error e => Except.error e
  | Except.ok results => Except.ok (results.insertionSort fun a b => b.Score ≤ a.Score)

end provider

/-- What the Decider reads and changes while it runs: the media files (`disk` holds those
whose tag `id3.Open` can read, `unreadable` the paths of the others), the index, the
tracks sent to the Collector queue, the errors sent to the error channel, the tracks
handed to `provider.Search`, and the paths on which `tag.Save()` was called. -/
structure DeciderState where
  disk : Disk
  unreadable : List Str
  indexData : index.Index
  collect : List Track
  errors : List Str
  searches : List Track
  saves : List Str
deriving DecidableEq, Repr

/-- What stays the same during a run of the Decider: the case tables, the parameters
`util.LegalizeFilename`, `sort.Slice` and `util.FileMoveOrCopy` (the disk after a
successful call, `none` for an error), and the arguments `manualMode` and `outputDir`
of `routineDecide`. The process has changed its working directory to `outputDir`. -/
structure DecideEnv where
  U : CaseTables
  LegalizeFilename : Str → Str
  sortSlice : (ScoredMatch → ScoredMatch → Bool) → List ScoredMatch → List ScoredMatch
  FileMoveOrCopy : Disk → Str → Str → Bool → Option Disk
  manualMode : Bool
  outputDir : Str

/-- What the surroundings supply while one track is decided: the answers of the user to the
three prompts, the calls that `filepath.Walk` makes on the output directory, what the
provider's `search` returns, and whether `tag.Save()` returns an error. -/
structure DecideInput where
  choice : Str
  url : Str
  selection : Str
  listing : List WalkEntry
  found : Except Str (List provider.Match)
  saveFails : Bool

/-- A path as the operating system resolves it in the working directory `outputDir`. -/
def inWorkingDir (outputDir path : Str) : Str :=
  if path.head? = some '/' then path else filepath.Join [outputDir, path]

/-- `os.Stat(path)` returns no error: there is a file at the path. -/
def DeciderState.stat (st : DeciderState) (path : Str) : Bool :=
  (st.disk.open path).isSome || st.unreadable.contains path

/-- The outcome of the prompt for a ranked candidate. -/
inductive Selection where
  | selected (file : Str)
  | cancelled
  | invalid
deriving DecidableEq, Repr

/-- The parsing of the selection in `routineDecide`: the empty answer is 1, an answer that
`strconv.Atoi` rejects, or a number below 0 or above `len(matches)` is invalid, 0 cancels,
and otherwise `matches[selectionNum-1]` is the selected file (`none` if that index were
out of range). -/
def routineDecide.select (fileMatches : List Str) (selection : Str) : Option Selection :=
  let parsed : Option Int :=
    if selection = [] then some 1
    else
      match strconv.Atoi selection with
      | none => none
      | some selectionNum =>
        if selectionNum < 0 ∨ selectionNum > (fileMatches.length : Int) then none
        else some selectionNum
  match parsed with
  | none => some Selection.invalid
  | some selectionNum =>
    if selectionNum = 0 then some Selection.cancelled
    else (fileMatches.get? (selectionNum - 1).toNat).map Selection.selected

/-- The sending of the track to `routineQueues[routineTypeCollect]`. -/
def DeciderState.forward (st : DeciderState) (track : Track) : DeciderState :=
  { st with collect := st.collect ++ [track] }

/-- Option 2 of manual mode: the fuzzy search of the output directory, the selection, the
tagging of the selected file and its renaming. The result is the new state and whether
the Decider returns; `none` is a panic. -/
def routineDecide.localFile (env : DecideEnv) (inp : DecideInput) (track : Track)
    (final : Str) (st : DeciderState) : Option (DeciderState × Bool) :=
  match fuzzySearchLocalFiles env.U env.sortSlice inp.listing track, track.Artists with
  | some fileMatches, artist0 :: _ =>
    if fileMatches.length = 0 then some (st, false)
    else
      match routineDecide.select fileMatches inp.selection with
      | none => none
      | some Selection.invalid => some (st, false)
      | some Selection.cancelled => some (st, false)
      | some (Selection.selected selectedFile) =>
        let expectedPath := filepath.Join [filepath.Dir selectedFile, final]
        match st.disk.open (inWorkingDir env.outputDir selectedFile) with
        | none => some (st, false)
        | some tag =>
          let tag := tag.SetSpotifyID track.ID
          let tag := tag.SetTitle track.Title
          let tag := tag.SetArtist artist0
          let tag := tag.SetAlbum track.Album
          let tag := tag.SetArtworkURL track.Artwork.URL
          let tag := tag.SetDuration (strconv.Itoa track.Duration)
          let tag := tag.SetTrackNumber (strconv.Itoa track.Number)
          let tag := tag.SetYear (strconv.Itoa track.Year)
          let st := { st with saves := st.saves ++ [inWorkingDir env.outputDir selectedFile] }
          if inp.saveFails then some (st, false)
          else
            let st :=
              { st with disk := st.disk.save (inWorkingDir env.outputDir selectedFile) tag }
            match env.FileMoveOrCopy st.disk (inWorkingDir env.outputDir selectedFile)
                (inWorkingDir env.outputDir expectedPath) true with
            | none => some (st, false)
            | some disk =>
              some ({ st with disk := disk
                              indexData := st.indexData.SetPath final index.Status.Installed },
                false)
  | _, _ => none

/-- The part of the loop body of `routineDecide` after the index status is resolved:
manual mode with its three options, or the provider search of automatic mode. The track
falls through to the Collector queue when it got an upstream URL. -/
def routineDecide.acquire (env : DecideEnv) (inp : DecideInput) (track : Track) (final : Str)
    (st : DeciderState) : Option (DeciderState × Bool) :=
  if env.manualMode then
    let choice := if inp.choice = [] then "2".toList else inp.choice
    if choice = "0".toList then some (st, false)
    else if choice = "1".toList then
      if inp.url.length = 0 then some (st, false)
      else some (st.forward { track with UpstreamURL := inp.url }, false)
    else if choice = "2".toList then routineDecide.localFile env inp track final st
    else some (st, false)
  else
    let st := { st with searches := st.searches ++ [track] }
    match provider.Search inp.found with
    | Except.error err => some ({ st with errors := st.errors ++ [err] }, true)
    | Except.ok urlMatches =>
      match urlMatches with
      | [] => some (st, false)
      | best :: _ => some (st.forward { track with UpstreamURL := best.URL }, false)

/-- The resolution of the index status in the loop body of `routineDecide`: a track without
entry gets the status Online and goes on, a track that is Online or Offline is skipped,
and any other status goes on. `indexData.Get(track)` and `indexData.Set(track, ...)`
resolve the track by its canonical final path `final` (modelled from the spec). -/
def routineDecide.resolve (env : DecideEnv) (inp : DecideInput) (track : Track) (final : Str)
    (st : DeciderState) : Option (DeciderState × Bool) :=
  match st.indexData.GetPath final with
  | none =>
    routineDecide.acquire env inp track final
      { st with indexData := st.indexData.SetPath final index.Status.Online }
  | some index.Status.Online => some (st, false)
  | some index.Status.Offline => some (st, false)
  | some _ => routineDecide.acquire env inp track final st

/-- The body of the loop of `routineDecide` for one track. First the file at the canonical
final path: with a readable tag whose Spotify ID is the track's, the index is set to
Installed; with a readable tag of another ID, the ID is rewritten and saved; in both cases
the loop continues with the next track. Otherwise the index status is resolved. The result
is the new state and whether the Decider returns; `none` is the panic of
`track.Path().Final()` on a track without artists. -/
def routineDecide.step (env : DecideEnv) (inp : DecideInput) (track : Track)
    (st : DeciderState) : Option (DeciderState × Bool) :=
  match track.Final env.LegalizeFilename with
  | none => none
  | some final =>
    let path := inWorkingDir env.outputDir final
    match (if st.stat path then st.disk.open path else none) with
    | some tag =>
      let existingID := tag.SpotifyID
      if existingID = track.ID then
        some ({ st with indexData := st.indexData.SetPath final index.Status.Installed }, false)
      else
        let tag := tag.SetSpotifyID track.ID
        let st := { st with saves := st.saves ++ [path] }
        if inp.saveFails then some (st, false)
        else some ({ st with disk := st.disk.save path tag }, false)
    | none => routineDecide.resolve env inp track final st

/-- The loop of `routineDecide` over the events of its queue, each track with what the
surroundings supply while it is decided. The loop ends when the queue is drained or when
a step returns. -/
def routineDecide.run (env : DecideEnv) :
    List (Track × DecideInput) → DeciderState → Option DeciderState
  | [], st => some st
  | (track, inp) :: events, st =>
    match routineDecide.step env inp track st with
    | none => none
    | some (st, true) => some st
    | some (st, false) => routineDecide.run env events st

/-! ### The Mixer: `routineMix` -/

namespace playlist

/-- The struct `Playlist`, with the fields that the sources and their tests use. -/
structure Playlist where
  ID : Str
  Name : Str
  Owner : Str
  Tracks : List Track
deriving DecidableEq, Repr

end playlist

/-- Modelled from the spec: `Get(track)` of the package `entity/index`: a lookup by Track
resolves the canonical final path of the track to its entry; a track without such a path
has no entry. -/
def index.Index.Get (LegalizeFilename : Str → Str) (data : index.Index) (track : Track) :
    Option index.Status :=
  match track.Final LegalizeFilename with
  | none => none
  | some final => data.GetPath final

/-- Modelled from the spec: the playlist encoder of the package `entity/playlist`, which is
not among the sources: `Encoder(format)` gives an encoder with `Add(track)` and `Close()`;
an unknown format is an error. Each field is the error that the call returns, `none` for
a call without error; `Add` and `Close` see the tracks already added. -/
structure MixEnv where
  LegalizeFilename : Str → Str
  Encoder : playlist.Playlist → Str → Option Str
  Add : playlist.Playlist → List Track → Track → Option Str
  Close : playlist.Playlist → List Track → Option Str

/-- What the Mixer produces: for each playlist that got an encoder, the tracks added to it,
and the errors sent to the error channel. -/
structure MixState where
  encoded : List (playlist.Playlist × List Track)
  errors : List Str
deriving DecidableEq, Repr

/-- The loop of `routineMix` over the tracks of one playlist: a track without entry or
with a status other than Installed and Offline is passed over; an error of `encoder.Add`
ends the loop. The result is the tracks added and the error, if any. -/
def routineMix.tracks (env : MixEnv) (indexData : index.Index) (p : playlist.Playlist) :
    List Track → List Track → List Track × Option Str
  | [], added => (added, none)
  | track :: rest, added =>
    match indexData.Get env.LegalizeFilename track with
    | none => routineMix.tracks env indexData p rest added
    | some trackStatus =>
      if trackStatus ≠ index.Status.Installed ∧ trackStatus ≠ index.Status.Offline then
        routineMix.tracks env indexData p rest added
      else
        match env.Add p added track with
        | some err => (added, some err)
        | none => routineMix.tracks env indexData p rest (added ++ [track])

/-- The loop of `routineMix` over the playlists of its queue, after the signal of the
Installer: for each playlist an encoder, the tracks, and the closing of the encoder; the
first error is sent to the error channel and the Mixer returns. -/
def routineMix (env : MixEnv) (encoding : Str) (indexData : index.Index) :
    List playlist.Playlist → MixState → MixState
  | [], st => st
  | p :: events, st =>
    match env.Encoder p encoding with
    | some err => { st with errors := st.errors ++ [err] }
    | none =>
      match routineMix.tracks env indexData p p.Tracks [] with
      | (added, some err) =>
        { encoded := st.encoded ++ [(p, added)], errors := st.errors ++ [err] }
      | (added, none) =>
        match env.Close p added with
        | some err => { encoded := st.encoded ++ [(p, added)], errors := st.errors ++ [err] }
        | none => routineMix env encoding indexData events
            { st with encoded := st.encoded ++ [(p, added)] }

/-! ### The Fetcher: `routineFetch` -/

namespace spotify

/-- A call of the catalog client. -/
inductive Call where
  | Library (limit : Int)
  | Album (id : Str)
  | Track (id : Str)
  | Playlist (id : Str)
deriving DecidableEq, Repr

/-- Modelled from the spec: the catalog client of the package `spotify`, which is not among
the sources: `Library(limit)`, `Album(id)`, `Track(id)` and `Playlist(id)` publish the
tracks they consume on the forwarding queues they are given and may fail. Each field gives
the tracks published and the error (for `Playlist`, the playlist or the error). -/
structure Client where
  Library : Int → List Track × Option Str
  Album : Str → List Track × Option Str
  Playlist : Str → List Track × Except Str playlist.Playlist
  Track : Str → List Track × Option Str

end spotify

/-- The two queues that the Fetcher closes. -/
inductive Queue where
  | Decide
  | Mix
deriving DecidableEq, Repr

/-- What the Fetcher reads and changes: the index, the tracks sent to the Decider queue,
the playlists sent to the Mixer queue, the errors sent to the error channel, the calls of
the catalog client, and the queues closed, in the order of closing. The channel `fetched`,
which only feeds the progress display, is left out. -/
structure FetchState where
  indexData : index.Index
  decide : List Track
  mix : List playlist.Playlist
  errors : List Str
  calls : List spotify.Call
  closed : List Queue
deriving DecidableEq, Repr

/-- The surroundings of the Fetcher: the catalog client, the media files, the error that
`id3.Open` returns on a path that it cannot open, and the error that `tag.Close()` returns
on a path, `none` for a call without error. -/
structure FetchEnv where
  client : spotify.Client
  disk : Disk
  openError : Str → Str
  closeError : Str → Option Str

/-- The arguments of `routineFetch`. -/
structure FetchArgs where
  library : Bool
  playlists : List Str
  playlistsTracks : List Str
  albums : List Str
  tracks : List Str
  fixes : List Str
  libraryLimit : Int

/-- `routineFetchFixesIDs`: for each path the tag is opened and its Spotify ID is read: an
empty ID is an error; otherwise the ID is collected and the path gets the status Flush.
The result is the index, which keeps the entries written before an error, and the IDs or
the error. -/
def routineFetchFixesIDs (env : FetchEnv) :
    List Str → List Str → index.Index → index.Index × Except Str (List Str)
  | [], localTracks, indexData => (indexData, Except.ok localTracks)
  | path :: fixes, localTracks, indexData =>
    match env.disk.open path with
    | none => (indexData, Except.error (env.openError path))
    | some tag =>
      let id := tag.SpotifyID
      if goLen id = 0 then
        (indexData, Except.error ("track ".toList ++ path
          ++ " does not have spotify ID metadata set".toList))
      else
        let localTracks := localTracks ++ [id]
        let indexData := indexData.SetPath path index.Status.Flush
        match env.closeError path with
        | some err => (indexData, Except.error err)
        | none => routineFetchFixesIDs env fixes localTracks indexData

/-- `routineFetchLibrary`. -/
def routineFetchLibrary (env : FetchEnv) (library : Bool) (libraryLimit : Int)
    (st : FetchState) : FetchState × Option Str :=
  if !library then (st, none)
  else
    let r := env.client.Library libraryLimit
    ({ st with calls := st.calls ++ [spotify.Call.Library libraryLimit]
               decide := st.decide ++ r.1 }, r.2)

/-- `routineFetchAlbums`. -/
def routineFetchAlbums (env : FetchEnv) : List Str → FetchState → FetchState × Option Str
  | [], st => (st, none)
  | id :: albums, st =>
    let r := env.client.Album id
    let st := { st with calls := st.calls ++ [spotify.Call.Album id]
                        decide := st.decide ++ r.1 }
    match r.2 with
    | some err => (st, some err)
    | none => routineFetchAlbums env albums st

/-- `routineFetchTracks`. -/
def routineFetchTracks (env : FetchEnv) : List Str → FetchState → FetchState × Option Str
  | [], st => (st, none)
  | id :: tracks, st =>
    let r := env.client.Track id
    let st := { st with calls := st.calls ++ [spotify.Call.Track id]
                        decide := st.decide ++ r.1 }
    match r.2 with
    | some err => (st, some err)
    | none => routineFetchTracks env tracks st

/-- The loop of `routineFetchPlaylists` from the position `index` on; `len` is
`len(playlists)`. -/
def routineFetchPlaylists.loop (env : FetchEnv) (len : Nat) :
    Nat → List Str → FetchState → FetchState × Option Str
  | _, [], st => (st, none)
  | index, id :: playlists, st =>
    let r := env.client.Playlist id
    let st := { st with calls := st.calls ++ [spotify.Call.Playlist id]
                        decide := st.decide ++ r.1 }
    match r.2 with
    | Except.error err => (st, some err)
    | Except.ok p =>
      let st := if index < len then { st with mix := st.mix ++ [p] } else st
      routineFetchPlaylists.loop env len (index + 1) playlists st

/-- `routineFetchPlaylists`. -/
def routineFetchPlaylists (env : FetchEnv) (playlists : List Str) (st : FetchState) :
    FetchState × Option Str :=
  routineFetchPlaylists.loop env playlists.length 0 playlists st

/-- The deferred calls of `routineFetch`, in the order in which they run: the Mixer queue
is closed, then the Decider queue. -/
def routineFetch.deferred (st : FetchState) : FetchState :=
  { st with closed := st.closed ++ [Queue.Mix, Queue.Decide] }

/-- The sending of an error to the error channel, followed by the return. -/
def routineFetch.fail (st : FetchState) (err : Str) : FetchState :=
  routineFetch.deferred { st with errors := st.errors ++ [err] }

/-- `routineFetch`. `indexSignal` and `authSignal` are the values received from
`routineSemaphores[routineTypeIndex]` and `routineSemaphores[routineTypeAuth]`; the second
is received only when the first is true. -/
def routineFetch (env : FetchEnv) (args : FetchArgs) (indexSignal authSignal : Bool)
    (st : FetchState) : FetchState :=
  if !indexSignal then routineFetch.deferred st
  else if !authSignal then routineFetch.deferred st
  else
    match routineFetchFixesIDs env args.fixes [] st.indexData with
    | (indexData, Except.error fixesErr) =>
      routineFetch.fail { st with indexData := indexData } fixesErr
    | (indexData, Except.ok fixesTracks) =>
      let st := { st with indexData := indexData }
      let tracks := args.tracks ++ fixesTracks
      match routineFetchLibrary env args.library args.libraryLimit st with
      | (st, some err) => routineFetch.fail st err
      | (st, none) =>
        match routineFetchAlbums env args.albums st with
        | (st, some err) => routineFetch.fail st err
        | (st, none) =>
          match routineFetchTracks env tracks st with
          | (st, some err) => routineFetch.fail st err
          | (st, none) =>
            match routineFetchPlaylists env (args.playlists ++ args.playlistsTracks) st with
            | (st, some err) => routineFetch.fail st err
            | (st, none) => routineFetch.deferred st

/-! ### The signals: `routineIndex`, `routineAuth`, `routineInstall` -/

/-- What a stage does to its channel of `routineSemaphores`. -/
inductive SignalEvent where
  | send (value : Bool)
  | close
deriving DecidableEq, Repr

/-- What a stage leaves behind: the events on its signal, in order, the errors sent to the
error channel, and whether the stage ended in a run-time panic (the deferred calls run
then as well). -/
structure StageRun where
  signal : List SignalEvent
  errors : List Str
  panicked : Bool
deriving DecidableEq, Repr

/-- The surroundings of the Indexer: the case tables; the error of `indexData.Build(path)`
and the index it leaves (the package `entity/index` is not among the sources); the error of
`spotify.Authenticate`; the tracks and the error of `spotifyClient.Library(100, tracksChan)`;
and what `fuzzyFindTracksForSpotify` reads: the calls of `filepath.Walk` below `path`, the
media files, whether `tag.Save()` fails on a file, and the answers of `tui.Reads`. For the
errors `none` is a call without error. -/
structure IndexEnv where
  U : CaseTables
  Build : Option Str
  indexData : index.Index
  Authenticate : Option Str
  Library : List Track × Option Str
  dir : List WalkEntry
  disk : Disk
  saveFails : Str → Bool
  Reads : Nat → Str

/-- `routineIndex`: a failure of `Build` sends false and the error; a failure of the
authentication for the fuzzy matching sends true; else the tracks of the library are
collected and, when there are any, `fuzzyFindTracksForSpotify` is called, whose error is
only printed, and true is sent. The deferred call closes the signal on every path, also
when `fuzzyFindTracksForSpotify` panics, in which case nothing was sent. -/
def routineIndex (env : IndexEnv) : StageRun :=
  let deferred (run : StageRun) : StageRun :=
    { run with signal := run.signal ++ [SignalEvent.close] }
  match env.Build with
  | some err => deferred { signal := [SignalEvent.send false], errors := [err], panicked := false }
  | none =>
    match env.Authenticate with
    | some _ => deferred { signal := [SignalEvent.send true], errors := [], panicked := false }
    | none =>
      let trackList := env.Library.1
      if trackList.length > 0 then
        match fuzzyFindTracksForSpotify env.U env.saveFails env.Reads env.dir trackList
            env.disk env.indexData with
        | none => deferred { signal := [], errors := [], panicked := true }
        | some _ => deferred { signal := [SignalEvent.send true], errors := [], panicked := false }
      else deferred { signal := [SignalEvent.send true], errors := [], panicked := false }

/-- `routineAuth`: a failure of `spotify.Authenticate` sends false and the error, a success
sends true. The deferred call closes the signal. -/
def routineAuth (authenticate : Option Str) : StageRun :=
  let deferred (run : StageRun) : StageRun :=
    { run with signal := run.signal ++ [SignalEvent.close] }
  match authenticate with
  | some err => deferred { signal := [SignalEvent.send false], errors := [err], panicked := false }
  | none => deferred { signal := [SignalEvent.send true], errors := [], panicked := false }

/-- What the Installer reads and changes: the index, its signal, and the errors sent to
the error channel. -/
structure InstallState where
  indexData : index.Index
  signal : List SignalEvent
  errors : List Str
deriving DecidableEq, Repr

/-- The surroundings of the Installer: `util.LegalizeFilename` and the error of
`util.FileMoveOrCopy` for a track and its third argument. -/
structure InstallEnv where
  LegalizeFilename : Str → Str
  FileMoveOrCopy : Track → Bool → Option Str

/-- The loop of `routineInstall` over its queue: the blob of the track is moved, or copied
over when the status is Flush, and the status becomes Installed; an error of the move is
sent and ends the loop. `none` is the panic on a track without artists. -/
def routineInstall.loop (env : InstallEnv) : List Track → InstallState → Option InstallState
  | [], st => some st
  | track :: events, st =>
    match track.Final env.LegalizeFilename with
    | none => none
    | some final =>
      let status := st.indexData.GetPath final
      match env.FileMoveOrCopy track (status == some index.Status.Flush) with
      | some err => some { st with errors := st.errors ++ [err] }
      | none =>
        routineInstall.loop env events
          { st with indexData := st.indexData.SetPath final index.Status.Installed }

/-- `routineInstall`: the loop, and the deferred call that closes the signal. -/
def routineInstall (env : InstallEnv) (events : List Track) (st : InstallState) :
    Option InstallState :=
  (routineInstall.loop env events st).map fun st =>
    { st with signal := st.signal ++ [SignalEvent.close] }

/-! ### The flags: `PreRun` of `cmdSync` -/

/-- The flags of the command `sync` that `PreRun` reads or sets. -/
structure SyncFlags where
  library : Bool
  playlists : List Str
  playlistsTracks : List Str
  albums : List Str
  tracks : List Str
  fixes : List Str
deriving DecidableEq, Repr

/-- `PreRun` of `cmdSync`, on the flags: when no playlist, playlist-tracks, album, track and
fix is given, the flag `library` is set to true. The making of the channels is left out. -/
def cmdSync.PreRun (flags : SyncFlags) : SyncFlags :=
  if flags.playlists.length + flags.playlistsTracks.length + flags.albums.length
      + flags.tracks.length + flags.fixes.length = 0 then
    { flags with library := true }
  else flags

/-! ### The tag with its lookup cache: `id3.Tag` -/

/-- Go's `strings.EqualFold`: the strings have the same number of runes and each rune of
the second lies in the simple-case-folding orbit of the rune of the first at its place. -/
def strings.EqualFold (U : CaseTables) : Str → Str → Bool
  | [], [] => true
  | c :: cs, d :: ds => U.foldEq c d && strings.EqualFold U cs ds
  | _, _ => false

namespace id3

/-- The constant `frameSpotifyID`. -/
def frameSpotifyID : Str := "Spotify ID".toList

/-- The struct `Tag`: of the embedded `id3v2.Tag` the user-defined text frames in their
order, each with its description (its unique identifier) and its value, and the map
`Cache` from keys to values. -/
structure Tag where
  frames : List (Str × Str)
  Cache : List (Str × Str)
deriving DecidableEq, Repr

/-- The map read `value, ok := tag.Cache[key]`. -/
def Tag.cached : List (Str × Str) → Str → Option Str
  | [], _ => none
  | (k, v) :: rest, key => if k = key then some v else Tag.cached rest key

/-- The map write `tag.Cache[key] = value`. -/
def Tag.cache : List (Str × Str) → Str → Str → List (Str × Str)
  | [], key, value => [(key, value)]
  | (k, v) :: rest, key, value =>
    if k = key then (k, value) :: rest else (k, v) :: Tag.cache rest key value

/-- `AddUserDefinedTextFrame` of the library `id3v2`: the frame takes the place of the
frame with the same description, and comes last when there is none. -/
def Tag.addFrame : List (Str × Str) → Str → Str → List (Str × Str)
  | [], key, value => [(key, value)]
  | (k, v) :: rest, key, value =>
    if k = key then (k, value) :: rest else (k, v) :: Tag.addFrame rest key value

/-- `id3.Open` on a file with the given user-defined text frames: the cache is a new,
empty map. -/
def Tag.opened (frames : List (Str × Str)) : Tag := { frames := frames, Cache := [] }

/-- `Tag.setUserDefinedText`: the frame is added; the cache is not written. -/
def Tag.setUserDefinedText (tag : Tag) (key value : Str) : Tag :=
  { tag with frames := Tag.addFrame tag.frames key value }

/-- The loop of `Tag.userDefinedText` over the frames: every frame passed is written to the
cache, and the value of the first frame whose description equals the key under
`strings.EqualFold` is returned; the empty string when there is none. -/
def Tag.userDefinedText.loop (U : CaseTables) (key : Str) :
    List (Str × Str) → List (Str × Str) → Str × List (Str × Str)
  | [], cache => ([], cache)
  | (description, value) :: rest, cache =>
    let cache := Tag.cache cache description value
    if strings.EqualFold U description key then (value, cache)
    else Tag.userDefinedText.loop U key rest cache

/-- `Tag.userDefinedText`: the value of the cache when it has the key, otherwise the loop
over the frames. The result is the value and the tag with its cache as written. -/
def Tag.userDefinedText (U : CaseTables) (tag : Tag) (key : Str) : Str × Tag :=
  match Tag.cached tag.Cache key with
  | some value => (value, tag)
  | none =>
    let r := Tag.userDefinedText.loop U key tag.frames tag.Cache
    (r.1, { tag with Cache := r.2 })

/-- `Tag.SetSpotifyID` on the tag with its cache. -/
def Tag.SetSpotifyID (tag : Tag) (id : Str) : Tag := tag.setUserDefinedText frameSpotifyID id

/-- `Tag.SpotifyID` on the tag with its cache. -/
def Tag.SpotifyID (U : CaseTables) (tag : Tag) : Str × Tag :=
  tag.userDefinedText U frameSpotifyID

end id3

/-! ### The provider: `youTube.search` -/

/-- A Go `int` of 64 bits: the value wrapped around into the range from `-2^63` to
`2^63 - 1`. -/
def wrapInt (x : Int) : Int := (x + 9223372036854775808) % 18446744073709551616
  - 9223372036854775808

/-- Modelled from the spec: `util.ErrWrap(defaultValue)(value, err)`, whose file is not
among the sources: by its test `TestUtilErrWrap` it gives the value when the error is
`nil` and the default value otherwise. A result with an error is `none`. -/
def util.ErrWrap (defaultValue : Int) (result : Option Int) : Int := result.getD defaultValue

namespace float64

/-- The spacing of the doubles at the size of `m`: the least power of two `q`, from `q` on,
with `m < 2^53 * q`; `fuel` bounds the search. -/
def spacing (m : Nat) : Nat → Nat → Nat
  | 0, q => q
  | fuel + 1, q => if m < 9007199254740992 * q then q else spacing m fuel (2 * q)

/-- The conversion `float64(n)` of an integer, as the integer that the result stands for:
`n` itself below `2^53`, and otherwise the nearest multiple of the spacing of the doubles
at the size of `n`, a tie going to the even mantissa. The search for the spacing covers the
integers below `2^117`, and so the integers of 64 bits and their differences. -/
def ofInt (n : Int) : Int :=
  let m := n.natAbs
  if m < 9007199254740992 then n
  else
    let q := spacing m 64 1
    let mantissa := m / q
    let r := m % q
    let roundUp := 2 * r > q || (2 * r == q && mantissa % 2 == 1)
    let v : Nat := (if roundUp then mantissa + 1 else mantissa) * q
    if n < 0 then -(v : Int) else (v : Int)

/-- The difference `a - b` of two doubles that stand for integers: the exact difference,
rounded like a conversion. -/
def sub (a b : Int) : Int := ofInt (a - b)

/-- The conversion `int(f)` of a double that stands for an integer; outside the range of
`int` the result depends on the implementation and is `none`. -/
def toInt (f : Int) : Option Int :=
  if -9223372036854775808 ≤ f ∧ f < 9223372036854775808 then some f else none

end float64

namespace provider

/-- The struct `youTubeResult`. -/
structure youTubeResult where
  id : Str
  title : Str
  owner : Str
  views : Int
  length : Int
deriving DecidableEq, Repr

/-- The closure of `youTube.search` that reads the length of a video from its text: 0 for
the empty text, otherwise the first two fields between colons as minutes and seconds, a
field that `strconv.Atoi` rejects counting as 0. `none` is the panic of an index out of
range. -/
def youTube.length (length : Str) : Option Int :=
  if length = [] then some 0
  else
    let digits := strings.Split length ":".toList
    match digits.get? 0 with
    | none => none
    | some field0 =>
      let minutes := util.ErrWrap 0 (strconv.Atoi field0)
      match digits.get? 1 with
      | none => none
      | some field1 =>
        let seconds := util.ErrWrap 0 (strconv.Atoi field1)
        some (wrapInt (wrapInt (minutes * 60) + seconds))

/-- The parts of the score of `youTube.search` that are not modelled: `titleScore`, from
the Levenshtein distance of the search query and of owner and title, and `viewsScore`,
the views times `0.000001`, both as the `int` that they are converted to. -/
structure ScoreEnv where
  titleScore : Str → Str → Str → Int
  viewsScore : Int → Int

/-- The local `durationScore` of `youTube.search`:
`int(math.Abs(float64(result.length)-float64(track.Duration)) * 2.0)`. -/
def youTube.durationScore (length duration : Int) : Option Int :=
  float64.toInt ((float64.sub (float64.ofInt length) (float64.ofInt duration)).natAbs * 2)

/-- The score that `youTube.search` gives to a result:
`viewsScore - titleScore - durationScore`. The search query is `searchKeys.Get`, the title
of the track. -/
def youTube.score (env : ScoreEnv) (track : Track) (result : youTubeResult) : Option Int :=
  let titleScore := env.titleScore track.Title result.owner result.title
  let durationScore := youTube.durationScore result.length track.Duration
  let viewsScore := env.viewsScore result.views
  durationScore.map fun durationScore => wrapInt (wrapInt (viewsScore - titleScore) - durationScore)

end provider

/-! ### Definitions that follow the wording of the specification -/

/-- A string cut off at the first position whose remaining text satisfies `p`. -/
def cutWhen (p : Str → Bool) : Str → Str
  | [] => []
  | c :: cs => if p (c :: cs) then [] else c :: cutWhen p cs

/-- The title truncated at the earliest occurrence of any of the given separators (the
whole title when there is none). -/
def truncateAtSeparators (seps : List Str) (title : Str) : Str :=
  cutWhen (fun rest => seps.any fun sep => sep.isPrefixOf rest) title

/-- The separators named for `Track.Song`. -/
def songSeparators : List Str := [" - ".toList, " (".toList, " [".toList]

/-- The text before and the text after the first occurrence of `sep`, if there is one. -/
def splitAtFirst (sep : Str) : Str → Option (Str × Str)
  | [] => if sep.isPrefixOf [] then some ([], []) else none
  | c :: cs =>
    if sep.isPrefixOf (c :: cs) then some ([], (c :: cs).drop sep.length)
    else (splitAtFirst sep cs).map fun pr => (c :: pr.1, pr.2)

/-- An artist name with every `.` removed. -/
def withoutDots (artist : Str) : Str := artist.filter fun c => c != '.'

/-- The title part `T` of the canonical name: when the title has its first ` - ` at a
position greater than 0, the trimmed text before it followed by the trimmed text after it
in parentheses; otherwise the title itself. -/
def canonicalTitle (title : Str) : Str :=
  match splitAtFirst " - ".toList title with
  | some (before, after) =>
    if 0 < before.length then
      strings.TrimSpace before ++ " (".toList ++ strings.TrimSpace after ++ ")".toList
    else title
  | none => title

/-- The part `F` of the canonical name: nothing for a single artist, otherwise the
remaining artists without dots, in order, joined by `, ` inside ` (ft ...)`. -/
def featuringSuffix (others : List Str) : Str :=
  match others with
  | [] => []
  | _ :: _ => " (ft ".toList ++ ", ".toList.intercalate (others.map withoutDots) ++ ")".toList

/-- The value 1 for a condition that holds and 0 for one that does not. -/
def indicator (b : Bool) : Nat := if b then 1 else 0

/-- The name contains the text, case-insensitively. -/
def containsIgnoringCase (U : CaseTables) (name text : Str) : Bool := regexp.MatchFold U text name

/-- The name without its extension. -/
def withoutExtension (name : Str) : Str := strings.TrimSuffix name (filepath.Ext name)

/-- The name without extension contains ` - ` and, split at its first ` - `, the
normalized left part contains the normalized artist and the normalized right part contains
the normalized base title. -/
def splitHalvesMatch (U : CaseTables) (track : Track) (artist : Str) (name : Str) : Bool :=
  match splitAtFirst " - ".toList (withoutExtension name) with
  | some (left, right) =>
    strings.Contains (fuzzySearchLocalFiles.cleanTerm U left)
        (fuzzySearchLocalFiles.cleanTerm U artist)
      && strings.Contains (fuzzySearchLocalFiles.cleanTerm U right)
        (fuzzySearchLocalFiles.cleanTerm U track.Song)
  | none => false

/-- The number of words of the normalized text that are longer than 3 characters and are
contained in the normalized file name. -/
def matchedWordCount (U : CaseTables) (text name : Str) : Nat :=
  ((strings.Fields (fuzzySearchLocalFiles.cleanTerm U text)).filter fun word =>
    decide (word.length > 3)
      && strings.Contains (fuzzySearchLocalFiles.cleanTerm U name) word).length

/-- The score of a file name for a track with primary artist `artist`, as the sum of its
six contributions, the words counted being those longer than 3 characters. -/
def scoreFormula (U : CaseTables) (track : Track) (artist : Str) (name : Str) : Nat :=
  100 * indicator (containsIgnoringCase U name (withoutDots artist ++ " - ".toList ++ track.Song))
    + 50 * indicator (containsIgnoringCase U name artist)
    + 40 * indicator (containsIgnoringCase U name track.Song)
    + 30 * indicator (splitHalvesMatch U track artist name)
    + 5 * matchedWordCount U track.Title name
    + 5 * matchedWordCount U artist name

/-- The number of words of the normalized text whose UTF-8 encoding is longer than 3 bytes
and that are contained in the normalized file name. A word of ASCII characters has as many
bytes as characters; a word with other characters has more bytes than characters. -/
def matchedWordCountBytes (U : CaseTables) (text name : Str) : Nat :=
  ((strings.Fields (fuzzySearchLocalFiles.cleanTerm U text)).filter fun word =>
    decide (goLen word > 3)
      && strings.Contains (fuzzySearchLocalFiles.cleanTerm U name) word).length

/-- The sum of the six contributions with the words counted by bytes: those whose UTF-8
encoding is longer than 3 bytes. -/
def scoreFormulaBytes (U : CaseTables) (track : Track) (artist : Str) (name : Str) : Nat :=
  100 * indicator (containsIgnoringCase U name (withoutDots artist ++ " - ".toList ++ track.Song))
    + 50 * indicator (containsIgnoringCase U name artist)
    + 40 * indicator (containsIgnoringCase U name track.Song)
    + 30 * indicator (splitHalvesMatch U track artist name)
    + 5 * matchedWordCountBytes U track.Title name
    + 5 * matchedWordCountBytes U artist name

/-- The score of the file at `path` for the track, 0 when the track has no artist. -/
def pathScore (U : CaseTables) (track : Track) (path : Str) : Nat :=
  (fuzzyScore U track path).getD 0

/-- The entries of the listing that the walk function of `fuzzySearchLocalFiles` keeps (no
error, not a directory, lower-cased path ending in `mp3`) and that have a score greater
than 0, in walk order. -/
def positiveFiles (U : CaseTables) (track : Track) (dir : List WalkEntry) : List WalkEntry :=
  dir.filter fun e =>
    fuzzySearchLocalFiles.isMusicFile U e && decide (0 < pathScore U track e.path)

/-- A `.mp3` file: an entry of the listing that is read without error, is not a directory,
and whose lower-cased path ends in `.mp3`. -/
def isMp3File (U : CaseTables) (e : WalkEntry) : Bool :=
  !e.err && !e.isDir && strings.HasSuffix (strings.ToLower U e.path) ".mp3".toList

/-- The `.mp3` files of the listing with a score greater than 0, in walk order. -/
def positiveMp3Files (U : CaseTables) (track : Track) (dir : List WalkEntry) : List WalkEntry :=
  dir.filter fun e => isMp3File U e && decide (0 < pathScore U track e.path)

/-- The text added to the name at position `i`. -/
def insertAt (i : Nat) (text name : Str) : Str := name.take i ++ text ++ name.drop i

/-- The exact string `<Artist> - <Title>` of a track with primary artist `artist`. -/
def artistTitle (artist : Str) (track : Track) : Str := artist ++ " - ".toList ++ track.Title

/-- A plain file in the music directory. -/
def file (name : String) : WalkEntry := { path := name.toList, isDir := false, err := false }

/-- Thirteen files in walk (lexical) order: twelve that only name the artist, then one
that is named after the track. -/
def thirteenFiles : List WalkEntry :=
  [file "A01 Artist.mp3", file "A02 Artist.mp3", file "A03 Artist.mp3", file "A04 Artist.mp3",
   file "A05 Artist.mp3", file "A06 Artist.mp3", file "A07 Artist.mp3", file "A08 Artist.mp3",
   file "A09 Artist.mp3", file "A10 Artist.mp3", file "A11 Artist.mp3", file "A12 Artist.mp3",
   file "Z Artist - Title.mp3"]

/-- A track by a dotted artist, without variant in its title. -/
def dottedTrack : Track := mkTrack "1" "Song" ["A.B."]

/-- A track by an artist without dots. -/
def plainTrack : Track := mkTrack "1" "Title" ["Artist"]

/-- The normalized file name of local-file reconciliation. -/
def normalizedFileName (U : CaseTables) (filePath : Str) : Str :=
  fuzzyFindTracksForSpotify.cleanTerm U (strings.ToLower U (filepath.Base filePath))

/-- Rule (a): the normalized file name contains both the normalized primary artist and the
normalized title. -/
def ruleArtistTitle (U : CaseTables) (track : Track) (artist : Str) (filePath : Str) : Bool :=
  strings.Contains (normalizedFileName U filePath) (fuzzyFindTracksForSpotify.cleanTerm U artist)
    && strings.Contains (normalizedFileName U filePath)
      (fuzzyFindTracksForSpotify.cleanTerm U track.Title)

/-- Rule (b): the normalized file name contains the normalized artist and the normalized
base title. -/
def ruleArtistBaseTitle (U : CaseTables) (track : Track) (artist : Str) (filePath : Str) :
    Bool :=
  strings.Contains (normalizedFileName U filePath) (fuzzyFindTracksForSpotify.cleanTerm U artist)
    && strings.Contains (normalizedFileName U filePath)
      (fuzzyFindTracksForSpotify.cleanTerm U (fuzzyFindTracksForSpotify.baseTitle track.Title))

/-- The words of the normalized text that are longer than 3 characters and occur in the
normalized file name. -/
def wordsInFileName (U : CaseTables) (text filePath : Str) : List Str :=
  (strings.Fields (fuzzyFindTracksForSpotify.cleanTerm U text)).filter fun word =>
    decide (word.length > 3) && strings.Contains (normalizedFileName U filePath) word

/-- Rule (c): at least two words longer than 3 characters of the normalized title and
artist occur in the normalized file name, at least one of them from the title and at least
one from the artist. -/
def ruleWords (U : CaseTables) (track : Track) (artist : Str) (filePath : Str) : Bool :=
  decide (2 ≤ (wordsInFileName U track.Title filePath).length
      + (wordsInFileName U artist filePath).length)
    && !(wordsInFileName U track.Title filePath).isEmpty
    && !(wordsInFileName U artist filePath).isEmpty

/-- The words of the normalized text whose UTF-8 encoding is longer than 3 bytes and that
occur in the normalized file name. A word of ASCII characters has as many bytes as
characters; a word with other characters has more bytes than characters. -/
def wordsInFileNameBytes (U : CaseTables) (text filePath : Str) : List Str :=
  (strings.Fields (fuzzyFindTracksForSpotify.cleanTerm U text)).filter fun word =>
    decide (goLen word > 3) && strings.Contains (normalizedFileName U filePath) word

/-- Rule (c) with the words counted by bytes: at least two words of the normalized title and
artist whose UTF-8 encoding is longer than 3 bytes occur in the normalized file name, at
least one of them from the title and at least one from the artist. -/
def ruleWordsBytes (U : CaseTables) (track : Track) (artist : Str) (filePath : Str) : Bool :=
  decide (2 ≤ (wordsInFileNameBytes U track.Title filePath).length
      + (wordsInFileNameBytes U artist filePath).length)
    && !(wordsInFileNameBytes U track.Title filePath).isEmpty
    && !(wordsInFileNameBytes U artist filePath).isEmpty

/-- A track whose title and artist have words of three characters that take more than three
bytes. -/
def accentTrack : Track := mkTrack "1" "été" ["Zoé Kim"]

/-- A file named after the words of `accentTrack`, the artist in another order. -/
def accentFile : Str := "kim zoé été.mp3".toList

/-- The replacements of `cleanTerm` in `fuzzyFindTracksForSpotify`, in order: what is
replaced, and by what. -/
def reconcileReplacements : List (Str × Str) :=
  [("&".toList, "and".toList), ("-".toList, " ".toList), ("_".toList, " ".toList),
   ("(".toList, " ".toList), (")".toList, " ".toList), ("[".toList, " ".toList),
   ("]".toList, " ".toList), ("feat.".toList, "".toList), ("feat".toList, "".toList),
   ("ft.".toList, "".toList), ("ft".toList, "".toList), ("mix".toList, "".toList),
   ("remix".toList, "".toList), ("edit".toList, "".toList), ("version".toList, "".toList)]

/-- The characters that `cleanTerm` of `fuzzyFindTracksForSpotify` replaces one by one. -/
def reconcileStripped : Str := "&-_()[]".toList

/-- The file of the reconciliation scenario, named without the dots of the artist. -/
def dotlessFile : Str := "ab - song remix.mp3".toList

/-- The same file named with the dots of the artist. -/
def dottedFile : Str := "a.b. - song remix.mp3".toList

/-- A state with both files untagged and not indexed. -/
def untaggedState : ReconcileState :=
  { disk := [(dotlessFile, id3.StoredTag.empty), (dottedFile, id3.StoredTag.empty)]
    indexData := []
    filesWithoutIDs := [dotlessFile, dottedFile] }

/-- A Decider in automatic mode in the output directory `/music`, with a legalization that
changes nothing, the stable sort, and a `FileMoveOrCopy` that never succeeds. -/
def automaticEnv : DecideEnv :=
  { U := asciiTables
    LegalizeFilename := id
    sortSlice := stableSort
    FileMoveOrCopy := fun _ _ _ _ => none
    manualMode := false
    outputDir := "/music".toList }

/-- Surroundings in which the user answers nothing, the directory is empty, the provider
finds the given matches, and `tag.Save()` fails or not as told. -/
def quietInput (found : Except Str (List provider.Match)) (saveFails : Bool) : DecideInput :=
  { choice := [], url := [], selection := [], listing := [], found := found
    saveFails := saveFails }

/-- The canonical final path of the scenario track in the output directory `/music`. -/
def scenarioPath : Str := "/music/AB - Song (Remix).mp3".toList

/-- A state of the Decider with one readable file at the canonical final path of the
scenario track, tagged with the given Spotify ID and title, and the given index. -/
def installedState (id title : String) (indexData : index.Index) : DeciderState :=
  { disk := [(scenarioPath,
      { id3.StoredTag.empty with SpotifyID := id.toList, Title := title.toList })]
    unreadable := []
    indexData := indexData
    collect := []
    errors := []
    searches := []
    saves := [] }

/-- A state of the Decider without any file, with the given index. -/
def emptyState (indexData : index.Index) : DeciderState :=
  { disk := [], unreadable := [], indexData := indexData, collect := [], errors := []
    searches := [], saves := [] }

/-- A `FileMoveOrCopy` that succeeds whenever the source can be opened: the file is
afterwards at the destination, replacing what was there, and no longer at the source. -/
def renameFile (disk : Disk) (src dst : Str) (_overwrite : Bool) : Option Disk :=
  match disk.open src with
  | none => none
  | some tag =>
    if src = dst then some disk
    else some ((dst, tag) :: disk.filter fun e => e.1 != src && e.1 != dst)

/-- A Decider in manual mode in the output directory `/music`, with a legalization that
changes nothing, the stable sort, and `renameFile`. -/
def manualEnv : DecideEnv :=
  { U := asciiTables
    LegalizeFilename := id
    sortSlice := stableSort
    FileMoveOrCopy := renameFile
    manualMode := true
    outputDir := "/music".toList }

/-- Surroundings of manual mode in which the user takes the default option, the local-file
search, on the given listing and answers the selection prompt as given. -/
def manualInput (listing : List WalkEntry) (selection : String) (saveFails : Bool) :
    DecideInput :=
  { choice := [], url := [], selection := selection.toList, listing := listing
    found := Except.ok [], saveFails := saveFails }

/-- A state of the Decider with the given readable files, all untagged, and an empty
index. -/
def localState (paths : List String) : DeciderState :=
  { disk := paths.map fun path => (path.toList, id3.StoredTag.empty)
    unreadable := []
    indexData := []
    collect := []
    errors := []
    searches := []
    saves := [] }

/-- Two candidates for the scenario track, the first directly in the output directory
`/music`, the second in a subdirectory. -/
def twoCandidates : List WalkEntry :=
  [file "/music/ab song.mp3", file "/music/sub/x ab song remix.mp3"]

/-- The state of the Decider with the two candidates as untagged files. -/
def twoCandidatesState : DeciderState :=
  localState ["/music/ab song.mp3", "/music/sub/x ab song remix.mp3"]

/-- The rule of the specification for the Mixer: the Index status of the track is
Installed or Offline. -/
def mixable (LegalizeFilename : Str → Str) (data : index.Index) (track : Track) : Bool :=
  decide (data.Get LegalizeFilename track = some index.Status.Installed
    ∨ data.Get LegalizeFilename track = some index.Status.Offline)

/-- The track `T<n>` by `Artist`, whose canonical final path is `Artist - T<n>.mp3`. -/
def numberedTrack (n : String) : Track := mkTrack n ("T" ++ n) ["Artist"]

/-- A playlist of five tracks. -/
def fivePlaylist : playlist.Playlist :=
  { ID := "p".toList, Name := "Playlist".toList, Owner := "Owner".toList
    Tracks := [numberedTrack "1", numberedTrack "2", numberedTrack "3", numberedTrack "4",
      numberedTrack "5"] }

/-- An index in which the first track is Installed, the second has no entry, the third is
Online, the fourth Offline and the fifth Flush. -/
def fiveIndex : index.Index :=
  [("Artist - T1.mp3".toList, index.Status.Installed),
    ("Artist - T3.mp3".toList, index.Status.Online),
    ("Artist - T4.mp3".toList, index.Status.Offline),
    ("Artist - T5.mp3".toList, index.Status.Flush)]

/-- An encoder that never fails. -/
def soundMixEnv : MixEnv :=
  { LegalizeFilename := id
    Encoder := fun _ _ => none
    Add := fun _ _ _ => none
    Close := fun _ _ => none }

/-- An encoder whose `Add` fails once a track is in the playlist. -/
def fullMixEnv : MixEnv :=
  { LegalizeFilename := id
    Encoder := fun _ _ => none
    Add := fun _ added _ => if added = [] then none else some "no space left".toList
    Close := fun _ _ => none }

/-- The Mixer before its first playlist. -/
def MixState.start : MixState := { encoded := [], errors := [] }

/-- A catalog client with one library track, one album of one track, and one playlist of
one track, which never fails. -/
def smallClient : spotify.Client :=
  { Library := fun _ => ([numberedTrack "1"], none)
    Album := fun _ => ([numberedTrack "2"], none)
    Playlist := fun id =>
      ([numberedTrack "3"],
        Except.ok { ID := id, Name := "Playlist".toList, Owner := "Owner".toList
                    Tracks := [numberedTrack "3"] })
    Track := fun id => ([mkTrack (String.mk id) "Single" ["Artist"]], none) }

/-- Surroundings of the Fetcher with the small client and no media file. -/
def smallFetchEnv : FetchEnv :=
  { client := smallClient, disk := [], openError := fun path => "cannot open ".toList ++ path
    closeError := fun _ => none }

/-- Arguments of the Fetcher that ask for the library, one album, one track and one
playlist. -/
def smallFetchArgs : FetchArgs :=
  { library := true, playlists := ["p".toList], playlistsTracks := [], albums := ["a".toList]
    tracks := ["9".toList], fixes := [], libraryLimit := 0 }

/-- The Fetcher before it starts. -/
def FetchState.start : FetchState :=
  { indexData := [], decide := [], mix := [], errors := [], calls := [], closed := [] }

/-- An Installer whose moves never fail. -/
def soundInstallEnv : InstallEnv :=
  { LegalizeFilename := id, FileMoveOrCopy := fun _ _ => none }

/-- An Installer whose moves always fail. -/
def fullInstallEnv : InstallEnv :=
  { LegalizeFilename := id, FileMoveOrCopy := fun _ _ => some "no space left".toList }

/-- The Installer before it starts. -/
def InstallState.start : InstallState := { indexData := [], signal := [], errors := [] }

/-- An Indexer whose `Build` and authentication succeed or fail as told, with a library
of one track, and a music directory with one untagged file named after that track; the user
answers `y` to every prompt. -/
def smallIndexEnv (build authenticate : Option Str) : IndexEnv :=
  { U := asciiTables
    Build := build
    indexData := []
    Authenticate := authenticate
    Library := ([numberedTrack "1"], none)
    dir := [file "Artist - T1.mp3"]
    disk := [("Artist - T1.mp3".toList, id3.StoredTag.empty)]
    saveFails := fun _ => false
    Reads := fun _ => "y".toList }

/-- The same Indexer, `Build` and authentication succeeding, with a library whose second
track has no artist. -/
def artistlessIndexEnv : IndexEnv :=
  { smallIndexEnv none none with
    Library := ([numberedTrack "1", mkTrack "2" "T2" []], none) }

/-- Surroundings of the Fetcher with the small client and two media files: `/music/a.mp3`
without Spotify ID and `/music/b.mp3` with the Spotify ID `7`. -/
def fixFetchEnv : FetchEnv :=
  { client := smallClient
    disk := [("/music/a.mp3".toList, id3.StoredTag.empty),
      ("/music/b.mp3".toList, { id3.StoredTag.empty with SpotifyID := "7".toList })]
    openError := fun path => "cannot open ".toList ++ path
    closeError := fun _ => none }

/-- Arguments of the Fetcher that ask for the given fixes only. -/
def fixFetchArgs (fixes : List String) : FetchArgs :=
  { library := false, playlists := [], playlistsTracks := [], albums := [], tracks := []
    fixes := fixes.map String.toList, libraryLimit := 0 }

/-- The error of a call of the catalog client, `none` for a call without error. -/
def callError (client : spotify.Client) : spotify.Call → Option Str
  | spotify.Call.Library limit => (client.Library limit).2
  | spotify.Call.Album id => (client.Album id).2
  | spotify.Call.Track id => (client.Track id).2
  | spotify.Call.Playlist id =>
    match (client.Playlist id).2 with
    | Except.error err => some err
    | Except.ok _ => none

/-- The calls made of a list of calls when they are made in order until one fails: the
calls up to and including the first that fails, and its error. -/
def callsUntilFailure (client : spotify.Client) : List spotify.Call →
    List spotify.Call × Option Str
  | [] => ([], none)
  | c :: cs =>
    match callError client c with
    | some err => ([c], some err)
    | none => (c :: (callsUntilFailure client cs).1, (callsUntilFailure client cs).2)

/-- The catalog retrievals of a run in the order library, albums, tracks (explicit IDs
followed by fix IDs), playlists (followed by playlist-tracks). -/
def plannedCalls (args : FetchArgs) (fixIDs : List Str) : List spotify.Call :=
  (if args.library then [spotify.Call.Library args.libraryLimit] else [])
    ++ args.albums.map spotify.Call.Album
    ++ (args.tracks ++ fixIDs).map spotify.Call.Track
    ++ (args.playlists ++ args.playlistsTracks).map spotify.Call.Playlist

/-- The playlist that the catalog client returns for an ID, if it returns one. -/
def playlistOf (client : spotify.Client) (id : Str) : Option playlist.Playlist :=
  match (client.Playlist id).2 with
  | Except.error _ => none
  | Except.ok p => some p

/-- What the four loops of the Fetcher have in common: they only add to the calls, in the
order given and until one fails, return its error, and leave the errors sent, the queues
closed and the index alone. -/
def FetchesCalls (client : spotify.Client) (calls : List spotify.Call) (st : FetchState)
    (r : FetchState × Option Str) : Prop :=
  r.1.calls = st.calls ++ (callsUntilFailure client calls).1
    ∧ r.2 = (callsUntilFailure client calls).2
    ∧ r.1.errors = st.errors ∧ r.1.closed = st.closed ∧ r.1.indexData = st.indexData

/-- The outcome of the Fetcher for the catalog retrievals `calls`: they are made in order
until one fails, exactly the error of that one is sent, and both queues are closed. -/
def FetchOutcome (client : spotify.Client) (calls : List spotify.Call) (st out : FetchState) :
    Prop :=
  out.calls = st.calls ++ (callsUntilFailure client calls).1
    ∧ out.errors = st.errors ++ (callsUntilFailure client calls).2.toList
    ∧ out.closed = st.closed ++ [Queue.Mix, Queue.Decide]

/-- Arguments of the Fetcher that ask for the tracks of the playlist `q` without its
playlist file, and for nothing else. -/
def playlistTracksArgs : FetchArgs :=
  { library := false, playlists := [], playlistsTracks := ["q".toList], albums := []
    tracks := [], fixes := [], libraryLimit := 0 }

/-- A catalog client like the small one whose `Album` fails. -/
def albumFailingClient : spotify.Client :=
  { smallClient with Album := fun _ => ([], some "failure".toList) }

/-- Surroundings of the Fetcher whose catalog client fails on albums. -/
def albumFailingEnv : FetchEnv := { smallFetchEnv with client := albumFailingClient }

/-- The state of a Decider in automatic mode that works on tracks with the canonical final
paths `F`, none of which holds a file: each of these paths has no entry or the status
Online, every track in the Collector queue has a canonical final path with the status
Online, and no two tracks in the Collector queue have the same canonical final path. -/
def ForwardedOnce (LegalizeFilename : Str → Str) (outputDir : Str) (F : Str → Prop)
    (s : DeciderState) : Prop :=
  (∀ f, F f → s.stat (inWorkingDir outputDir f) = false)
    ∧ (∀ f, F f → s.indexData.GetPath f = none
        ∨ s.indexData.GetPath f = some index.Status.Online)
    ∧ (∀ t ∈ s.collect, ∃ f, t.Final LegalizeFilename = some f
        ∧ s.indexData.GetPath f = some index.Status.Online)
    ∧ (s.collect.map (Track.Final LegalizeFilename)).Nodup

/-- A track whose title starts with a blank: ` X - Y`, by `Artist`. -/
def leadingBlankTrack : Track := mkTrack "1" " X - Y" ["Artist"]

/-- A tag opened from a file whose frame `Spotify ID` holds `999`. -/
def taggedFile : id3.Tag := id3.Tag.opened [("Spotify ID".toList, "999".toList)]

/-- A score in which the title and the views count for nothing. -/
def lengthOnlyEnv : provider.ScoreEnv := { titleScore := fun _ _ _ => 0, viewsScore := fun _ => 0 }

/-- A track with a duration of `2^55` seconds. -/
def longTrack : Track := { plainTrack with Duration := 36028797018963968 }

/-- A provider result of the given length, in seconds. -/
def resultOfLength (length : Int) : provider.youTubeResult :=
  { id := "v".toList, title := "Title".toList, owner := "Artist".toList, views := 0
    length := length }

/-! ## Lemmas on the string primitives -/

theorem splitGo_headD (sep : Str) (s cur : Str) :
    (strings.splitGo sep s 0 cur).headD [] = cur.reverse ++ cutWhen (fun r => sep.isPrefixOf r) s := by
  induction s generalizing cur with
  | nil => simp [strings.splitGo, cutWhen]
  | cons c cs ih =>
    by_cases h : sep.isPrefixOf (c :: cs) = true
    · simp [strings.splitGo, cutWhen, h]
    · simp only [strings.splitGo, cutWhen, h]
      simpa using ih (c :: cur)

theorem Split_headD (sep s : Str) (hsep : sep ≠ []) :
    (strings.Split s sep).headD [] = cutWhen (fun r => sep.isPrefixOf r) s := by
  have := splitGo_headD sep s []
  simp only [strings.Split, hsep, if_false]
  simpa using this

theorem cutWhen_append_sep (sep : Str) (hsep : sep ≠ []) (s : Str) :
    cutWhen (fun r => sep.isPrefixOf r) (s ++ sep)
      = cutWhen (fun r => sep.isPrefixOf (r ++ sep)) s := by
  induction s with
  | nil =>
    cases sep with
    | nil => exact absurd rfl hsep
    | cons a as => simp [cutWhen]
  | cons c cs ih => simp [cutWhen, ih]

theorem cutWhen_cutWhen (p q q2 : Str → Bool)
    (h : ∀ c cs, p (c :: cs) = false → q (c :: cutWhen p cs) = q2 (c :: cs)) (s : Str) :
    cutWhen q (cutWhen p s) = cutWhen (fun r => p r || q2 r) s := by
  induction s with
  | nil => simp [cutWhen]
  | cons c cs ih =>
    by_cases hp : p (c :: cs) = true
    · simp [cutWhen, hp]
    · have hp2 : p (c :: cs) = false := by simpa using hp
      have := h c cs hp2
      simp [cutWhen, hp2, this, ih]

theorem cutWhen_congr (p q : Str → Bool) (s : Str)
    (h : ∀ r, r <:+ s → r ≠ [] → p r = q r) : cutWhen p s = cutWhen q s := by
  induction s with
  | nil => simp [cutWhen]
  | cons c cs ih =>
    have h1 := h (c :: cs) (List.suffix_refl _) (by simp)
    have h2 := ih (fun r hr hne => h r (hr.trans (List.suffix_cons c cs)) hne)
    simp [cutWhen, h1, h2]

theorem cutWhen_eq_self (p : Str → Bool) (s : Str)
    (h : ∀ r, r <:+ s → r ≠ [] → p r = false) : cutWhen p s = s := by
  induction s with
  | nil => simp [cutWhen]
  | cons c cs ih =>
    have h1 := h (c :: cs) (List.suffix_refl _) (by simp)
    have h2 := ih (fun r hr hne => h r (hr.trans (List.suffix_cons c cs)) hne)
    simp [cutWhen, h1, h2]

theorem splitAtFirst_some (sep s a b : Str) (h : splitAtFirst sep s = some (a, b)) :
    a = s.take a.length ∧ b = s.drop (a.length + sep.length)
      ∧ sep.isPrefixOf (s.drop a.length) = true := by
  induction s generalizing a b with
  | nil =>
    by_cases hs : sep.isPrefixOf [] = true
    · simp [splitAtFirst, hs] at h
      obtain ⟨rfl, rfl⟩ := h
      simp [hs]
    · simp [splitAtFirst, hs] at h
  | cons c cs ih =>
    by_cases hs : sep.isPrefixOf (c :: cs) = true
    · simp only [splitAtFirst, hs, if_true, Option.some.injEq, Prod.mk.injEq] at h
      obtain ⟨rfl, rfl⟩ := h
      simp [hs]
    · simp only [splitAtFirst, hs, Bool.false_eq_true, if_false, Option.map_eq_some',
        Prod.mk.injEq] at h
      obtain ⟨⟨a2, b2⟩, h2, rfl, rfl⟩ := h
      obtain ⟨h3, h4, h5⟩ := ih a2 b2 h2
      refine ⟨?_, ?_, ?_⟩
      · simp only [List.length_cons, List.take_succ_cons]
        rw [← h3]
      · simp only [List.length_cons]
        rw [show a2.length + 1 + sep.length = (a2.length + sep.length) + 1 by omega]
        simpa using h4
      · simpa using h5

theorem splitAtFirst_none (sep s : Str) (h : splitAtFirst sep s = none) :
    ∀ r, r <:+ s → sep.isPrefixOf r = false := by
  induction s with
  | nil =>
    intro r hr
    have hr2 : r = [] := List.eq_nil_of_suffix_nil hr
    subst hr2
    by_cases hs : sep.isPrefixOf [] = true
    · simp [splitAtFirst, hs] at h
    · exact Bool.eq_false_iff.mpr hs
  | cons c cs ih =>
    intro r hr
    by_cases hs : sep.isPrefixOf (c :: cs) = true
    · simp [splitAtFirst, hs] at h
    · simp only [splitAtFirst, hs, Bool.false_eq_true, if_false, Option.map_eq_none'] at h
      rcases List.suffix_cons_iff.mp hr with rfl | hr2
      · exact Bool.eq_false_iff.mpr hs
      · exact ih h r hr2

theorem indexFrom_eq (sep s : Str) (n : Nat) :
    strings.indexFrom sep s n
      = match splitAtFirst sep s with
        | some (a, _) => ((n + a.length : Nat) : Int)
        | none => -1 := by
  induction s generalizing n with
  | nil =>
    by_cases hs : sep.isPrefixOf [] = true <;> simp [strings.indexFrom, splitAtFirst, hs]
  | cons c cs ih =>
    by_cases hs : sep.isPrefixOf (c :: cs) = true
    · simp [strings.indexFrom, splitAtFirst, hs]
    · simp only [strings.indexFrom, splitAtFirst, hs, Bool.false_eq_true, if_false]
      rw [ih (n + 1)]
      cases h : splitAtFirst sep cs with
      | none => simp
      | some ab =>
        simp only [Option.map_some', List.length_cons]
        congr 1
        omega

theorem Index_eq (s sep : Str) :
    strings.Index s sep
      = match splitAtFirst sep s with
        | some (a, _) => (a.length : Int)
        | none => -1 := by
  have := indexFrom_eq sep s 0
  simpa [strings.Index] using this

theorem Contains_false (s sep : Str) (h : strings.Contains s sep = false) :
    ∀ r, r <:+ s → sep.isPrefixOf r = false := by
  have h1 := Index_eq s sep
  cases h2 : splitAtFirst sep s with
  | none => exact splitAtFirst_none sep s h2
  | some ab =>
    rw [h2] at h1
    simp only at h1
    simp [strings.Contains, h1] at h

theorem replaceGo_single (x : Char) (s : Str) :
    strings.replaceGo [x] [] s 0 = s.filter fun c => c != x := by
  induction s with
  | nil => simp [strings.replaceGo]
  | cons c cs ih =>
    by_cases h : x = c
    · subst h
      simp [strings.replaceGo, List.isPrefixOf, ih]
    · have h2 : c ≠ x := fun e => h e.symm
      simp [strings.replaceGo, List.isPrefixOf, ih, h, h2]

theorem ReplaceAll_dot (s : Str) : strings.ReplaceAll s ".".toList [] = withoutDots s := by
  have := replaceGo_single '.' s
  simpa [strings.ReplaceAll, withoutDots] using this

theorem foldl_range_getD (f : Str → Str) (pre rest acc : List Str) :
    (List.range' pre.length rest.length).foldl
        (fun acc i => acc ++ [f ((pre ++ rest).getD i [])]) acc
      = acc ++ rest.map f := by
  induction rest generalizing pre acc with
  | nil => simp
  | cons r rs ih =>
    have e := ih (pre ++ [r]) (acc ++ [f r])
    simp only [List.length_append, List.length_singleton, List.append_assoc,
      List.singleton_append] at e
    simp only [List.length_cons, List.range'_succ, List.foldl_cons, List.map_cons]
    rw [show (pre ++ r :: rs).getD pre.length [] = r by
      rw [List.getD_eq_getElem?_getD, List.getElem?_append_right (le_refl _)]; simp]
    rw [e]

theorem featuredArtists_cons (a0 : Str) (rest : List Str) :
    featuredArtists (a0 :: rest) = rest.map withoutDots := by
  have := foldl_range_getD (fun a => strings.ReplaceAll a ".".toList []) [a0] rest []
  simp only [ReplaceAll_dot] at this
  simp only [featuredArtists, ReplaceAll_dot]
  simpa using this

/-! ## `Track.Song` -/

theorem isPrefixOf_singleton_cutWhen (p : Str → Bool)
    (hp : ∀ d ds, p (d :: ds) = true → d = ' ') (x : Char) (hx : x ≠ ' ') (tail cs : Str) :
    [x].isPrefixOf (cutWhen p cs ++ ' ' :: tail) = [x].isPrefixOf cs := by
  cases cs with
  | nil => simp [cutWhen, List.isPrefixOf, hx]
  | cons d ds =>
    by_cases h : p (d :: ds) = true
    · have hd := hp d ds h
      subst hd
      simp [cutWhen, h, List.isPrefixOf, hx]
    · simp [cutWhen, h, List.isPrefixOf]

theorem cutWhen_step (p : Str → Bool) (hp : ∀ d ds, p (d :: ds) = true → d = ' ')
    (x : Char) (hx : x ≠ ' ') (s : Str) :
    cutWhen (fun r => [' ', x].isPrefixOf (r ++ [' ', x])) (cutWhen p s)
      = cutWhen (fun r => p r || [' ', x].isPrefixOf r) s := by
  apply cutWhen_cutWhen p (fun r => [' ', x].isPrefixOf (r ++ [' ', x]))
    (fun r => [' ', x].isPrefixOf r)
  intro c cs _
  have h := isPrefixOf_singleton_cutWhen p hp x hx [x] cs
  show [' ', x].isPrefixOf (c :: (cutWhen p cs ++ [' ', x])) = [' ', x].isPrefixOf (c :: cs)
  rw [List.isPrefixOf, List.isPrefixOf, h]

/-- The three cuts of `Track.Song` as one cut of the title: at the first position where
` - ` starts in the title extended by ` - `, or ` (` or ` [` starts in the title. -/
theorem Song_eq_cutWhen (track : Track) :
    track.Song = cutWhen (fun r => (" - ".toList.isPrefixOf (r ++ " - ".toList)
      || " (".toList.isPrefixOf r) || " [".toList.isPrefixOf r) track.Title := by
  have e1 : ∀ s : Str, (strings.Split (s ++ " - ".toList) " - ".toList).headD []
      = cutWhen (fun r => " - ".toList.isPrefixOf (r ++ " - ".toList)) s := fun s => by
    rw [Split_headD _ _ (by decide), cutWhen_append_sep _ (by decide)]
  have e2 : ∀ s : Str, (strings.Split (s ++ " (".toList) " (".toList).headD []
      = cutWhen (fun r => [' ', '('].isPrefixOf (r ++ [' ', '('])) s := fun s => by
    rw [Split_headD _ _ (by decide), cutWhen_append_sep _ (by decide)]
    rfl
  have e3 : ∀ s : Str, (strings.Split (s ++ " [".toList) " [".toList).headD []
      = cutWhen (fun r => [' ', '['].isPrefixOf (r ++ [' ', '['])) s := fun s => by
    rw [Split_headD _ _ (by decide), cutWhen_append_sep _ (by decide)]
    rfl
  unfold Track.Song
  simp only [e1, e2, e3]
  rw [cutWhen_step _ _ '(' (by decide), cutWhen_step _ _ '[' (by decide)]
  · rfl
  · intro d ds h
    simp [List.isPrefixOf] at h
    rcases h with h | h <;> exact h.1.symm
  · intro d ds h
    simp [List.isPrefixOf] at h
    exact h.1.symm

theorem truncateAtSeparators_song (title : Str) :
    truncateAtSeparators songSeparators title
      = cutWhen (fun r => (" - ".toList.isPrefixOf r || " (".toList.isPrefixOf r)
          || " [".toList.isPrefixOf r) title := by
  simp [truncateAtSeparators, songSeparators, List.any, Bool.or_assoc]

theorem dash_isPrefixOf_append (r title : Str) (hr : r <:+ title) (hne : r ≠ [])
    (h : strings.HasSuffix title " -".toList = false) :
    " - ".toList.isPrefixOf (r ++ " - ".toList) = " - ".toList.isPrefixOf r := by
  match r, hne with
  | [c], _ => simp [List.isPrefixOf]
  | [c, d], _ =>
    by_cases hc : c = ' '
    · by_cases hd : d = '-'
      · subst hc hd
        have : strings.HasSuffix title " -".toList = true := by
          simpa [strings.HasSuffix] using hr
        rw [this] at h
        exact absurd h (by decide)
      · have hd2 : ¬ '-' = d := fun e => hd e.symm
        simp [List.isPrefixOf, hd2]
    · have hc2 : ¬ ' ' = c := fun e => hc e.symm
      simp [List.isPrefixOf, hc2]
  | c :: d :: e :: rest, _ => simp [List.isPrefixOf]

/-! ## `fuzzySearchLocalFiles` -/

theorem SplitN2_of_some (sep s a b : Str) (h : splitAtFirst sep s = some (a, b)) :
    strings.Contains s sep = true ∧ strings.SplitN2 s sep = [a, b] := by
  have h1 := Index_eq s sep
  rw [h] at h1
  simp only at h1
  obtain ⟨h2, h3, _⟩ := splitAtFirst_some sep s a b h
  refine ⟨by simp [strings.Contains, h1], ?_⟩
  simp only [strings.SplitN2, h1]
  have : ¬ (((a.length : Nat) : Int) < 0) := not_lt.mpr (Nat.cast_nonneg _)
  simp only [this, if_false, Int.toNat_ofNat]
  rw [← h2, ← h3]

theorem Contains_of_none (sep s : Str) (h : splitAtFirst sep s = none) :
    strings.Contains s sep = false := by
  have h1 := Index_eq s sep
  rw [h] at h1
  simp [strings.Contains, h1]

theorem foldl_add_five (p : Str → Bool) (words : List Str) (init : Nat) :
    words.foldl (fun score word => if p word then score + 5 else score) init
      = init + 5 * (words.filter p).length := by
  induction words generalizing init with
  | nil => simp
  | cons w ws ih =>
    by_cases hw : p w = true
    · simp only [List.foldl_cons, hw, if_true, ih, List.filter_cons_of_pos, List.length_cons]
      omega
    · simp only [List.foldl_cons, hw, Bool.false_eq_true, if_false, ih]
      rw [List.filter_cons_of_neg hw]

theorem wordPoints_eq (cleanedFileName : Str) (words : List Str) (score : Nat) :
    fuzzySearchLocalFiles.wordPoints cleanedFileName words score
      = score + 5 * (words.filter fun word =>
          decide (goLen word > 3) && strings.Contains cleanedFileName word).length :=
  foldl_add_five _ words score

theorem terms_cons (U : CaseTables) (track : Track) (artist0 : Str) (others : List Str)
    (hartists : track.Artists = artist0 :: others) :
    fuzzySearchLocalFiles.terms U track = some
      { artist0 := artist0
        baseTitle := track.Song
        expectedFilenamePattern := withoutDots artist0 ++ " - ".toList ++ track.Song
        cleanedTitle := fuzzySearchLocalFiles.cleanTerm U track.Title
        cleanedBaseTitle := fuzzySearchLocalFiles.cleanTerm U track.Song
        cleanedArtist := fuzzySearchLocalFiles.cleanTerm U artist0
        titleWords := strings.Fields (fuzzySearchLocalFiles.cleanTerm U track.Title)
        artistWords := strings.Fields (fuzzySearchLocalFiles.cleanTerm U artist0) } := by
  unfold fuzzySearchLocalFiles.terms
  rw [hartists]
  dsimp only
  rw [ReplaceAll_dot]

theorem terms_fields (U : CaseTables) (track : Track) (artist0 : Str) (others : List Str)
    (hartists : track.Artists = artist0 :: others) :
    ∃ terms, fuzzySearchLocalFiles.terms U track = some terms ∧ terms.artist0 = artist0
      ∧ terms.baseTitle = track.Song
      ∧ terms.expectedFilenamePattern = withoutDots artist0 ++ " - ".toList ++ track.Song :=
  ⟨_, terms_cons U track artist0 others hartists, rfl, rfl, rfl⟩

/-- The three case-insensitive searches alone bound the score from below. -/
theorem score_lower_bound (U : CaseTables) (terms : SearchTerms) (path : Str) :
    100 * indicator (regexp.MatchFold U terms.expectedFilenamePattern (filepath.Base path))
        + 50 * indicator (regexp.MatchFold U terms.artist0 (filepath.Base path))
        + 40 * indicator (regexp.MatchFold U terms.baseTitle (filepath.Base path))
      ≤ fuzzySearchLocalFiles.score U terms path := by
  unfold fuzzySearchLocalFiles.score
  dsimp only
  rw [wordPoints_eq, wordPoints_eq]
  generalize regexp.MatchFold U terms.expectedFilenamePattern (filepath.Base path) = b1
  generalize regexp.MatchFold U terms.artist0 (filepath.Base path) = b2
  generalize regexp.MatchFold U terms.baseTitle (filepath.Base path) = b3
  generalize strings.Contains (strings.TrimSuffix (filepath.Base path)
    (filepath.Ext (filepath.Base path))) " - ".toList = c4
  generalize (strings.Contains _ terms.cleanedArtist
    && strings.Contains _ terms.cleanedBaseTitle) = c5
  cases b1 <;> cases b2 <;> cases b3 <;> cases c4 <;> cases c5 <;>
    simp only [indicator, if_true, if_false, Bool.false_eq_true] <;> omega

theorem less_strictWeak : IsStrictWeakOrder fuzzySearchLocalFiles.less := by
  refine ⟨fun a b h => ?_, fun a b c h => ?_⟩
  · simp only [fuzzySearchLocalFiles.less, decide_eq_true_eq, decide_eq_false_iff_not] at *
    omega
  · simp only [fuzzySearchLocalFiles.less, decide_eq_true_eq] at *
    omega

theorem stableSort_contract : SortSliceContract stableSort := by
  intro less hless xs
  haveI : IsTotal ScoredMatch (fun a b => less b a = false) := ⟨fun a b => by
    cases h : less b a
    · exact Or.inl rfl
    · exact Or.inr (hless.1 b a h)⟩
  haveI : IsTrans ScoredMatch (fun a b => less b a = false) := ⟨fun a b c hab hbc => by
    cases h : less c a
    · rfl
    · rcases hless.2 c b a h with h1 | h1
      · rw [h1] at hbc; exact absurd hbc (by decide)
      · rw [h1] at hab; exact absurd hab (by decide)⟩
  exact ⟨List.perm_insertionSort _ xs, List.sorted_insertionSort _ xs⟩

theorem tieReversingSort_contract : SortSliceContract tieReversingSort := by
  intro less hless xs
  obtain ⟨h1, h2⟩ := stableSort_contract less hless xs.reverse
  exact ⟨h1.trans (List.reverse_perm xs), h2⟩

theorem walk_step (U : CaseTables) (terms : SearchTerms) (e : WalkEntry)
    (acc : List ScoredMatch) :
    (if e.err || e.isDir || !strings.HasSuffix (strings.ToLower U e.path) TrackFormat then acc
      else
        let score := fuzzySearchLocalFiles.score U terms e.path
        if score > 0 then acc ++ [{ Path := e.path, Score := score }] else acc)
      = acc ++ (if (fuzzySearchLocalFiles.isMusicFile U e
            && decide (0 < fuzzySearchLocalFiles.score U terms e.path)) = true
          then [{ Path := e.path, Score := fuzzySearchLocalFiles.score U terms e.path }]
          else []) := by
  unfold fuzzySearchLocalFiles.isMusicFile
  generalize (e.err || e.isDir || !strings.HasSuffix (strings.ToLower U e.path) TrackFormat) = b
  cases b
  · by_cases h2 : fuzzySearchLocalFiles.score U terms e.path > 0
    · simp [h2]
    · simp [h2]
  · simp

theorem walk_eq (U : CaseTables) (terms : SearchTerms) (dir : List WalkEntry) :
    fuzzySearchLocalFiles.walk U terms dir
      = (dir.filter fun e => fuzzySearchLocalFiles.isMusicFile U e
            && decide (0 < fuzzySearchLocalFiles.score U terms e.path)).map
          fun e => { Path := e.path, Score := fuzzySearchLocalFiles.score U terms e.path } := by
  have key : ∀ (acc : List ScoredMatch),
      dir.foldl (fun scoredMatches e =>
        if e.err || e.isDir || !strings.HasSuffix (strings.ToLower U e.path) TrackFormat then
          scoredMatches
        else
          let score := fuzzySearchLocalFiles.score U terms e.path
          if score > 0 then scoredMatches ++ [{ Path := e.path, Score := score }]
          else scoredMatches) acc
      = acc ++ (dir.filter fun e => fuzzySearchLocalFiles.isMusicFile U e
            && decide (0 < fuzzySearchLocalFiles.score U terms e.path)).map
          fun e => { Path := e.path, Score := fuzzySearchLocalFiles.score U terms e.path } := by
    induction dir with
    | nil => intro acc; simp
    | cons e es ih =>
      intro acc
      rw [List.foldl_cons, ih, walk_step, List.filter_cons]
      by_cases hk : (fuzzySearchLocalFiles.isMusicFile U e
            && decide (0 < fuzzySearchLocalFiles.score U terms e.path)) = true
      · rw [if_pos hk, if_pos hk]; simp
      · rw [if_neg hk, if_neg hk]; simp
  have := key []
  rw [List.nil_append] at this
  exact this

theorem top_eq (i : Nat) (ms : List ScoredMatch) (results : List Str) :
    fuzzySearchLocalFiles.top i ms results
      = results ++ (ms.take (10 - i)).map ScoredMatch.Path := by
  induction ms generalizing i results with
  | nil => simp [fuzzySearchLocalFiles.top]
  | cons m ms ih =>
    by_cases h : i ≥ 10
    · have : 10 - i = 0 := by omega
      simp [fuzzySearchLocalFiles.top, h, this]
    · have : 10 - i = (10 - (i + 1)) + 1 := by omega
      rw [fuzzySearchLocalFiles.top, if_neg h, ih, this, List.take_succ_cons]
      simp

theorem pathScore_eq (U : CaseTables) (track : Track) (artist0 : Str) (others : List Str)
    (hartists : track.Artists = artist0 :: others) :
    ∃ terms, fuzzySearchLocalFiles.terms U track = some terms
      ∧ ∀ path, pathScore U track path = fuzzySearchLocalFiles.score U terms path := by
  refine ⟨_, terms_cons U track artist0 others hartists, fun path => ?_⟩
  rw [pathScore, fuzzyScore, terms_cons U track artist0 others hartists, Option.map_some',
    Option.getD_some]

/-- The result of `fuzzySearchLocalFiles` as the paths of the first ten elements of the
sorted list of the positive files with their scores. -/
theorem fuzzySearch_eq (U : CaseTables)
    (sortSlice : (ScoredMatch → ScoredMatch → Bool) → List ScoredMatch → List ScoredMatch)
    (dir : List WalkEntry) (track : Track) (artist0 : Str) (others : List Str)
    (hartists : track.Artists = artist0 :: others) :
    fuzzySearchLocalFiles U sortSlice dir track
      = some (((sortSlice fuzzySearchLocalFiles.less
          ((positiveFiles U track dir).map fun e =>
            { Path := e.path, Score := pathScore U track e.path })).take 10).map
          ScoredMatch.Path) := by
  obtain ⟨terms, h1, h2⟩ := pathScore_eq U track artist0 others hartists
  unfold fuzzySearchLocalFiles
  rw [h1]
  dsimp only
  rw [top_eq, walk_eq, positiveFiles]
  simp only [h2, List.nil_append, Nat.sub_zero]

/-- What the contract of `sort.Slice` gives for the ranked list of `fuzzySearchLocalFiles`:
it is a rearrangement of the positive files with their scores, in non-increasing score
order. -/
theorem ranked_spec (U : CaseTables)
    (sortSlice : (ScoredMatch → ScoredMatch → Bool) → List ScoredMatch → List ScoredMatch)
    (hsort : SortSliceContract sortSlice) (dir : List WalkEntry) (track : Track) :
    (sortSlice fuzzySearchLocalFiles.less
        ((positiveFiles U track dir).map fun e =>
          { Path := e.path, Score := pathScore U track e.path })).Perm
        ((positiveFiles U track dir).map fun e =>
          { Path := e.path, Score := pathScore U track e.path })
      ∧ (sortSlice fuzzySearchLocalFiles.less
        ((positiveFiles U track dir).map fun e =>
          { Path := e.path, Score := pathScore U track e.path })).Pairwise
        (fun a b => pathScore U track b.Path ≤ pathScore U track a.Path
          ∧ b.Score ≤ a.Score) := by
  obtain ⟨hperm, hsorted⟩ := hsort _ less_strictWeak
    ((positiveFiles U track dir).map fun e =>
      { Path := e.path, Score := pathScore U track e.path })
  refine ⟨hperm, hsorted.imp_of_mem ?_⟩
  intro a b ha hb hab
  have hscore : ∀ m ∈ sortSlice fuzzySearchLocalFiles.less
      ((positiveFiles U track dir).map fun e =>
        { Path := e.path, Score := pathScore U track e.path }),
      m.Score = pathScore U track m.Path := by
    intro m hm
    obtain ⟨e, _, rfl⟩ := List.mem_map.mp (hperm.mem_iff.mp hm)
    rfl
  have hle : b.Score ≤ a.Score := by
    simp only [fuzzySearchLocalFiles.less, decide_eq_false_iff_not] at hab
    omega
  refine ⟨?_, hle⟩
  rw [← hscore a ha, ← hscore b hb]
  exact hle

theorem foldPrefixOf_append (U : CaseTables) (hrefl : ∀ c, U.foldEq c c = true)
    (literal rest : Str) : regexp.foldPrefixOf U literal (literal ++ rest) = true := by
  induction literal with
  | nil => cases rest <;> rfl
  | cons c cs ih => simp [regexp.foldPrefixOf, hrefl, ih]

theorem MatchFold_of_foldPrefixOf (U : CaseTables) (literal s : Str)
    (h : regexp.foldPrefixOf U literal s = true) : regexp.MatchFold U literal s = true := by
  cases s with
  | nil => simpa [regexp.MatchFold] using h
  | cons c cs => simp [regexp.MatchFold, h]

theorem MatchFold_append_left (U : CaseTables) (literal before s : Str)
    (h : regexp.MatchFold U literal s = true) :
    regexp.MatchFold U literal (before ++ s) = true := by
  induction before with
  | nil => simpa using h
  | cons c cs ih => simp [regexp.MatchFold, ih]

/-- A literal matches, under `(?i)`, every string that contains it, provided every rune
folds to itself. -/
theorem MatchFold_infix (U : CaseTables) (hrefl : ∀ c, U.foldEq c c = true)
    (literal before after : Str) :
    regexp.MatchFold U literal (before ++ (literal ++ after)) = true :=
  MatchFold_append_left U literal before _
    (MatchFold_of_foldPrefixOf U literal _ (foldPrefixOf_append U hrefl literal after))

theorem cutWhen_append_rest (p : Str → Bool) (s : Str) : ∃ rest, s = cutWhen p s ++ rest := by
  induction s with
  | nil => exact ⟨[], rfl⟩
  | cons c cs ih =>
    by_cases h : p (c :: cs) = true
    · exact ⟨c :: cs, by simp [cutWhen, h]⟩
    · obtain ⟨rest, hrest⟩ := ih
      refine ⟨rest, ?_⟩
      simp only [cutWhen, h, Bool.false_eq_true, if_false, List.cons_append]
      rw [← hrest]

theorem Base_eq_self (name : Str) (hne : name ≠ []) (hslash : '/' ∉ name) :
    filepath.Base name = name := by
  have h1 : (name.reverse.dropWhile fun c => c == '/') = name.reverse := by
    cases hr : name.reverse with
    | nil => rfl
    | cons c cs =>
      have hc : c ∈ name := by
        have : c ∈ name.reverse := by rw [hr]; exact List.mem_cons_self _ _
        exact List.mem_reverse.mp this
      have : (c == '/') = false := by
        simp only [beq_eq_false_iff_ne, ne_eq]
        rintro rfl
        exact hslash hc
      simp [List.dropWhile, this]
  have h2 : (name.reverse.takeWhile fun c => c != '/') = name.reverse := by
    apply List.takeWhile_eq_self_iff.mpr
    intro c hc
    simp only [bne_iff_ne, ne_eq]
    rintro rfl
    exact hslash (List.mem_reverse.mp hc)
  unfold filepath.Base
  simp only [hne, if_false, h1, List.reverse_reverse, h2]

/-! ## `fuzzyFindTracksForSpotify` -/

theorem countWords_eq (cleanFileName : Str) (words : List Str) (matchCount : Nat) :
    fuzzyFindTracksForSpotify.countWords cleanFileName words matchCount
      = matchCount + (words.filter fun word =>
          decide (goLen word > 3) && strings.Contains cleanFileName word).length := by
  unfold fuzzyFindTracksForSpotify.countWords
  induction words generalizing matchCount with
  | nil => simp
  | cons w ws ih =>
    by_cases hw : (decide (goLen w > 3) && strings.Contains cleanFileName w) = true
    · rw [List.foldl_cons, if_pos hw, ih, List.filter_cons, if_pos hw, List.length_cons]
      omega
    · rw [List.foldl_cons, if_neg hw, ih, List.filter_cons, if_neg hw]

theorem wordFound_eq (cleanFileName : Str) (words : List Str) :
    fuzzyFindTracksForSpotify.wordFound cleanFileName words
      = !(words.filter fun word =>
          decide (goLen word > 3) && strings.Contains cleanFileName word).isEmpty := by
  induction words with
  | nil => rfl
  | cons w ws ih =>
    by_cases hw : (decide (goLen w > 3) && strings.Contains cleanFileName w) = true
    · rw [fuzzyFindTracksForSpotify.wordFound, if_pos hw, List.filter_cons, if_pos hw]
      rfl
    · rw [fuzzyFindTracksForSpotify.wordFound, if_neg hw, ih, List.filter_cons, if_neg hw]

theorem reconcile_terms_cons (U : CaseTables) (track : Track) (artist0 : Str)
    (others : List Str) (hartists : track.Artists = artist0 :: others) :
    fuzzyFindTracksForSpotify.terms U track = some
      { title := fuzzyFindTracksForSpotify.cleanTerm U track.Title
        artist := fuzzyFindTracksForSpotify.cleanTerm U artist0
        baseTitle := fuzzyFindTracksForSpotify.cleanTerm U
          (fuzzyFindTracksForSpotify.baseTitle track.Title)
        titleWords := strings.Fields (fuzzyFindTracksForSpotify.cleanTerm U track.Title)
        artistWords := strings.Fields (fuzzyFindTracksForSpotify.cleanTerm U artist0) } := by
  unfold fuzzyFindTracksForSpotify.terms
  rw [hartists]

theorem mem_replaceGo (old new : Str) (s : Str) (skip : Nat) (x : Char)
    (hx : x ∈ strings.replaceGo old new s skip) : x ∈ s ∨ x ∈ new := by
  induction s generalizing skip with
  | nil => simp [strings.replaceGo] at hx
  | cons c cs ih =>
    cases skip with
    | succ k =>
      rw [strings.replaceGo] at hx
      rcases ih k hx with h | h
      · exact Or.inl (List.mem_cons_of_mem _ h)
      · exact Or.inr h
    | zero =>
      rw [strings.replaceGo] at hx
      by_cases hp : old.isPrefixOf (c :: cs) = true
      · rw [if_pos hp] at hx
        rcases List.mem_append.mp hx with h | h
        · exact Or.inr h
        · rcases ih _ h with h | h
          · exact Or.inl (List.mem_cons_of_mem _ h)
          · exact Or.inr h
      · rw [if_neg hp] at hx
        rcases List.mem_cons.mp hx with h | h
        · exact Or.inl (h ▸ List.mem_cons_self _ _)
        · rcases ih _ h with h | h
          · exact Or.inl (List.mem_cons_of_mem _ h)
          · exact Or.inr h

theorem mem_ReplaceAll (s old new : Str) (hold : old ≠ []) (x : Char)
    (hx : x ∈ strings.ReplaceAll s old new) : x ∈ s ∨ x ∈ new := by
  rw [strings.ReplaceAll, if_neg hold] at hx
  exact mem_replaceGo old new s 0 x hx

theorem not_mem_ReplaceAll_single (c : Char) (new s : Str) (hc : c ∉ new) :
    c ∉ strings.ReplaceAll s [c] new := by
  rw [strings.ReplaceAll, if_neg (by simp)]
  induction s with
  | nil => simp [strings.replaceGo]
  | cons x xs ih =>
    by_cases h : c = x
    · subst h
      simp [strings.replaceGo, List.isPrefixOf, hc, ih]
    · simp [strings.replaceGo, List.isPrefixOf, h, ih]

theorem mem_TrimSpace (s : Str) (x : Char) (hx : x ∈ strings.TrimSpace s) : x ∈ s := by
  unfold strings.TrimSpace at hx
  have h1 := List.mem_reverse.mp hx
  have h2 := (List.dropWhile_sublist _).subset h1
  have h3 := List.mem_reverse.mp h2
  exact (List.dropWhile_sublist _).subset h3

/-- The closure `cleanTerm` of `fuzzyFindTracksForSpotify` as a fold over its
replacements. -/
theorem reconcile_cleanTerm_eq (U : CaseTables) (input : Str) :
    fuzzyFindTracksForSpotify.cleanTerm U input
      = strings.TrimSpace (reconcileReplacements.foldl
          (fun result r => strings.ReplaceAll result r.1 r.2) (strings.ToLower U input)) := by
  unfold fuzzyFindTracksForSpotify.cleanTerm reconcileReplacements
  simp only [List.foldl_cons, List.foldl_nil]

theorem foldl_replace_not_mem (c : Char) (steps : List (Str × Str))
    (hold : ∀ r ∈ steps, r.1 ≠ []) (hnew : ∀ r ∈ steps, c ∉ r.2) (s : Str)
    (h : c ∉ s ∨ ∃ r ∈ steps, r.1 = [c]) :
    c ∉ steps.foldl (fun result r => strings.ReplaceAll result r.1 r.2) s := by
  induction steps generalizing s with
  | nil =>
    rcases h with h | ⟨r, hr, _⟩
    · exact h
    · simp at hr
  | cons r rs ih =>
    rw [List.foldl_cons]
    have hold2 : ∀ r ∈ rs, r.1 ≠ [] := fun q hq => hold q (List.mem_cons_of_mem _ hq)
    have hnew2 : ∀ r ∈ rs, c ∉ r.2 := fun q hq => hnew q (List.mem_cons_of_mem _ hq)
    have hr2 : c ∉ r.2 := hnew r (List.mem_cons_self _ _)
    rcases h with h | ⟨q, hq, hqc⟩
    · apply ih hold2 hnew2
      left
      intro hmem
      rcases mem_ReplaceAll s r.1 r.2 (hold r (List.mem_cons_self _ _)) c hmem with h1 | h1
      · exact h h1
      · exact hr2 h1
    · rcases List.mem_cons.mp hq with rfl | hq2
      · apply ih hold2 hnew2
        left
        rw [hqc]
        exact not_mem_ReplaceAll_single c q.2 s hr2
      · by_cases hs : c ∈ strings.ReplaceAll s r.1 r.2
        · exact ih hold2 hnew2 _ (Or.inr ⟨q, hq2, hqc⟩)
        · exact ih hold2 hnew2 _ (Or.inl hs)

theorem foldl_replace_lower (lower : Char → Char) (steps : List (Str × Str))
    (hold : ∀ r ∈ steps, r.1 ≠ []) (hnew : ∀ r ∈ steps, ∀ x ∈ r.2, lower x = x) (s : Str)
    (h : ∀ x ∈ s, lower x = x) :
    ∀ x ∈ steps.foldl (fun result r => strings.ReplaceAll result r.1 r.2) s, lower x = x := by
  induction steps generalizing s with
  | nil => exact h
  | cons r rs ih =>
    rw [List.foldl_cons]
    apply ih (fun q hq => hold q (List.mem_cons_of_mem _ hq))
      (fun q hq => hnew q (List.mem_cons_of_mem _ hq))
    intro x hx
    rcases mem_ReplaceAll s r.1 r.2 (hold r (List.mem_cons_self _ _)) x hx with h1 | h1
    · exact h x h1
    · exact hnew r (List.mem_cons_self _ _) x h1

theorem TrimSpace_head (s : Str) (c : Char) (h : (strings.TrimSpace s).head? = some c) :
    unicode.IsSpace c = false := by
  unfold strings.TrimSpace at h
  have hsub : ((s.dropWhile unicode.IsSpace).reverse.dropWhile unicode.IsSpace).reverse
      <+: s.dropWhile unicode.IsSpace := by
    have := List.dropWhile_suffix unicode.IsSpace (l := (s.dropWhile unicode.IsSpace).reverse)
    simpa using List.reverse_prefix.mpr this
  obtain ⟨t, ht⟩ := hsub
  have h2 : (s.dropWhile unicode.IsSpace).head? = some c := by
    rw [← ht, List.head?_append_of_ne_nil _ (by intro e; rw [e] at h; simp at h)]
    exact h
  have h3 := List.head?_dropWhile_not unicode.IsSpace s
  rw [h2] at h3
  simpa using h3

theorem TrimSpace_getLast (s : Str) (c : Char)
    (h : (strings.TrimSpace s).getLast? = some c) : unicode.IsSpace c = false := by
  unfold strings.TrimSpace at h
  rw [List.getLast?_reverse] at h
  have h3 := List.head?_dropWhile_not unicode.IsSpace (s.dropWhile unicode.IsSpace).reverse
  rw [h] at h3
  simpa using h3

theorem map_eq_self (f : Char → Char) (s : Str) (h : ∀ x ∈ s, f x = x) : s.map f = s := by
  induction s with
  | nil => rfl
  | cons c cs ih =>
    rw [List.map_cons, h c (List.mem_cons_self _ _),
      ih fun x hx => h x (List.mem_cons_of_mem _ hx)]

theorem asciiLower_idem (c : Char) : asciiLower (asciiLower c) = asciiLower c := by
  unfold asciiLower
  by_cases h : 65 ≤ c.toNat ∧ c.toNat ≤ 90
  · rw [if_pos h]
    obtain ⟨h1, h2⟩ := h
    generalize c.toNat = n at h1 h2
    interval_cases n <;> decide
  · rw [if_neg h, if_neg h]

theorem Disk_open_save (disk : Disk) (path : Str) (old tag : id3.StoredTag)
    (h : disk.open path = some old) : (disk.save path tag).open path = some tag := by
  induction disk with
  | nil => simp [Disk.open] at h
  | cons e rest ih =>
    obtain ⟨p, t⟩ := e
    by_cases hp : p = path
    · simp [Disk.save, Disk.open, hp]
    · simp only [Disk.open, hp, if_false] at h
      simp only [Disk.save, hp, if_false, Disk.open]
      exact ih h

theorem GetPath_SetPath (data : index.Index) (path : Str) (status : index.Status) :
    (data.SetPath path status).GetPath path = some status := by
  induction data with
  | nil => simp [index.Index.SetPath, index.Index.GetPath]
  | cons e rest ih =>
    obtain ⟨p, old⟩ := e
    by_cases hp : p = path
    · simp [index.Index.SetPath, index.Index.GetPath, hp]
    · simp only [index.Index.SetPath, hp, if_false, index.Index.GetPath]
      exact ih

/-! ## `routineDecide` -/

theorem SetPath_SetPath (data : index.Index) (path : Str) (status : index.Status) :
    (data.SetPath path status).SetPath path status = data.SetPath path status := by
  induction data with
  | nil => simp [index.Index.SetPath]
  | cons e rest ih =>
    obtain ⟨p, old⟩ := e
    by_cases hp : p = path
    · simp [index.Index.SetPath, hp]
    · simp only [index.Index.SetPath, hp, if_false]
      rw [ih]

theorem Disk_open_save_ne (disk : Disk) (path other : Str) (tag : id3.StoredTag)
    (h : other ≠ path) : (disk.save path tag).open other = disk.open other := by
  induction disk with
  | nil => simp [Disk.save, Disk.open]
  | cons e rest ih =>
    obtain ⟨p, t⟩ := e
    by_cases hp : p = path
    · have hpo : ¬ path = other := fun e => h e.symm
      simp only [Disk.save, hp, if_true, Disk.open, hpo, if_false]
    · by_cases hpo : p = other
      · subst hpo
        simp only [Disk.save, hp, if_false, Disk.open, if_true]
      · simp only [Disk.save, hp, if_false, Disk.open, hpo]
        exact ih

/-- The step of the Decider on a track whose canonical final path holds a file with a
readable tag. -/
theorem step_existing (env : DecideEnv) (inp : DecideInput) (track : Track)
    (st : DeciderState) (final : Str) (tag : id3.StoredTag)
    (hfinal : track.Final env.LegalizeFilename = some final)
    (hfile : st.disk.open (inWorkingDir env.outputDir final) = some tag) :
    routineDecide.step env inp track st
      = if tag.SpotifyID = track.ID then
          some ({ st with indexData := st.indexData.SetPath final index.Status.Installed },
            false)
        else if inp.saveFails then
          some ({ st with saves := st.saves ++ [inWorkingDir env.outputDir final] }, false)
        else
          some ({ st with
              saves := st.saves ++ [inWorkingDir env.outputDir final]
              disk := st.disk.save (inWorkingDir env.outputDir final)
                (tag.SetSpotifyID track.ID) }, false) := by
  have hstat : st.stat (inWorkingDir env.outputDir final) = true := by
    simp [DeciderState.stat, hfile]
  unfold routineDecide.step
  rw [hfinal]
  dsimp only
  rw [hstat, if_pos rfl, hfile]

/-- The step of the Decider on a track whose canonical final path holds no file. -/
theorem step_missing (env : DecideEnv) (inp : DecideInput) (track : Track)
    (st : DeciderState) (final : Str)
    (hfinal : track.Final env.LegalizeFilename = some final)
    (hstat : st.stat (inWorkingDir env.outputDir final) = false) :
    routineDecide.step env inp track st = routineDecide.resolve env inp track final st := by
  unfold routineDecide.step
  rw [hfinal]
  dsimp only
  rw [hstat]
  rfl

/-- The step of the Decider on a track whose canonical final path holds no file with a
readable tag. -/
theorem step_unreadable (env : DecideEnv) (inp : DecideInput) (track : Track)
    (st : DeciderState) (final : Str)
    (hfinal : track.Final env.LegalizeFilename = some final)
    (hopen : st.disk.open (inWorkingDir env.outputDir final) = none) :
    routineDecide.step env inp track st = routineDecide.resolve env inp track final st := by
  unfold routineDecide.step
  rw [hfinal]
  dsimp only
  rw [hopen, ite_self]

/-- The provider search of automatic mode that finds nothing. -/
theorem acquire_empty_search (env : DecideEnv) (inp : DecideInput) (track : Track)
    (final : Str) (st : DeciderState)
    (hauto : env.manualMode = false) (hfound : inp.found = Except.ok []) :
    routineDecide.acquire env inp track final st
      = some ({ st with searches := st.searches ++ [track] }, false) := by
  unfold routineDecide.acquire
  rw [hauto, hfound]
  rfl

/-- In automatic mode a step whose provider search would find nothing sends nothing to the
Collector queue or to the error channel, and does not return. -/
theorem step_empty_search (env : DecideEnv) (inp : DecideInput) (track : Track)
    (final : Str) (st : DeciderState)
    (hauto : env.manualMode = false) (hfound : inp.found = Except.ok [])
    (hfinal : track.Final env.LegalizeFilename = some final) :
    ∃ st2, routineDecide.step env inp track st = some (st2, false)
      ∧ st2.collect = st.collect ∧ st2.errors = st.errors := by
  cases hopen : st.disk.open (inWorkingDir env.outputDir final) with
  | some tag =>
    rw [step_existing env inp track st final tag hfinal hopen]
    by_cases hid : tag.SpotifyID = track.ID
    · rw [if_pos hid]
      exact ⟨_, rfl, rfl, rfl⟩
    · rw [if_neg hid]
      cases inp.saveFails
      · exact ⟨_, rfl, rfl, rfl⟩
      · exact ⟨_, rfl, rfl, rfl⟩
  | none =>
    rw [step_unreadable env inp track st final hfinal hopen]
    unfold routineDecide.resolve
    cases hget : st.indexData.GetPath final with
    | none =>
      dsimp only
      rw [acquire_empty_search env inp track final _ hauto hfound]
      exact ⟨_, rfl, rfl, rfl⟩
    | some status =>
      cases status
      · exact ⟨_, rfl, rfl, rfl⟩
      · exact ⟨_, rfl, rfl, rfl⟩
      · dsimp only
        rw [acquire_empty_search env inp track final _ hauto hfound]
        exact ⟨_, rfl, rfl, rfl⟩
      · dsimp only
        rw [acquire_empty_search env inp track final _ hauto hfound]
        exact ⟨_, rfl, rfl, rfl⟩

/-- The first of the matches ranked by `provider.Search` is one of the matches found and
has a maximal score. -/
theorem Search_head (raw : List provider.Match) (best : provider.Match)
    (rest : List provider.Match)
    (h : raw.insertionSort (fun a b => b.Score ≤ a.Score) = best :: rest) :
    best ∈ raw ∧ ∀ m ∈ raw, m.Score ≤ best.Score := by
  haveI : IsTotal provider.Match (fun a b => b.Score ≤ a.Score) :=
    ⟨fun a b => le_total b.Score a.Score⟩
  haveI : IsTrans provider.Match (fun a b => b.Score ≤ a.Score) :=
    ⟨fun a b c hab hbc => le_trans hbc hab⟩
  have hperm := List.perm_insertionSort (fun a b : provider.Match => b.Score ≤ a.Score) raw
  have hsorted := List.sorted_insertionSort (fun a b : provider.Match => b.Score ≤ a.Score) raw
  rw [h] at hperm hsorted
  refine ⟨hperm.subset (List.mem_cons_self _ _), fun m hm => ?_⟩
  have hm2 : m ∈ best :: rest := hperm.symm.subset hm
  rcases List.mem_cons.mp hm2 with h1 | h1
  · rw [h1]
  · exact List.rel_of_sorted_cons hsorted m h1

theorem Atoi_nil : strconv.Atoi [] = none := rfl

/-- The parsing of the selection, case by case. -/
theorem select_eq (fileMatches : List Str) (selection : Str) :
    routineDecide.select fileMatches selection
      = if selection = [] then (fileMatches.get? 0).map Selection.selected
        else
          match strconv.Atoi selection with
          | none => some Selection.invalid
          | some k =>
            if k < 0 ∨ k > (fileMatches.length : Int) then some Selection.invalid
            else if k = 0 then some Selection.cancelled
            else (fileMatches.get? (k - 1).toNat).map Selection.selected := by
  unfold routineDecide.select
  by_cases hs : selection = []
  · rw [if_pos hs, if_pos hs]
    rfl
  · rw [if_neg hs, if_neg hs]
    cases strconv.Atoi selection with
    | none => rfl
    | some k =>
      dsimp only
      by_cases hr : k < 0 ∨ k > (fileMatches.length : Int)
      · rw [if_pos hr, if_pos hr]
      · rw [if_neg hr, if_neg hr]

/-- A track with a canonical final path has a first artist. -/
theorem Final_artists (L : Str → Str) (track : Track) (final : Str)
    (h : track.Final L = some final) : ∃ artist0 others, track.Artists = artist0 :: others := by
  unfold Track.Final at h
  cases hartists : track.Artists with
  | nil => rw [hartists] at h; exact absurd h (by simp)
  | cons artist0 others => exact ⟨artist0, others, rfl⟩

/-- Option 2 of manual mode is taken on the empty answer and on the answer `2`. -/
theorem acquire_localFile (env : DecideEnv) (inp : DecideInput) (track : Track)
    (final : Str) (st : DeciderState) (hmanual : env.manualMode = true)
    (hchoice : inp.choice = [] ∨ inp.choice = "2".toList) :
    routineDecide.acquire env inp track final st
      = routineDecide.localFile env inp track final st := by
  unfold routineDecide.acquire
  rw [hmanual, if_pos rfl]
  rcases hchoice with h | h <;> rw [h] <;> rfl

/-- The local-file search of manual mode ends without any change when the selection is
invalid or cancelled. -/
theorem localFile_not_selected (env : DecideEnv) (inp : DecideInput) (track : Track)
    (final : Str) (st : DeciderState) (fileMatches : List Str)
    (hfinal : track.Final env.LegalizeFilename = some final)
    (hsearch : fuzzySearchLocalFiles env.U env.sortSlice inp.listing track = some fileMatches)
    (hselect : routineDecide.select fileMatches inp.selection = some Selection.invalid
      ∨ routineDecide.select fileMatches inp.selection = some Selection.cancelled) :
    routineDecide.localFile env inp track final st = some (st, false) := by
  obtain ⟨artist0, others, hartists⟩ := Final_artists _ _ _ hfinal
  unfold routineDecide.localFile
  rw [hsearch, hartists]
  dsimp only
  by_cases hlen : fileMatches.length = 0
  · rw [if_pos hlen]
  · rw [if_neg hlen]
    rcases hselect with h | h <;> rw [h]

/-- The outcome of the selection prompt with at least one candidate. -/
theorem select_cases (fileMatches : List Str) (selection : Str)
    (hn : 1 ≤ fileMatches.length) :
    ((∃ f, routineDecide.select fileMatches selection = some (Selection.selected f))
        ↔ selection = []
          ∨ ∃ k : Int, strconv.Atoi selection = some k ∧ 1 ≤ k
            ∧ k ≤ (fileMatches.length : Int))
      ∧ (selection = [] →
          ∃ f, fileMatches.get? 0 = some f
            ∧ routineDecide.select fileMatches selection = some (Selection.selected f))
      ∧ (∀ k : Int, strconv.Atoi selection = some k → 1 ≤ k →
          k ≤ (fileMatches.length : Int) →
          ∃ f, fileMatches.get? (k - 1).toNat = some f
            ∧ routineDecide.select fileMatches selection = some (Selection.selected f))
      ∧ (routineDecide.select fileMatches selection = some Selection.cancelled
          ↔ strconv.Atoi selection = some 0)
      ∧ (routineDecide.select fileMatches selection = some Selection.invalid
          ↔ selection ≠ []
            ∧ ∀ k : Int, strconv.Atoi selection = some k →
                k < 0 ∨ k > (fileMatches.length : Int)) := by
  have heq := select_eq fileMatches selection
  by_cases hs : selection = []
  · have hA : strconv.Atoi selection = none := by rw [hs]; rfl
    have hget : fileMatches.get? 0 = some (fileMatches.get ⟨0, hn⟩) := List.get?_eq_get hn
    rw [if_pos hs, hget] at heq
    refine ⟨⟨fun _ => Or.inl hs, fun _ => ⟨_, heq⟩⟩, fun _ => ⟨_, hget, heq⟩,
      fun k hk => ?_, ?_, ?_⟩
    · rw [hA] at hk; cases hk
    · rw [heq, hA]; constructor <;> intro h <;> cases h
    · rw [heq]; exact ⟨fun h => (by cases h), fun h => absurd hs h.1⟩
  · rw [if_neg hs] at heq
    cases hA : strconv.Atoi selection with
    | none =>
      rw [hA] at heq
      refine ⟨⟨fun ⟨f, h⟩ => ?_, fun h => ?_⟩, fun h => absurd h hs, fun k hk => ?_, ?_,
        fun _ => ⟨hs, fun k hk => ?_⟩, fun _ => heq⟩
      · rw [heq] at h; cases h
      · rcases h with h | ⟨k, hk, _⟩
        · exact absurd h hs
        · cases hk
      · cases hk
      · rw [heq]; constructor <;> intro h <;> cases h
      · cases hk
    | some k =>
      rw [hA] at heq
      dsimp only at heq
      by_cases hr : k < 0 ∨ k > (fileMatches.length : Int)
      · rw [if_pos hr] at heq
        refine ⟨⟨fun ⟨f, h⟩ => ?_, fun h => ?_⟩, fun h => absurd h hs, fun k2 hk h1 h2 => ?_,
          ?_, fun _ => ⟨hs, fun k2 hk => ?_⟩, fun _ => heq⟩
        · rw [heq] at h; cases h
        · rcases h with h | ⟨k2, hk, h1, h2⟩
          · exact absurd h hs
          · injection hk with hk; subst hk; omega
        · injection hk with hk; subst hk; omega
        · rw [heq]
          refine ⟨fun h => (by cases h), fun h => ?_⟩
          injection h with h; omega
        · injection hk with hk; subst hk; exact hr
      · rw [if_neg hr] at heq
        have hr2 := not_or.mp hr
        by_cases h0 : k = 0
        · rw [if_pos h0] at heq
          refine ⟨⟨fun ⟨f, h⟩ => ?_, fun h => ?_⟩, fun h => absurd h hs,
            fun k2 hk h1 h2 => ?_, ⟨fun _ => by rw [h0], fun _ => heq⟩,
            fun h => ?_, fun h => ?_⟩
          · rw [heq] at h; cases h
          · rcases h with h | ⟨k2, hk, h1, h2⟩
            · exact absurd h hs
            · injection hk with hk; subst hk; omega
          · injection hk with hk; subst hk; omega
          · rw [heq] at h; cases h
          · have := h.2 k rfl; omega
        · rw [if_neg h0] at heq
          have hlt : (k - 1).toNat < fileMatches.length := by omega
          have hget : fileMatches.get? (k - 1).toNat
              = some (fileMatches.get ⟨(k - 1).toNat, hlt⟩) := List.get?_eq_get hlt
          rw [hget] at heq
          refine ⟨⟨fun _ => Or.inr ⟨k, rfl, by omega, by omega⟩, fun _ => ⟨_, heq⟩⟩,
            fun h => absurd h hs, fun k2 hk h1 h2 => ?_, ?_, fun h => ?_, fun h => ?_⟩
          · injection hk with hk; subst hk; exact ⟨_, hget, heq⟩
          · rw [heq]
            refine ⟨fun h => (by cases h), fun h => ?_⟩
            injection h with h; exact absurd h h0
          · rw [heq] at h; cases h
          · have := h.2 k rfl; omega

/-! ## `routineMix` and `routineFetch` -/

/-- The tracks that the loop of the Mixer adds are an initial segment of the tracks that
the rule of the specification lets through, and all of them when no `Add` fails. -/
theorem tracks_spec (env : MixEnv) (data : index.Index) (p : playlist.Playlist) :
    ∀ tracks added, ∃ rest,
      (routineMix.tracks env data p tracks added).1 ++ rest
          = added ++ tracks.filter (mixable env.LegalizeFilename data)
        ∧ ((routineMix.tracks env data p tracks added).2 = none → rest = []) := by
  intro tracks
  induction tracks with
  | nil => intro added; exact ⟨[], rfl, fun _ => rfl⟩
  | cons t ts ih =>
    intro added
    unfold routineMix.tracks
    cases hget : data.Get env.LegalizeFilename t with
    | none =>
      have hm : mixable env.LegalizeFilename data t = false := by
        unfold mixable; rw [hget]; decide
      rw [List.filter_cons, if_neg (by rw [hm]; decide)]
      exact ih added
    | some status =>
      dsimp only
      by_cases hs : status ≠ index.Status.Installed ∧ status ≠ index.Status.Offline
      · have hm : mixable env.LegalizeFilename data t = false := by
          unfold mixable; rw [hget]
          cases status
          · rfl
          · exact absurd rfl hs.2
          · exact absurd rfl hs.1
          · rfl
        rw [if_pos hs, List.filter_cons, if_neg (by rw [hm]; decide)]
        exact ih added
      · have hm : mixable env.LegalizeFilename data t = true := by
          unfold mixable; rw [hget]
          cases status
          · exact absurd ⟨by decide, by decide⟩ hs
          · rfl
          · rfl
          · exact absurd ⟨by decide, by decide⟩ hs
        rw [if_neg hs, List.filter_cons, if_pos hm]
        cases hadd : env.Add p added t with
        | some err => exact ⟨t :: ts.filter (mixable env.LegalizeFilename data), rfl,
            fun h => absurd h (by simp)⟩
        | none =>
          obtain ⟨rest, h1, h2⟩ := ih (added ++ [t])
          exact ⟨rest, by rw [h1, List.append_assoc]; rfl, h2⟩

/-- The loop of the Mixer over the tracks returns no error when no `Add` fails. -/
theorem tracks_no_error (env : MixEnv) (data : index.Index) (p : playlist.Playlist)
    (hadd : ∀ added track, env.Add p added track = none) :
    ∀ tracks added, (routineMix.tracks env data p tracks added).2 = none := by
  intro tracks
  induction tracks with
  | nil => intro added; rfl
  | cons t ts ih =>
    intro added
    unfold routineMix.tracks
    cases data.Get env.LegalizeFilename t with
    | none => exact ih added
    | some status =>
      dsimp only
      by_cases hs : status ≠ index.Status.Installed ∧ status ≠ index.Status.Offline
      · rw [if_pos hs]; exact ih added
      · rw [if_neg hs, hadd]; exact ih (added ++ [t])

/-- The Mixer only appends to its record of encoded playlists. -/
theorem routineMix_encoded (env : MixEnv) (encoding : Str) (data : index.Index) :
    ∀ events st, ∃ more, (routineMix env encoding data events st).encoded
      = st.encoded ++ more := by
  intro events
  induction events with
  | nil => intro st; exact ⟨[], (List.append_nil _).symm⟩
  | cons p events ih =>
    intro st
    unfold routineMix
    cases env.Encoder p encoding with
    | some err => exact ⟨[], (List.append_nil _).symm⟩
    | none =>
      dsimp only
      generalize routineMix.tracks env data p p.Tracks [] = r
      obtain ⟨added, err⟩ := r
      cases err with
      | some err => exact ⟨[(p, added)], rfl⟩
      | none =>
        dsimp only
        cases env.Close p added with
        | some err => exact ⟨[(p, added)], rfl⟩
        | none =>
          dsimp only
          obtain ⟨more, h⟩ := ih { st with encoded := st.encoded ++ [(p, added)] }
          exact ⟨(p, added) :: more, by rw [h, List.append_assoc]; rfl⟩

/-- The provider search of automatic mode that finds something: the track is forwarded
with the URL of a match of maximal score. -/
theorem acquire_search (env : DecideEnv) (inp : DecideInput) (track : Track)
    (final : Str) (st : DeciderState) (raw : List provider.Match)
    (hauto : env.manualMode = false) (hfound : inp.found = Except.ok raw) (hraw : raw ≠ []) :
    ∃ best, best ∈ raw ∧ (∀ m ∈ raw, m.Score ≤ best.Score)
      ∧ routineDecide.acquire env inp track final st
        = some ({ st with
            searches := st.searches ++ [track]
            collect := st.collect ++ [{ track with UpstreamURL := best.URL }] }, false) := by
  cases hsort : raw.insertionSort (fun a b => b.Score ≤ a.Score) with
  | nil =>
    have hperm := List.perm_insertionSort (fun a b : provider.Match => b.Score ≤ a.Score) raw
    rw [hsort] at hperm
    exact absurd hperm.symm.eq_nil hraw
  | cons best rest =>
    obtain ⟨hmem, hmax⟩ := Search_head raw best rest hsort
    refine ⟨best, hmem, hmax, ?_⟩
    unfold routineDecide.acquire
    rw [hauto, hfound]
    simp only [provider.Search, hsort]
    rfl

/-- The loop of `routineFetchFixesIDs` over paths whose tag opens, has a Spotify ID and
closes: their IDs are collected and their paths get the status Flush. -/
theorem fixes_append (env : FetchEnv) (rest : List Str) :
    ∀ (pre localTracks : List Str) (indexData : index.Index),
      (∀ p ∈ pre, ∃ t, env.disk.open p = some t ∧ goLen t.SpotifyID ≠ 0
        ∧ env.closeError p = none) →
      routineFetchFixesIDs env (pre ++ rest) localTracks indexData
        = routineFetchFixesIDs env rest
            (localTracks ++ pre.map fun p => ((env.disk.open p).map fun t => t.SpotifyID).getD [])
            (pre.foldl (fun d p => d.SetPath p index.Status.Flush) indexData) := by
  intro pre
  induction pre with
  | nil => intro localTracks indexData _; simp
  | cons p pre ih =>
    intro localTracks indexData h
    obtain ⟨t, hopen, hid, hclose⟩ := h p (List.mem_cons_self _ _)
    rw [List.cons_append, routineFetchFixesIDs, hopen]
    dsimp only
    rw [if_neg hid, hclose]
    dsimp only
    rw [ih _ _ (fun q hq => h q (List.mem_cons_of_mem _ hq)), List.map_cons, hopen,
      List.foldl_cons, List.append_assoc]
    rfl

theorem callsUntilFailure_append (client : spotify.Client) (a b : List spotify.Call) :
    callsUntilFailure client (a ++ b)
      = match (callsUntilFailure client a).2 with
        | some err => ((callsUntilFailure client a).1, some err)
        | none => ((callsUntilFailure client a).1 ++ (callsUntilFailure client b).1,
            (callsUntilFailure client b).2) := by
  induction a with
  | nil => rfl
  | cons c cs ih =>
    rw [List.cons_append, callsUntilFailure, callsUntilFailure]
    cases hc : callError client c with
    | some err => rfl
    | none =>
      dsimp only
      rw [ih]
      cases (callsUntilFailure client cs).2 <;> rfl

/-- The calls made until one fails are an initial segment of the calls, end with the one
that failed, and none before it failed. -/
theorem callsUntilFailure_spec (client : spotify.Client) (calls : List spotify.Call) :
    (∃ later, calls = (callsUntilFailure client calls).1 ++ later
        ∧ ((callsUntilFailure client calls).2 = none → later = []))
      ∧ ∀ err, (callsUntilFailure client calls).2 = some err →
        ∃ before c, (callsUntilFailure client calls).1 = before ++ [c]
          ∧ callError client c = some err ∧ ∀ b ∈ before, callError client b = none := by
  induction calls with
  | nil => exact ⟨⟨[], rfl, fun _ => rfl⟩, fun err h => by cases h⟩
  | cons c cs ih =>
    rw [callsUntilFailure]
    cases hc : callError client c with
    | some e =>
      refine ⟨⟨cs, rfl, fun h => by cases h⟩, fun err h => ?_⟩
      injection h with h
      exact ⟨[], c, rfl, by rw [hc, h], fun b hb => by cases hb⟩
    | none =>
      obtain ⟨⟨later, h1, h2⟩, h3⟩ := ih
      refine ⟨⟨later, ?_, h2⟩, fun err h => ?_⟩
      · show c :: cs = c :: ((callsUntilFailure client cs).1 ++ later)
        rw [← h1]
      · obtain ⟨before, d, h4, h5, h6⟩ := h3 err h
        refine ⟨c :: before, d, ?_, h5, fun b hb => ?_⟩
        · show c :: (callsUntilFailure client cs).1 = c :: (before ++ [d])
          rw [h4]
        · rcases List.mem_cons.mp hb with hb | hb
          · rw [hb]; exact hc
          · exact h6 b hb

theorem routineFetchLibrary_calls (env : FetchEnv) (library : Bool) (libraryLimit : Int)
    (st : FetchState) :
    FetchesCalls env.client (if library then [spotify.Call.Library libraryLimit] else []) st
      (routineFetchLibrary env library libraryLimit st) := by
  unfold routineFetchLibrary FetchesCalls
  cases library
  · exact ⟨(List.append_nil _).symm, rfl, rfl, rfl, rfl⟩
  · show _ = _ ++ (callsUntilFailure env.client [spotify.Call.Library libraryLimit]).1
      ∧ _ = (callsUntilFailure env.client [spotify.Call.Library libraryLimit]).2 ∧ _
    rw [callsUntilFailure, callError, if_neg (by decide)]
    dsimp only
    cases (env.client.Library libraryLimit).2 <;> exact ⟨rfl, rfl, rfl, rfl, rfl⟩

theorem routineFetchAlbums_calls (env : FetchEnv) :
    ∀ (albums : List Str) (st : FetchState),
      FetchesCalls env.client (albums.map spotify.Call.Album) st
        (routineFetchAlbums env albums st) := by
  intro albums
  induction albums with
  | nil => intro st; exact ⟨(List.append_nil _).symm, rfl, rfl, rfl, rfl⟩
  | cons id albums ih =>
    intro st
    unfold FetchesCalls
    rw [routineFetchAlbums, List.map_cons, callsUntilFailure, callError]
    cases (env.client.Album id).2 with
    | some err => exact ⟨rfl, rfl, rfl, rfl, rfl⟩
    | none =>
      dsimp only
      obtain ⟨h1, h2, h3, h4, h5⟩ := ih
        { st with calls := st.calls ++ [spotify.Call.Album id]
                  decide := st.decide ++ (env.client.Album id).1 }
      exact ⟨by rw [h1, List.append_assoc]; rfl, h2, h3, h4, h5⟩

theorem routineFetchTracks_calls (env : FetchEnv) :
    ∀ (tracks : List Str) (st : FetchState),
      FetchesCalls env.client (tracks.map spotify.Call.Track) st
        (routineFetchTracks env tracks st) := by
  intro tracks
  induction tracks with
  | nil => intro st; exact ⟨(List.append_nil _).symm, rfl, rfl, rfl, rfl⟩
  | cons id tracks ih =>
    intro st
    unfold FetchesCalls
    rw [routineFetchTracks, List.map_cons, callsUntilFailure, callError]
    cases (env.client.Track id).2 with
    | some err => exact ⟨rfl, rfl, rfl, rfl, rfl⟩
    | none =>
      dsimp only
      obtain ⟨h1, h2, h3, h4, h5⟩ := ih
        { st with calls := st.calls ++ [spotify.Call.Track id]
                  decide := st.decide ++ (env.client.Track id).1 }
      exact ⟨by rw [h1, List.append_assoc]; rfl, h2, h3, h4, h5⟩

theorem routineFetchPlaylists_calls (env : FetchEnv) (len : Nat) :
    ∀ (playlists : List Str) (index : Nat) (st : FetchState),
      FetchesCalls env.client (playlists.map spotify.Call.Playlist) st
        (routineFetchPlaylists.loop env len index playlists st) := by
  intro playlists
  induction playlists with
  | nil => intro index st; exact ⟨(List.append_nil _).symm, rfl, rfl, rfl, rfl⟩
  | cons id playlists ih =>
    intro index st
    unfold FetchesCalls
    rw [routineFetchPlaylists.loop, List.map_cons, callsUntilFailure, callError]
    cases (env.client.Playlist id).2 with
    | error err => exact ⟨rfl, rfl, rfl, rfl, rfl⟩
    | ok p =>
      dsimp only
      by_cases hlt : index < len
      · rw [if_pos hlt]
        obtain ⟨h1, h2, h3, h4, h5⟩ := ih (index + 1)
          { st with calls := st.calls ++ [spotify.Call.Playlist id]
                    decide := st.decide ++ (env.client.Playlist id).1
                    mix := st.mix ++ [p] }
        exact ⟨by rw [h1, List.append_assoc]; rfl, h2, h3, h4, h5⟩
      · rw [if_neg hlt]
        obtain ⟨h1, h2, h3, h4, h5⟩ := ih (index + 1)
          { st with calls := st.calls ++ [spotify.Call.Playlist id]
                    decide := st.decide ++ (env.client.Playlist id).1 }
        exact ⟨by rw [h1, List.append_assoc]; rfl, h2, h3, h4, h5⟩

/-- The loop of `routineFetchPlaylists` sends to the Mixer queue the playlist of every ID
whose retrieval succeeds, as long as the position stays below `len`. -/
theorem routineFetchPlaylists_mix (env : FetchEnv) (len : Nat) :
    ∀ (playlists : List Str) (index : Nat) (st : FetchState),
      index + playlists.length ≤ len →
      (∀ id ∈ playlists, (playlistOf env.client id).isSome) →
      (routineFetchPlaylists.loop env len index playlists st).1.mix
          = st.mix ++ playlists.filterMap (playlistOf env.client)
        ∧ (routineFetchPlaylists.loop env len index playlists st).2 = none := by
  intro playlists
  induction playlists with
  | nil => intro index st _ _; exact ⟨(List.append_nil _).symm, rfl⟩
  | cons id playlists ih =>
    intro index st hlen hok
    have hid := hok id (List.mem_cons_self _ _)
    have hlt : index < len := by
      rw [List.length_cons] at hlen
      omega
    rw [routineFetchPlaylists.loop, List.filterMap_cons]
    unfold playlistOf at hid ⊢
    cases hp : (env.client.Playlist id).2 with
    | error err => rw [hp] at hid; exact absurd hid (by simp)
    | ok p =>
      dsimp only
      rw [if_pos hlt]
      obtain ⟨h1, h2⟩ := ih (index + 1)
        { st with calls := st.calls ++ [spotify.Call.Playlist id]
                  decide := st.decide ++ (env.client.Playlist id).1
                  mix := st.mix ++ [p] }
        (by rw [List.length_cons] at hlen; omega)
        (fun q hq => hok q (List.mem_cons_of_mem _ hq))
      refine ⟨?_, h2⟩
      rw [h1, List.append_assoc]
      rfl

theorem FetchOutcome_nil (client : spotify.Client) (st : FetchState) :
    FetchOutcome client [] st (routineFetch.deferred st) :=
  ⟨(List.append_nil _).symm, (List.append_nil _).symm, rfl⟩

/-- One loop of the Fetcher followed by the rest of `routineFetch`. -/
theorem FetchOutcome_cons (client : spotify.Client) (a rest : List spotify.Call)
    (st : FetchState) (r : FetchState × Option Str) (k : FetchState → FetchState) :
    FetchesCalls client a st r → (∀ s, FetchOutcome client rest s (k s)) →
    FetchOutcome client (a ++ rest) st
      (match r with
        | (s, some err) => routineFetch.fail s err
        | (s, none) => k s) := by
  intro h hk
  obtain ⟨s, e⟩ := r
  obtain ⟨h1, h2, h3, h4, _⟩ := h
  dsimp only at h1 h2 h3 h4
  unfold FetchOutcome
  rw [callsUntilFailure_append, ← h2]
  cases e with
  | some err =>
    dsimp only
    exact ⟨h1, by rw [← h3]; rfl, by rw [← h4]; rfl⟩
  | none =>
    dsimp only
    obtain ⟨k1, k2, k3⟩ := hk s
    exact ⟨by rw [k1, h1, List.append_assoc], by rw [k2, h3], by rw [k3, h4]⟩

/-! ## The canonical file name under `fuzzySearchLocalFiles` -/

theorem cutWhen_take (p : Str → Bool) :
    ∀ (s : Str) (n : Nat), p (s.drop n) = true → s.drop n ≠ [] →
      ∃ r, s.take n = cutWhen p s ++ r := by
  intro s
  induction s with
  | nil => intro n _ hne; exact absurd (List.drop_nil) hne
  | cons c cs ih =>
    intro n hp hne
    cases n with
    | zero =>
      have hp2 : p (c :: cs) = true := hp
      exact ⟨[], by simp [cutWhen, hp2]⟩
    | succ m =>
      by_cases h : p (c :: cs) = true
      · exact ⟨(c :: cs).take (m + 1), by simp [cutWhen, h]⟩
      · obtain ⟨r, hr⟩ := ih m hp hne
        refine ⟨r, ?_⟩
        simp only [cutWhen, h, Bool.false_eq_true, if_false, List.take_succ_cons,
          List.cons_append]
        rw [hr]

/-- The text of the title before its first ` - ` starts with `Track.Song`. -/
theorem Song_prefix_before_dash (track : Track) (a b : Str)
    (h : splitAtFirst " - ".toList track.Title = some (a, b)) : ∃ r, a = track.Song ++ r := by
  obtain ⟨h1, _, h3⟩ := splitAtFirst_some _ _ _ _ h
  have hne : track.Title.drop a.length ≠ [] := by
    intro e
    rw [e] at h3
    exact absurd h3 (by decide)
  have hp : (fun r : Str => (" - ".toList.isPrefixOf (r ++ " - ".toList)
      || " (".toList.isPrefixOf r) || " [".toList.isPrefixOf r) (track.Title.drop a.length)
      = true := by
    have hpre : " - ".toList <+: track.Title.drop a.length := List.isPrefixOf_iff_prefix.mp h3
    have hpre2 : " - ".toList <+: track.Title.drop a.length ++ " - ".toList :=
      hpre.trans (List.prefix_append _ _)
    have := List.isPrefixOf_iff_prefix.mpr hpre2
    simp only [this, Bool.true_or]
  obtain ⟨r, hr⟩ := cutWhen_take
    (fun r : Str => (" - ".toList.isPrefixOf (r ++ " - ".toList)
      || " (".toList.isPrefixOf r) || " [".toList.isPrefixOf r) track.Title a.length hp hne
  refine ⟨r, ?_⟩
  rw [Song_eq_cutWhen, ← hr]
  exact h1

/-- The canonical file name starts with the first artist without dots, ` - ` and
`Track.Song`, when trimming leaves the text before the first ` - ` of the title as it
is. -/
theorem Final_song_prefix (LegalizeFilename : Str → Str) (track : Track) (artist0 : Str)
    (others : List Str) (hartists : track.Artists = artist0 :: others)
    (htrim : strings.Index track.Title " - ".toList > 0 →
      strings.TrimSpace (track.Title.take (strings.Index track.Title " - ".toList).toNat)
        = track.Title.take (strings.Index track.Title " - ".toList).toNat) :
    ∃ rest, track.Final LegalizeFilename
      = some (LegalizeFilename (withoutDots artist0 ++ " - ".toList ++ track.Song ++ rest)) := by
  have htitle : ∃ r, (if strings.Index track.Title " - ".toList > 0 then
        strings.TrimSpace (track.Title.take (strings.Index track.Title " - ".toList).toNat)
          ++ " (".toList
          ++ strings.TrimSpace (track.Title.drop (strings.Index track.Title " - ".toList + 3).toNat)
          ++ ")".toList
      else track.Title) = track.Song ++ r := by
    by_cases hidx : strings.Index track.Title " - ".toList > 0
    · rw [if_pos hidx, htrim hidx]
      have hI := Index_eq track.Title " - ".toList
      cases hs : splitAtFirst " - ".toList track.Title with
      | none =>
        rw [hs] at hI
        rw [hI] at hidx
        exact absurd hidx (by decide)
      | some ab =>
        obtain ⟨a, b⟩ := ab
        rw [hs] at hI
        dsimp only at hI
        obtain ⟨r, hr⟩ := Song_prefix_before_dash track a b hs
        obtain ⟨h1, _, _⟩ := splitAtFirst_some _ _ _ _ hs
        rw [hI, Int.toNat_ofNat, ← h1]
        refine ⟨r ++ " (".toList
          ++ strings.TrimSpace (track.Title.drop ((a.length : Int) + 3).toNat)
          ++ ")".toList, ?_⟩
        rw [hr]
        simp only [List.append_assoc]
    · rw [if_neg hidx, Song_eq_cutWhen]
      exact cutWhen_append_rest _ _
  obtain ⟨r, hr⟩ := htitle
  unfold Track.Final
  rw [hartists]
  simp only [hr, ReplaceAll_dot]
  by_cases hlen : (artist0 :: others).length > 1
  · rw [if_pos hlen]
    exact ⟨_, by simp only [List.append_assoc]; rfl⟩
  · rw [if_neg hlen]
    exact ⟨_, by simp only [List.append_assoc]; rfl⟩

/-! ## The Decider in automatic mode without files -/

theorem GetPath_SetPath_ne (data : index.Index) (path other : Str) (status : index.Status)
    (h : other ≠ path) : (data.SetPath path status).GetPath other = data.GetPath other := by
  induction data with
  | nil =>
    have hne : ¬ path = other := fun e => h e.symm
    simp only [index.Index.SetPath, index.Index.GetPath, hne, if_false]
  | cons e rest ih =>
    obtain ⟨p, old⟩ := e
    by_cases hp : p = path
    · have hpo : ¬ p = other := fun e => h (e.symm.trans hp)
      simp only [index.Index.SetPath, hp, if_true, index.Index.GetPath]
      rw [← hp]
      simp only [hpo, if_false]
    · by_cases hpo : p = other
      · subst hpo
        simp only [index.Index.SetPath, hp, if_false, index.Index.GetPath, if_true]
      · simp only [index.Index.SetPath, hp, if_false, index.Index.GetPath, hpo]
        exact ih

/-- The provider search of automatic mode leaves the files and the index alone and
forwards at most the track, with some upstream URL. -/
theorem acquire_automatic (env : DecideEnv) (inp : DecideInput) (track : Track)
    (final : Str) (s : DeciderState) (hauto : env.manualMode = false) :
    ∃ s2 stop, routineDecide.acquire env inp track final s = some (s2, stop)
      ∧ s2.disk = s.disk ∧ s2.unreadable = s.unreadable ∧ s2.indexData = s.indexData
      ∧ (s2.collect = s.collect
        ∨ ∃ url, s2.collect = s.collect ++ [{ track with UpstreamURL := url }]) := by
  unfold routineDecide.acquire
  rw [hauto]
  simp only [Bool.false_eq_true, if_false]
  cases provider.Search inp.found with
  | error err => exact ⟨_, _, rfl, rfl, rfl, rfl, Or.inl rfl⟩
  | ok urlMatches =>
    cases urlMatches with
    | nil => exact ⟨_, _, rfl, rfl, rfl, rfl, Or.inl rfl⟩
    | cons best rest => exact ⟨_, _, rfl, rfl, rfl, rfl, Or.inr ⟨best.URL, rfl⟩⟩

/-- One step of the Decider in automatic mode keeps `ForwardedOnce` and forwards the track
only when its canonical final path had no entry, the entry being Online afterwards. -/
theorem step_forwardedOnce (env : DecideEnv) (inp : DecideInput) (track : Track)
    (final : Str) (F : Str → Prop) (s : DeciderState) (hauto : env.manualMode = false)
    (hinv : ForwardedOnce env.LegalizeFilename env.outputDir F s)
    (hfinal : track.Final env.LegalizeFilename = some final) (hF : F final) :
    ∃ s2 stop, routineDecide.step env inp track s = some (s2, stop)
      ∧ ForwardedOnce env.LegalizeFilename env.outputDir F s2
      ∧ (s2.collect = s.collect
        ∨ ∃ url, s2.collect = s.collect ++ [{ track with UpstreamURL := url }]
          ∧ s.indexData.GetPath final = none
          ∧ s2.indexData.GetPath final = some index.Status.Online) := by
  obtain ⟨h1, h2, h3, h4⟩ := hinv
  rw [step_missing env inp track s final hfinal (h1 final hF)]
  unfold routineDecide.resolve
  rcases h2 final hF with hnone | honline
  · rw [hnone]
    dsimp only
    obtain ⟨s2, stop, hacq, hdisk, hunread, hindex, hcollect⟩ := acquire_automatic env inp
      track final { s with indexData := s.indexData.SetPath final index.Status.Online } hauto
    have hget : s2.indexData.GetPath final = some index.Status.Online := by
      rw [hindex]; exact GetPath_SetPath _ _ _
    have hother : ∀ g, g ≠ final → s2.indexData.GetPath g = s.indexData.GetPath g := by
      intro g hg
      rw [hindex]
      exact GetPath_SetPath_ne _ _ _ _ hg
    have hold : ∀ t ∈ s.collect, ∃ f, t.Final env.LegalizeFilename = some f
        ∧ s2.indexData.GetPath f = some index.Status.Online := by
      intro t ht
      obtain ⟨f, hf1, hf2⟩ := h3 t ht
      refine ⟨f, hf1, ?_⟩
      by_cases hff : f = final
      · rw [hff]; exact hget
      · rw [hother f hff]; exact hf2
    have hfresh : some final ∉ s.collect.map (Track.Final env.LegalizeFilename) := by
      intro hmem
      obtain ⟨t, ht, hte⟩ := List.mem_map.mp hmem
      obtain ⟨f, hf1, hf2⟩ := h3 t ht
      rw [hte] at hf1
      injection hf1 with hf1
      rw [← hf1, hnone] at hf2
      cases hf2
    refine ⟨s2, stop, hacq, ⟨?_, ?_, ?_, ?_⟩, ?_⟩
    · intro f hf
      have := h1 f hf
      unfold DeciderState.stat at this ⊢
      rw [hdisk, hunread]
      exact this
    · intro f hf
      by_cases hff : f = final
      · rw [hff]; exact Or.inr hget
      · rw [hother f hff]; exact h2 f hf
    · rcases hcollect with hc | ⟨url, hc⟩
      · rw [hc]; exact hold
      · rw [hc]
        intro t ht
        rcases List.mem_append.mp ht with ht | ht
        · exact hold t ht
        · rw [List.mem_singleton.mp ht]
          exact ⟨final, hfinal, hget⟩
    · rcases hcollect with hc | ⟨url, hc⟩
      · rw [hc]; exact h4
      · rw [hc, List.map_append, List.map_singleton]
        have hsame : Track.Final env.LegalizeFilename { track with UpstreamURL := url }
            = some final := hfinal
        rw [hsame]
        exact List.nodup_append.mpr ⟨h4, List.nodup_singleton _,
          fun a ha hb => hfresh (by rw [List.mem_singleton.mp hb] at ha; exact ha)⟩
    · rcases hcollect with hc | ⟨url, hc⟩
      · exact Or.inl hc
      · exact Or.inr ⟨url, hc, rfl, hget⟩
  · rw [honline]
    exact ⟨s, false, rfl, ⟨h1, h2, h3, h4⟩, Or.inl rfl⟩

/-- The run of the Decider in automatic mode ends and keeps `ForwardedOnce`. -/
theorem run_forwardedOnce (env : DecideEnv) (F : Str → Prop)
    (hauto : env.manualMode = false) :
    ∀ (events : List (Track × DecideInput)) (s : DeciderState),
      ForwardedOnce env.LegalizeFilename env.outputDir F s →
      (∀ e ∈ events, ∃ f, e.1.Final env.LegalizeFilename = some f ∧ F f) →
      ∃ s2, routineDecide.run env events s = some s2
        ∧ ForwardedOnce env.LegalizeFilename env.outputDir F s2 := by
  intro events
  induction events with
  | nil => intro s hinv _; exact ⟨s, rfl, hinv⟩
  | cons e events ih =>
    intro s hinv hev
    obtain ⟨track, inp⟩ := e
    obtain ⟨f, hf, hF⟩ := hev (track, inp) (List.mem_cons_self _ _)
    obtain ⟨s2, stop, hstep, hinv2, _⟩ := step_forwardedOnce env inp track f F s hauto hinv
      hf hF
    rw [routineDecide.run, hstep]
    cases stop with
    | true => exact ⟨s2, rfl, hinv2⟩
    | false => exact ih s2 hinv2 (fun e he => hev e (List.mem_cons_of_mem _ he))

/-! ## The provider -/

theorem splitGo_without_sep (c : Char) :
    ∀ (s cur : Str), c ∉ s → strings.splitGo [c] s 0 cur = [cur.reverse ++ s] := by
  intro s
  induction s with
  | nil => intro cur _; simp [strings.splitGo]
  | cons d ds ih =>
    intro cur h
    have hd : ¬ c = d := fun e => h (by rw [e]; exact List.mem_cons_self _ _)
    have hds : c ∉ ds := fun e => h (List.mem_cons_of_mem _ e)
    have hpre : [c].isPrefixOf (d :: ds) = false := by
      simp [List.isPrefixOf, hd]
    rw [strings.splitGo, if_neg (by rw [hpre]; decide), ih (d :: cur) hds]
    simp

theorem wrapInt_eq (x : Int) (h1 : -9223372036854775808 ≤ x) (h2 : x < 9223372036854775808) :
    wrapInt x = x := by
  unfold wrapInt
  omega

theorem ofInt_exact (n : Int) (h1 : -9007199254740992 < n) (h2 : n < 9007199254740992) :
    float64.ofInt n = n := by
  unfold float64.ofInt
  have h : n.natAbs < 9007199254740992 := by omega
  simp only [h, if_true]

/-- Below `2^52` in size the duration score is computed without rounding. -/
theorem durationScore_exact (length duration : Int)
    (hl1 : -4503599627370496 < length) (hl2 : length < 4503599627370496)
    (hd1 : -4503599627370496 < duration) (hd2 : duration < 4503599627370496) :
    provider.youTube.durationScore length duration
      = some (2 * ((length - duration).natAbs : Int)) := by
  unfold provider.youTube.durationScore float64.sub
  rw [ofInt_exact length (by omega) (by omega), ofInt_exact duration (by omega) (by omega),
    ofInt_exact (length - duration) (by omega) (by omega)]
  unfold float64.toInt
  rw [if_pos (by omega)]
  congr 1
  omega

/-! ## The Indexer -/

/-- The body of the loop over the files does not panic on a track with an artist. -/
theorem reconcile_body_isSome (U : CaseTables) (saveFails : Str → Bool) (track : Track)
    (confirmation : Str) (st : ReconcileState) (filePath : Str)
    (hartists : track.Artists ≠ []) :
    (fuzzyFindTracksForSpotify.body U saveFails track confirmation st filePath).isSome
      = true := by
  cases hA : track.Artists with
  | nil => exact absurd hA hartists
  | cons artist0 others =>
    unfold fuzzyFindTracksForSpotify.body
    rw [reconcile_terms_cons U track artist0 others hA, hA]
    dsimp only
    split
    · split
      · cases st.disk.open filePath with
        | none => rfl
        | some tag =>
          dsimp only
          split <;> rfl
      · rfl
    · rfl

/-- The loop over the files does not panic on a track with an artist. -/
theorem reconcile_files_isSome (U : CaseTables) (saveFails : Str → Bool) (Reads : Nat → Str)
    (track : Track) (terms : ReconcileTerms) (hartists : track.Artists ≠ []) :
    ∀ (files : List Str) (st : ReconcileState) (asked : Nat),
      (fuzzyFindTracksForSpotify.files U saveFails Reads track terms files st asked).isSome
        = true := by
  intro files
  induction files with
  | nil => intro st asked; rfl
  | cons filePath rest ih =>
    intro st asked
    unfold fuzzyFindTracksForSpotify.files
    cases hb : fuzzyFindTracksForSpotify.body U saveFails track (Reads asked) st filePath with
    | none =>
      have h := reconcile_body_isSome U saveFails track (Reads asked) st filePath hartists
      rw [hb] at h
      cases h
    | some st2 => exact ih _ _

/-- The loop over the tracks does not panic when every track has an artist. -/
theorem reconcile_tracks_isSome (U : CaseTables) (saveFails : Str → Bool) (Reads : Nat → Str) :
    ∀ (tracks : List Track), (∀ track ∈ tracks, track.Artists ≠ []) →
      ∀ (st : ReconcileState) (asked : Nat),
        (fuzzyFindTracksForSpotify.tracks U saveFails Reads tracks st asked).isSome = true := by
  intro tracks
  induction tracks with
  | nil => intro _ st asked; rfl
  | cons track rest ih =>
    intro hall st asked
    have hartists : track.Artists ≠ [] := hall track (List.mem_cons_self _ _)
    unfold fuzzyFindTracksForSpotify.tracks
    cases ht : fuzzyFindTracksForSpotify.terms U track with
    | none =>
      cases hA : track.Artists with
      | nil => exact absurd hA hartists
      | cons artist0 others =>
        rw [reconcile_terms_cons U track artist0 others hA] at ht
        cases ht
    | some terms =>
      dsimp only
      cases hf : fuzzyFindTracksForSpotify.files U saveFails Reads track terms
          st.filesWithoutIDs st asked with
      | none =>
        have h := reconcile_files_isSome U saveFails Reads track terms hartists
          st.filesWithoutIDs st asked
        rw [hf] at h
        cases h
      | some r =>
        exact ih (fun t ht => hall t (List.mem_cons_of_mem _ ht)) _ _

/-- The function `fuzzyFindTracksForSpotify` does not panic when every track has an
artist. -/
theorem fuzzyFind_isSome (U : CaseTables) (saveFails : Str → Bool) (Reads : Nat → Str)
    (dir : List WalkEntry) (tracks : List Track) (disk : Disk) (indexData : index.Index)
    (hall : ∀ track ∈ tracks, track.Artists ≠ []) :
    (fuzzyFindTracksForSpotify U saveFails Reads dir tracks disk indexData).isSome = true := by
  unfold fuzzyFindTracksForSpotify
  dsimp only
  split
  · rfl
  · split
    · rfl
    · rw [Option.isSome_map']
      exact reconcile_tracks_isSome U saveFails Reads tracks hall _ _

/-- The Indexer does not panic when every track of the library has an artist. -/
theorem routineIndex_no_panic (env : IndexEnv)
    (hall : ∀ track ∈ env.Library.1, track.Artists ≠ []) :
    (routineIndex env).panicked = false := by
  unfold routineIndex
  cases env.Build with
  | some err => rfl
  | none =>
    cases env.Authenticate with
    | some err => rfl
    | none =>
      dsimp only
      split
      · cases hf : fuzzyFindTracksForSpotify env.U env.saveFails env.Reads env.dir
            env.Library.1 env.disk env.indexData with
        | none =>
          have h := fuzzyFind_isSome env.U env.saveFails env.Reads env.dir env.Library.1
            env.disk env.indexData hall
          rw [hf] at h
          cases h
        | some r => rfl
      · rfl

/-- On every exit path of the Indexer without panic, one boolean is sent and then the
signal is closed: false, with the error, when `Build` fails, and true otherwise. -/
theorem routineIndex_signal (env : IndexEnv) (hpanic : (routineIndex env).panicked = false) :
    (routineIndex env).signal = [SignalEvent.send env.Build.isNone, SignalEvent.close]
      ∧ (routineIndex env).errors = env.Build.toList := by
  revert hpanic
  unfold routineIndex
  cases env.Build with
  | some err => intro _; exact ⟨rfl, rfl⟩
  | none =>
    cases env.Authenticate with
    | some err => intro _; exact ⟨rfl, rfl⟩
    | none =>
      dsimp only
      by_cases hlen : env.Library.1.length > 0
      · simp only [if_pos hlen]
        cases hf : fuzzyFindTracksForSpotify env.U env.saveFails env.Reads env.dir
            env.Library.1 env.disk env.indexData with
        | none => intro hpanic; cases hpanic
        | some r => intro _; exact ⟨rfl, rfl⟩
      · simp only [if_neg hlen]
        intro _
        exact ⟨rfl, rfl⟩

/-- The Installer only closes its signal: the loop leaves the signal as it is. -/
theorem routineInstall_loop_signal (env : InstallEnv) :
    ∀ (events : List Track) (st st3 : InstallState),
      routineInstall.loop env events st = some st3 → st3.signal = st.signal := by
  intro events
  induction events with
  | nil =>
    intro st st3 h
    injection h with h
    rw [← h]
  | cons track events ih =>
    intro st st3 h
    unfold routineInstall.loop at h
    cases hfinal : track.Final env.LegalizeFilename with
    | none => rw [hfinal] at h; cases h
    | some final =>
      rw [hfinal] at h
      dsimp only at h
      cases hmove : env.FileMoveOrCopy track
          (st.indexData.GetPath final == some index.Status.Flush) with
      | some err =>
        rw [hmove] at h
        injection h with h
        rw [← h]
      | none =>
        rw [hmove] at h
        exact ih { st with indexData := st.indexData.SetPath final index.Status.Installed }
          st3 h

/-- The run of the Indexer on a library whose second track has no artist: the first track
is matched and its file tagged, then `track.Artists[0]` panics, and the deferred call
closes the signal, to which no boolean was written. -/
theorem routineIndex_panic_closes :
    (fuzzyFindTracksForSpotify.terms asciiTables (mkTrack "2" "T2" [])).isNone = true
      ∧ fuzzyFindTracksForSpotify asciiTables artistlessIndexEnv.saveFails
          artistlessIndexEnv.Reads artistlessIndexEnv.dir artistlessIndexEnv.Library.1
          artistlessIndexEnv.disk artistlessIndexEnv.indexData = none
      ∧ routineIndex artistlessIndexEnv
        = { signal := [SignalEvent.close], errors := [], panicked := true } := by
  decide

/-! ## The claims -/

/-- C1: for the track with ID `123`, title `Song - Remix` and artists `[A.B.]`,
`TrackPath.Final()` returns exactly `AB - Song (Remix).mp3`, given that
`LegalizeFilename` leaves this string unchanged. -/
theorem Final_scenario (LegalizeFilename : Str → Str) (track : Track)
    (_hid : track.ID = "123".toList) (htitle : track.Title = "Song - Remix".toList)
    (hartists : track.Artists = ["A.B.".toList])
    (hlegal : LegalizeFilename "AB - Song (Remix).mp3".toList = "AB - Song (Remix).mp3".toList) :
    track.Final LegalizeFilename = some "AB - Song (Remix).mp3".toList := by
  have h : track.Final LegalizeFilename
      = some (LegalizeFilename "AB - Song (Remix).mp3".toList) := by
    unfold Track.Final
    rw [hartists, htitle]
    rfl
  rw [h, hlegal]

/-- Witness of C1: the scenario track, with a legalization that changes nothing. -/
theorem Final_scenario_witness :
    id "AB - Song (Remix).mp3".toList = "AB - Song (Remix).mp3".toList
      ∧ scenarioTrack.Final id = some "AB - Song (Remix).mp3".toList :=
  ⟨rfl, Final_scenario id scenarioTrack rfl rfl rfl rfl⟩

/-- C2: for every track with at least one artist, `TrackPath.Final()` equals
`LegalizeFilename(P + " - " + T + F + ".mp3")`, where `P` is the first artist without its
dots, `T` is the title, rewritten as `trim(before) (trim(after))` when its first ` - `
stands at a position greater than 0, and `F` is empty for a single artist and otherwise
` (ft ...)` around the remaining artists, dots removed, in order, joined by `, `. -/
theorem Final_eq_canonical (LegalizeFilename : Str → Str) (track : Track) (artist0 : Str)
    (others : List Str) (hartists : track.Artists = artist0 :: others) :
    track.Final LegalizeFilename
      = some (LegalizeFilename (withoutDots artist0 ++ " - ".toList
          ++ canonicalTitle track.Title ++ featuringSuffix others ++ ".mp3".toList)) := by
  have htitle : (if strings.Index track.Title " - ".toList > 0 then
        strings.TrimSpace (track.Title.take (strings.Index track.Title " - ".toList).toNat)
          ++ " (".toList
          ++ strings.TrimSpace (track.Title.drop (strings.Index track.Title " - ".toList + 3).toNat)
          ++ ")".toList
      else track.Title) = canonicalTitle track.Title := by
    rw [Index_eq]
    unfold canonicalTitle
    cases hs : splitAtFirst " - ".toList track.Title with
    | none => simp
    | some ab =>
      obtain ⟨a, b⟩ := ab
      obtain ⟨h1, h2, _⟩ := splitAtFirst_some _ _ _ _ hs
      have e3 : (" - ".toList : Str).length = 3 := rfl
      rw [e3] at h2
      by_cases hpos : 0 < a.length
      · have hpos2 : ((a.length : Nat) : Int) > 0 := by exact_mod_cast hpos
        simp only [hpos, hpos2, if_true]
        have e4 : ((a.length : Int) + 3).toNat = a.length + 3 := by omega
        rw [e4, Int.toNat_ofNat, ← h1, ← h2]
      · have hpos2 : ¬ ((a.length : Nat) : Int) > 0 := by
          intro h; apply hpos; exact_mod_cast h
        simp only [hpos, hpos2, if_false]
  unfold Track.Final
  rw [hartists]
  simp only [htitle, ReplaceAll_dot, featuredArtists_cons, strings.Join, TrackFormat]
  cases others with
  | nil => simp [featuringSuffix]
  | cons o os => simp [featuringSuffix]

/-- Witness of C2: a track with three artists and a variant in its title. -/
theorem Final_eq_canonical_witness :
    (mkTrack "1" "a - b" ["x.", "y.z", "w"]).Artists = "x.".toList :: ["y.z".toList, "w".toList]
      ∧ (mkTrack "1" "a - b" ["x.", "y.z", "w"]).Final id
        = some (id (withoutDots "x.".toList ++ " - ".toList
            ++ canonicalTitle (mkTrack "1" "a - b" ["x.", "y.z", "w"]).Title
            ++ featuringSuffix ["y.z".toList, "w".toList] ++ ".mp3".toList)) :=
  ⟨rfl, Final_eq_canonical id _ _ _ rfl⟩

/-- Counterexample to C3 as stated: the title `Name -` contains none of the separators
` - `, ` (`, ` [`, yet `Song()` is `Name`, not the whole title. -/
theorem Song_trailing_dash_counterexample :
    (∀ sep ∈ songSeparators, strings.Contains trailingDashTrack.Title sep = false)
      ∧ truncateAtSeparators songSeparators trailingDashTrack.Title = "Name -".toList
      ∧ trailingDashTrack.Song = "Name".toList
      ∧ trailingDashTrack.Song ≠ truncateAtSeparators songSeparators trailingDashTrack.Title := by
  decide

/-- C3, amended: for every title that does not end in ` -`, `Track.Song()` equals the title
truncated at the earliest occurrence of any of the separators ` - `, ` (` or ` [`, and
equals the whole title when none of them occurs in it. -/
theorem Song_eq_truncate (track : Track)
    (hend : strings.HasSuffix track.Title " -".toList = false) :
    track.Song = truncateAtSeparators songSeparators track.Title
      ∧ ((∀ sep ∈ songSeparators, strings.Contains track.Title sep = false)
          → track.Song = track.Title) := by
  have h1 : track.Song = truncateAtSeparators songSeparators track.Title := by
    rw [Song_eq_cutWhen, truncateAtSeparators_song]
    apply cutWhen_congr
    intro r hr hne
    rw [dash_isPrefixOf_append r track.Title hr hne hend]
  refine ⟨h1, fun hnone => ?_⟩
  rw [h1, truncateAtSeparators]
  apply cutWhen_eq_self
  intro r hr _
  rw [List.any_eq_false]
  intro sep hsep
  rw [Contains_false track.Title sep (hnone sep hsep) r hr]
  simp

/-- Witness of C3: `Name - Acoustic` gives `Name`. -/
theorem Song_eq_truncate_witness :
    strings.HasSuffix acousticTrack.Title " -".toList = false
      ∧ acousticTrack.Song = truncateAtSeparators songSeparators acousticTrack.Title
      ∧ ((∀ sep ∈ songSeparators, strings.Contains acousticTrack.Title sep = false)
          → acousticTrack.Song = acousticTrack.Title) :=
  ⟨by decide, Song_eq_truncate acousticTrack (by decide)⟩

/-- Counterexample to C4 as stated: for the track `été` by `Zoé Kim` and the file
`kim zoé été.mp3` the score computed by `fuzzySearchLocalFiles` is 50, while the six-term
sum with the words longer than 3 characters is 40. The words `été` and `zoé` have three
characters but five and four bytes, and each of them earns 5 points. -/
theorem score_characters_counterexample :
    accentTrack.Artists = ["Zoé Kim".toList]
      ∧ fuzzyScore asciiTables accentTrack accentFile = some 50
      ∧ scoreFormula asciiTables accentTrack "Zoé Kim".toList (filepath.Base accentFile) = 40
      ∧ "été".toList.length = 3 ∧ goLen "été".toList = 5
      ∧ "zoé".toList.length = 3 ∧ goLen "zoé".toList = 4 := by
  decide

/-- C4, amended: for every track and every file name, the score computed by
`fuzzySearchLocalFiles` is 100 for the case-insensitive occurrence of
`<primary artist without dots> - <base title>`, plus 50 for that of the primary artist,
plus 40 for that of the base title `Song()`, plus 30 when the name without extension
splits at its first ` - ` into a normalized left part containing the normalized artist and
a normalized right part containing the normalized base title, plus 5 for every normalized
title word of more than 3 bytes (Go's `len`, the length of the UTF-8 encoding) contained in
the normalized file name, plus 5 for every such artist word. -/
theorem score_eq_formula (U : CaseTables) (track : Track) (artist0 : Str) (others : List Str)
    (path : Str) (hartists : track.Artists = artist0 :: others) :
    fuzzyScore U track path
      = some (scoreFormulaBytes U track artist0 (filepath.Base path)) := by
  unfold fuzzyScore
  rw [terms_cons U track artist0 others hartists, Option.map_some']
  unfold fuzzySearchLocalFiles.score scoreFormulaBytes splitHalvesMatch withoutExtension
    matchedWordCountBytes containsIgnoringCase
  dsimp only
  rw [wordPoints_eq, wordPoints_eq]
  generalize regexp.MatchFold U (withoutDots artist0 ++ " - ".toList ++ track.Song)
    (filepath.Base path) = b1
  generalize regexp.MatchFold U artist0 (filepath.Base path) = b2
  generalize regexp.MatchFold U track.Song (filepath.Base path) = b3
  generalize (List.filter _ (strings.Fields (fuzzySearchLocalFiles.cleanTerm U track.Title))).length
    = n1
  generalize (List.filter _ (strings.Fields (fuzzySearchLocalFiles.cleanTerm U artist0))).length
    = n2
  cases hs : splitAtFirst " - ".toList (strings.TrimSuffix (filepath.Base path)
      (filepath.Ext (filepath.Base path))) with
  | none =>
    rw [Contains_of_none _ _ hs]
    cases b1 <;> cases b2 <;> cases b3 <;> rfl
  | some ab =>
    obtain ⟨a, b⟩ := ab
    obtain ⟨h1, h2⟩ := SplitN2_of_some _ _ _ _ hs
    rw [h1, h2, show [a, b].getD 0 [] = a from rfl, show [a, b].getD 1 [] = b from rfl]
    dsimp only
    generalize strings.Contains (fuzzySearchLocalFiles.cleanTerm U a)
      (fuzzySearchLocalFiles.cleanTerm U artist0) = b4
    generalize strings.Contains (fuzzySearchLocalFiles.cleanTerm U b)
      (fuzzySearchLocalFiles.cleanTerm U track.Song) = b5
    cases b1 <;> cases b2 <;> cases b3 <;> cases b4 <;> cases b5 <;> rfl

/-- Witness of C4: the score of `AB - Song.mp3` for the song `Song` by `A.B.`. -/
theorem score_eq_formula_witness :
    dottedTrack.Artists = "A.B.".toList :: []
      ∧ fuzzyScore asciiTables dottedTrack "AB - Song.mp3".toList
        = some (scoreFormulaBytes asciiTables dottedTrack "A.B.".toList
            (filepath.Base "AB - Song.mp3".toList)) :=
  ⟨rfl, score_eq_formula asciiTables _ _ _ _ rfl⟩

/-- What `fuzzySearchLocalFiles` returns in general: for every directory listing and track
(with an artist), and every `sort.Slice` meeting its contract, the list returned has length
`min(10, number of entries kept by the walk function with score > 0)`, contains only such
entries, is in non-increasing score order, and every returned file scores at least as high
as every kept positive-scoring entry that was not returned. The walk function keeps an
entry by the test of `isMusicFile`: the lower-cased path ends in `mp3`. -/
theorem fuzzySearch_top_ten (U : CaseTables)
    (sortSlice : (ScoredMatch → ScoredMatch → Bool) → List ScoredMatch → List ScoredMatch)
    (hsort : SortSliceContract sortSlice) (dir : List WalkEntry) (track : Track)
    (artist0 : Str) (others : List Str) (hartists : track.Artists = artist0 :: others) :
    ∃ results, fuzzySearchLocalFiles U sortSlice dir track = some results
      ∧ results.length = min 10 (positiveFiles U track dir).length
      ∧ (∀ p ∈ results, ∃ e ∈ dir, e.path = p ∧ fuzzySearchLocalFiles.isMusicFile U e = true
          ∧ 0 < pathScore U track p)
      ∧ results.Pairwise (fun p q => pathScore U track q ≤ pathScore U track p)
      ∧ (∀ p ∈ results, ∀ e ∈ positiveFiles U track dir, e.path ∉ results
          → pathScore U track e.path ≤ pathScore U track p) := by
  obtain ⟨hperm, hsorted⟩ := ranked_spec U sortSlice hsort dir track
  refine ⟨_, fuzzySearch_eq U sortSlice dir track artist0 others hartists, ?_, ?_, ?_, ?_⟩
  · rw [List.length_map, List.length_take, hperm.length_eq, List.length_map]
  · intro p hp
    obtain ⟨m, hm, rfl⟩ := List.mem_map.mp hp
    obtain ⟨e, he, rfl⟩ := List.mem_map.mp (hperm.mem_iff.mp (List.mem_of_mem_take hm))
    obtain ⟨hdir, hkeep⟩ := List.mem_filter.mp he
    simp only [Bool.and_eq_true, decide_eq_true_eq] at hkeep
    exact ⟨e, hdir, rfl, hkeep.1, hkeep.2⟩
  · rw [List.pairwise_map]
    exact (hsorted.sublist (List.take_sublist 10 _)).imp fun h => h.1
  · intro p hp e he hnot
    obtain ⟨m, hm, rfl⟩ := List.mem_map.mp hp
    have hmem : ({ Path := e.path, Score := pathScore U track e.path } : ScoredMatch)
        ∈ sortSlice fuzzySearchLocalFiles.less
          ((positiveFiles U track dir).map fun e =>
            { Path := e.path, Score := pathScore U track e.path }) :=
      hperm.mem_iff.mpr (List.mem_map.mpr ⟨e, he, rfl⟩)
    rw [← List.take_append_drop 10 (sortSlice fuzzySearchLocalFiles.less _)] at hmem hsorted
    rcases List.mem_append.mp hmem with h | h
    · exact absurd (List.mem_map.mpr ⟨_, h, rfl⟩) hnot
    · exact ((List.pairwise_append.mp hsorted).2.2 m hm _ h).1

/-- An instance of the general result: two positive files and one file without score,
sorted by insertion. -/
theorem fuzzySearch_top_ten_witness :
    SortSliceContract stableSort ∧ plainTrack.Artists = "Artist".toList :: []
      ∧ ∃ results, fuzzySearchLocalFiles asciiTables stableSort
            [file "Artist1.mp3", file "x.mp3", file "Artist - Title.mp3"] plainTrack
          = some results
        ∧ results.length = min 10 (positiveFiles asciiTables plainTrack
            [file "Artist1.mp3", file "x.mp3", file "Artist - Title.mp3"]).length
        ∧ (∀ p ∈ results, ∃ e ∈ [file "Artist1.mp3", file "x.mp3", file "Artist - Title.mp3"],
            e.path = p ∧ fuzzySearchLocalFiles.isMusicFile asciiTables e = true
              ∧ 0 < pathScore asciiTables plainTrack p)
        ∧ results.Pairwise
            (fun p q => pathScore asciiTables plainTrack q ≤ pathScore asciiTables plainTrack p)
        ∧ (∀ p ∈ results, ∀ e ∈ positiveFiles asciiTables plainTrack
              [file "Artist1.mp3", file "x.mp3", file "Artist - Title.mp3"],
            e.path ∉ results
              → pathScore asciiTables plainTrack e.path ≤ pathScore asciiTables plainTrack p) :=
  ⟨stableSort_contract, rfl,
    fuzzySearch_top_ten asciiTables stableSort stableSort_contract _ plainTrack _ _ rfl⟩

/-- C5, at the failing input: in a directory whose only entry is the regular file
`Artist - Titlemp3`, which is no `.mp3` file, `fuzzySearchLocalFiles` for the track `Title`
by `Artist` returns that file, with the score 230, for every `sort.Slice` meeting its
contract, while the number of `.mp3` files with score > 0 is 0: the walk function tests the
lower-cased path for the suffix `mp3`, without the dot. -/
theorem fuzzySearch_keeps_extensionless
    (sortSlice : (ScoredMatch → ScoredMatch → Bool) → List ScoredMatch → List ScoredMatch)
    (hsort : SortSliceContract sortSlice) :
    fuzzySearchLocalFiles asciiTables sortSlice [file "Artist - Titlemp3"] plainTrack
        = some ["Artist - Titlemp3".toList]
      ∧ pathScore asciiTables plainTrack "Artist - Titlemp3".toList = 230
      ∧ isMp3File asciiTables (file "Artist - Titlemp3") = false
      ∧ fuzzySearchLocalFiles.isMusicFile asciiTables (file "Artist - Titlemp3") = true
      ∧ min 10 (positiveMp3Files asciiTables plainTrack [file "Artist - Titlemp3"]).length
        = 0 := by
  refine ⟨?_, by decide, by decide, by decide, by decide⟩
  have hpos : ((positiveFiles asciiTables plainTrack [file "Artist - Titlemp3"]).map fun e =>
      ({ Path := e.path, Score := pathScore asciiTables plainTrack e.path } : ScoredMatch))
      = [{ Path := "Artist - Titlemp3".toList, Score := 230 }] := by
    decide
  have hperm := (ranked_spec asciiTables sortSlice hsort [file "Artist - Titlemp3"]
    plainTrack).1
  rw [fuzzySearch_eq asciiTables sortSlice _ plainTrack "Artist".toList [] rfl]
  rw [hpos] at hperm ⊢
  rw [List.perm_singleton.mp hperm]
  rfl

/-- Witness of C5: the insertion sort meets the contract of `sort.Slice`. -/
theorem fuzzySearch_keeps_extensionless_witness :
    SortSliceContract stableSort
      ∧ fuzzySearchLocalFiles asciiTables stableSort [file "Artist - Titlemp3"] plainTrack
        = some ["Artist - Titlemp3".toList]
      ∧ pathScore asciiTables plainTrack "Artist - Titlemp3".toList = 230
      ∧ isMp3File asciiTables (file "Artist - Titlemp3") = false
      ∧ fuzzySearchLocalFiles.isMusicFile asciiTables (file "Artist - Titlemp3") = true
      ∧ min 10 (positiveMp3Files asciiTables plainTrack [file "Artist - Titlemp3"]).length
        = 0 :=
  ⟨stableSort_contract, fuzzySearch_keeps_extensionless stableSort stableSort_contract⟩

/-- Counterexample to C6 as stated: for thirteen files, twelve of them with the score 55,
a sort that meets the contract of `sort.Slice` returns the tied files with the
later-discovered ones first, and leaves the three earliest-discovered out of the top ten. -/
theorem ties_reversed_counterexample :
    SortSliceContract tieReversingSort
      ∧ thirteenFiles.map (fun e => pathScore asciiTables plainTrack e.path)
        = [55, 55, 55, 55, 55, 55, 55, 55, 55, 55, 55, 55, 230]
      ∧ fuzzySearchLocalFiles asciiTables tieReversingSort thirteenFiles plainTrack
        = some ["Z Artist - Title.mp3".toList, "A12 Artist.mp3".toList, "A11 Artist.mp3".toList,
            "A10 Artist.mp3".toList, "A09 Artist.mp3".toList, "A08 Artist.mp3".toList,
            "A07 Artist.mp3".toList, "A06 Artist.mp3".toList, "A05 Artist.mp3".toList,
            "A04 Artist.mp3".toList] :=
  ⟨tieReversingSort_contract, by decide, by decide⟩

/-- C6, amended: for every directory listing and track, the ranking is by descending score,
and the sequence of scores of the returned files is the same for every `sort.Slice` that
meets its contract; the order among files of equal score is left to `sort.Slice`. -/
theorem ranking_scores_determined (U : CaseTables)
    (sortSlice1 sortSlice2 :
      (ScoredMatch → ScoredMatch → Bool) → List ScoredMatch → List ScoredMatch)
    (hsort1 : SortSliceContract sortSlice1) (hsort2 : SortSliceContract sortSlice2)
    (dir : List WalkEntry) (track : Track)
    (artist0 : Str) (others : List Str) (hartists : track.Artists = artist0 :: others) :
    ∃ results1 results2,
      fuzzySearchLocalFiles U sortSlice1 dir track = some results1
        ∧ fuzzySearchLocalFiles U sortSlice2 dir track = some results2
        ∧ results1.map (pathScore U track) = results2.map (pathScore U track)
        ∧ results1.Pairwise (fun p q => pathScore U track q ≤ pathScore U track p) := by
  obtain ⟨hperm1, hsorted1⟩ := ranked_spec U sortSlice1 hsort1 dir track
  obtain ⟨hperm2, hsorted2⟩ := ranked_spec U sortSlice2 hsort2 dir track
  refine ⟨_, _, fuzzySearch_eq U sortSlice1 dir track artist0 others hartists,
    fuzzySearch_eq U sortSlice2 dir track artist0 others hartists, ?_, ?_⟩
  · rw [List.map_map, List.map_map, List.map_take, List.map_take]
    congr 1
    apply List.eq_of_perm_of_sorted (r := fun a b : Nat => b ≤ a)
    · exact (hperm1.trans hperm2.symm).map _
    · exact List.pairwise_map.mpr (hsorted1.imp fun h => h.1)
    · exact List.pairwise_map.mpr (hsorted2.imp fun h => h.1)
  · rw [List.pairwise_map]
    exact (hsorted1.sublist (List.take_sublist 10 _)).imp fun h => h.1

/-- Witness of C6: the stable and the tie-reversing sort on the thirteen files. -/
theorem ranking_scores_determined_witness :
    SortSliceContract stableSort ∧ SortSliceContract tieReversingSort
      ∧ plainTrack.Artists = "Artist".toList :: []
      ∧ ∃ results1 results2,
        fuzzySearchLocalFiles asciiTables stableSort
            thirteenFiles plainTrack = some results1
          ∧ fuzzySearchLocalFiles asciiTables tieReversingSort
            thirteenFiles plainTrack = some results2
          ∧ results1.map (pathScore asciiTables plainTrack)
            = results2.map (pathScore asciiTables plainTrack)
          ∧ results1.Pairwise
            (fun p q => pathScore asciiTables plainTrack q ≤ pathScore asciiTables plainTrack p) :=
  ⟨stableSort_contract, tieReversingSort_contract, rfl,
    ranking_scores_determined asciiTables stableSort tieReversingSort stableSort_contract
      tieReversingSort_contract _ plainTrack _ _ rfl⟩

/-- Counterexample to C7 as stated: for the track `Song - Remix` by `A.B.`, the file name
`AB - Song.mp3` scores 145, and the name obtained by adding `A.B. - Song - Remix` after its
first character scores 130. -/
theorem insertion_lowers_score_counterexample :
    1 ≤ (withoutExtension "AB - Song.mp3".toList).length
      ∧ insertAt 1 (artistTitle "A.B.".toList scenarioTrack) "AB - Song.mp3".toList
        = "AA.B. - Song - RemixB - Song.mp3".toList
      ∧ fuzzyScore asciiTables scenarioTrack "AB - Song.mp3".toList = some 145
      ∧ fuzzyScore asciiTables scenarioTrack
          (insertAt 1 (artistTitle "A.B.".toList scenarioTrack) "AB - Song.mp3".toList)
        = some 130 := by
  decide

/-- C7, amended: for every track and every file name `f`, a file name obtained from `f` by
adding the exact string `<Artist> - <Title>` of that track at any position contains the
artist and the base title, so its fuzzy score is at least 90 (50 + 40), and at least 190
when the primary artist has no dot (the pattern `<Artist> - <base title>` adds 100). The
case folding is taken to relate every rune to itself, and the names to be free of `/`. -/
theorem score_after_insertion (U : CaseTables) (hrefl : ∀ c, U.foldEq c c = true)
    (track : Track) (artist0 : Str) (others : List Str)
    (hartists : track.Artists = artist0 :: others) (name : Str) (i : Nat)
    (hslash : '/' ∉ insertAt i (artistTitle artist0 track) name) :
    ∃ score, fuzzyScore U track (insertAt i (artistTitle artist0 track) name) = some score
      ∧ 90 ≤ score ∧ (withoutDots artist0 = artist0 → 190 ≤ score) := by
  have hne : insertAt i (artistTitle artist0 track) name ≠ [] := by
    simp [insertAt, artistTitle]
  have hbase := Base_eq_self _ hne hslash
  obtain ⟨rest, hrest⟩ : ∃ rest, track.Title = track.Song ++ rest := by
    rw [Song_eq_cutWhen]
    exact cutWhen_append_rest _ _
  have hartist : regexp.MatchFold U artist0 (insertAt i (artistTitle artist0 track) name)
      = true := by
    have := MatchFold_infix U hrefl artist0 (name.take i)
      (" - ".toList ++ track.Title ++ name.drop i)
    simpa [insertAt, artistTitle] using this
  have hsong : regexp.MatchFold U track.Song (insertAt i (artistTitle artist0 track) name)
      = true := by
    have := MatchFold_infix U hrefl track.Song (name.take i ++ artist0 ++ " - ".toList)
      (rest ++ name.drop i)
    have e : insertAt i (artistTitle artist0 track) name
        = name.take i ++ artist0 ++ " - ".toList ++ (track.Song ++ (rest ++ name.drop i)) := by
      simp only [insertAt, artistTitle]
      rw [hrest]
      simp only [List.append_assoc]
    rw [e]
    exact this
  have hpattern : withoutDots artist0 = artist0
      → regexp.MatchFold U (withoutDots artist0 ++ " - ".toList ++ track.Song)
          (insertAt i (artistTitle artist0 track) name) = true := by
    intro hdots
    have := MatchFold_infix U hrefl (artist0 ++ " - ".toList ++ track.Song) (name.take i)
      (rest ++ name.drop i)
    have e : insertAt i (artistTitle artist0 track) name
        = name.take i ++ (artist0 ++ " - ".toList ++ track.Song ++ (rest ++ name.drop i)) := by
      simp only [insertAt, artistTitle]
      rw [hrest]
      simp only [List.append_assoc]
    rw [hdots, e]
    exact this
  obtain ⟨terms, hterms, hf1, hf2, hf3⟩ := terms_fields U track artist0 others hartists
  have hbound := score_lower_bound U terms (insertAt i (artistTitle artist0 track) name)
  rw [hf1, hf2, hf3, hbase, hartist, hsong] at hbound
  refine ⟨_, by rw [fuzzyScore, hterms, Option.map_some'], le_trans ?_ hbound,
    fun hdots => ?_⟩
  · simp only [indicator, if_true]
    omega
  · rw [hpattern hdots] at hbound
    simp only [indicator, if_true] at hbound
    omega

/-- Witness of C7: `Artist - Title` added in the middle of `A01 Artist.mp3`. -/
theorem score_after_insertion_witness :
    (∀ c, asciiTables.foldEq c c = true) ∧ plainTrack.Artists = "Artist".toList :: []
      ∧ '/' ∉ insertAt 4 (artistTitle "Artist".toList plainTrack) "A01 Artist.mp3".toList
      ∧ ∃ score, fuzzyScore asciiTables plainTrack
            (insertAt 4 (artistTitle "Artist".toList plainTrack) "A01 Artist.mp3".toList)
          = some score
        ∧ 90 ≤ score ∧ (withoutDots "Artist".toList = "Artist".toList → 190 ≤ score) :=
  ⟨fun c => by simp [asciiTables], rfl, by decide,
    score_after_insertion asciiTables (fun c => by simp [asciiTables]) plainTrack _ _ rfl _ 4
      (by decide)⟩

/-- Counterexample to C8 as stated: for the track `été` by `Zoé Kim`,
`fuzzyFindTracksForSpotify` proposes the file `kim zoé été.mp3` as a possible match, while
none of the three rules holds with the words longer than 3 characters: the normalized file
name does not contain the normalized artist `zoé kim`, and none of the words `été`, `zoé`
and `kim` is longer than 3 characters. The words `été` and `zoé` are longer than 3 bytes. -/
theorem proposes_characters_counterexample :
    accentTrack.Artists = ["Zoé Kim".toList]
      ∧ proposesMatch asciiTables accentTrack accentFile = some true
      ∧ ruleArtistTitle asciiTables accentTrack "Zoé Kim".toList accentFile = false
      ∧ ruleArtistBaseTitle asciiTables accentTrack "Zoé Kim".toList accentFile = false
      ∧ ruleWords asciiTables accentTrack "Zoé Kim".toList accentFile = false
      ∧ wordsInFileNameBytes asciiTables accentTrack.Title accentFile = ["été".toList]
      ∧ wordsInFileNameBytes asciiTables "Zoé Kim".toList accentFile = ["zoé".toList] := by
  decide

/-- C8, amended: for every local file and every remote track (with an artist),
`fuzzyFindTracksForSpotify` proposes the pair as a possible match if and only if (a) the
normalized file name contains both the normalized primary artist and the normalized title,
or (b) it contains the normalized artist and the normalized base title, or (c) at least two
words of more than 3 bytes (Go's `len`, the length of the UTF-8 encoding) of the normalized
title and artist occur in the normalized file name, at least one of them from the title and
at least one from the artist. -/
theorem proposes_iff_rules (U : CaseTables) (track : Track) (artist0 : Str)
    (others : List Str) (filePath : Str) (hartists : track.Artists = artist0 :: others) :
    ∃ isMatch, proposesMatch U track filePath = some isMatch
      ∧ (isMatch = true ↔
          ruleArtistTitle U track artist0 filePath = true
            ∨ ruleArtistBaseTitle U track artist0 filePath = true
            ∨ ruleWordsBytes U track artist0 filePath = true) := by
  refine ⟨_, by rw [proposesMatch, reconcile_terms_cons U track artist0 others hartists,
    Option.map_some'], ?_⟩
  unfold fuzzyFindTracksForSpotify.isMatch ruleArtistTitle ruleArtistBaseTitle ruleWordsBytes
    wordsInFileNameBytes normalizedFileName
  dsimp only
  rw [countWords_eq, countWords_eq, wordFound_eq, wordFound_eq]
  generalize strings.Contains _ (fuzzyFindTracksForSpotify.cleanTerm U artist0) = a1
  generalize strings.Contains _ (fuzzyFindTracksForSpotify.cleanTerm U track.Title) = a2
  generalize strings.Contains _ (fuzzyFindTracksForSpotify.cleanTerm U
    (fuzzyFindTracksForSpotify.baseTitle track.Title)) = a3
  generalize (List.filter _
    (strings.Fields (fuzzyFindTracksForSpotify.cleanTerm U track.Title))) = w1
  generalize (List.filter _
    (strings.Fields (fuzzyFindTracksForSpotify.cleanTerm U artist0))) = w2
  by_cases hn : 2 ≤ w1.length + w2.length
  · have hn2 : 0 + w1.length + w2.length ≥ 2 := by omega
    cases a1 <;> cases a2 <;> cases a3 <;> cases w1.isEmpty <;> cases w2.isEmpty <;>
      simp [hn, hn2]
  · have hn2 : ¬ 0 + w1.length + w2.length ≥ 2 := by omega
    cases a1 <;> cases a2 <;> cases a3 <;> simp [hn, hn2]

/-- Witness of C8: a file that keeps the dots of the artist is proposed. -/
theorem proposes_iff_rules_witness :
    scenarioTrack.Artists = "A.B.".toList :: []
      ∧ ∃ isMatch,
        proposesMatch asciiTables scenarioTrack "a.b. - song remix.mp3".toList = some isMatch
          ∧ (isMatch = true ↔
              ruleArtistTitle asciiTables scenarioTrack "A.B.".toList
                  "a.b. - song remix.mp3".toList = true
                ∨ ruleArtistBaseTitle asciiTables scenarioTrack "A.B.".toList
                  "a.b. - song remix.mp3".toList = true
                ∨ ruleWordsBytes asciiTables scenarioTrack "A.B.".toList
                  "a.b. - song remix.mp3".toList = true) :=
  ⟨rfl, proposes_iff_rules asciiTables scenarioTrack _ _ _ rfl⟩

/-- Counterexample to C10 as stated: `cleanTerm` of `fuzzyFindTracksForSpotify` returns
`original` unchanged, leaves the token `feat` that a removal puts together, and keeps a run
of three blanks. -/
theorem reconcile_cleanTerm_counterexample :
    fuzzyFindTracksForSpotify.cleanTerm asciiTables "original".toList = "original".toList
      ∧ fuzzyFindTracksForSpotify.cleanTerm asciiTables "fefeatat".toList = "feat".toList
      ∧ fuzzyFindTracksForSpotify.cleanTerm asciiTables "a - b".toList = "a   b".toList
      ∧ strings.Contains (fuzzyFindTracksForSpotify.cleanTerm asciiTables "a - b".toList)
          "  ".toList = true := by
  decide

/-- C10, amended: for every input string, `cleanTerm` of `fuzzyFindTracksForSpotify`
returns a string that lower-casing leaves unchanged, that contains none of the characters
`&`, `-`, `_`, `(`, `)`, `[`, `]`, and that neither starts nor ends with white space. The
lower-casing is taken to be idempotent and to fix the letters of `and` and the blank. -/
theorem reconcile_cleanTerm_normal (U : CaseTables)
    (hidem : ∀ c, U.toLower (U.toLower c) = U.toLower c)
    (hfix : ∀ c ∈ "and ".toList, U.toLower c = c) (input : Str) :
    strings.ToLower U (fuzzyFindTracksForSpotify.cleanTerm U input)
        = fuzzyFindTracksForSpotify.cleanTerm U input
      ∧ (∀ c ∈ reconcileStripped, c ∉ fuzzyFindTracksForSpotify.cleanTerm U input)
      ∧ (∀ c, (fuzzyFindTracksForSpotify.cleanTerm U input).head? = some c
          → unicode.IsSpace c = false)
      ∧ (∀ c, (fuzzyFindTracksForSpotify.cleanTerm U input).getLast? = some c
          → unicode.IsSpace c = false) := by
  have hold : ∀ r ∈ reconcileReplacements, r.1 ≠ [] := by decide
  refine ⟨?_, ?_, ?_, ?_⟩
  · have hlow : ∀ x ∈ fuzzyFindTracksForSpotify.cleanTerm U input, U.toLower x = x := by
      intro x hx
      rw [reconcile_cleanTerm_eq] at hx
      refine foldl_replace_lower U.toLower reconcileReplacements hold ?_ _ ?_ x
        (mem_TrimSpace _ x hx)
      · intro r hr y hy
        apply hfix
        revert y
        revert r
        decide
      · intro y hy
        obtain ⟨z, _, rfl⟩ := List.mem_map.mp hy
        exact hidem z
    rw [strings.ToLower]
    exact map_eq_self _ _ hlow
  · intro c hc hmem
    rw [reconcile_cleanTerm_eq] at hmem
    have hnew : ∀ c ∈ reconcileStripped, ∀ r ∈ reconcileReplacements, c ∉ r.2 := by decide
    have hex : ∀ c ∈ reconcileStripped, ∃ r ∈ reconcileReplacements, r.1 = [c] := by decide
    exact foldl_replace_not_mem c reconcileReplacements hold (hnew c hc) _
      (Or.inr (hex c hc)) (mem_TrimSpace _ c hmem)
  · intro c hc
    rw [reconcile_cleanTerm_eq] at hc
    exact TrimSpace_head _ c hc
  · intro c hc
    rw [reconcile_cleanTerm_eq] at hc
    exact TrimSpace_getLast _ c hc

/-- Witness of C10: the ASCII case tables, and an input with capitals, an ampersand,
brackets and blanks at both ends. -/
theorem reconcile_cleanTerm_normal_witness :
    (∀ c, asciiTables.toLower (asciiTables.toLower c) = asciiTables.toLower c)
      ∧ (∀ c ∈ "and ".toList, asciiTables.toLower c = c)
      ∧ strings.ToLower asciiTables
          (fuzzyFindTracksForSpotify.cleanTerm asciiTables " Tom & Jerry (Live) ".toList)
        = fuzzyFindTracksForSpotify.cleanTerm asciiTables " Tom & Jerry (Live) ".toList
      ∧ (∀ c ∈ reconcileStripped,
          c ∉ fuzzyFindTracksForSpotify.cleanTerm asciiTables " Tom & Jerry (Live) ".toList)
      ∧ (∀ c, (fuzzyFindTracksForSpotify.cleanTerm asciiTables
            " Tom & Jerry (Live) ".toList).head? = some c → unicode.IsSpace c = false)
      ∧ (∀ c, (fuzzyFindTracksForSpotify.cleanTerm asciiTables
            " Tom & Jerry (Live) ".toList).getLast? = some c → unicode.IsSpace c = false) :=
  ⟨asciiLower_idem, by decide,
    reconcile_cleanTerm_normal asciiTables asciiLower_idem (by decide) _⟩

/-- Counterexample to C9 as stated: the file `ab - song remix.mp3` is not proposed as a
match for the track `123`, `Song - Remix`, by `A.B.`: the artist + base-title rule fails
since the normalized artist `a.b.` keeps its dots, and the step of the reconciliation
leaves the file untagged and the index without an entry even if the answer would be `y`. -/
theorem reconcile_dotless_counterexample :
    proposesMatch asciiTables scenarioTrack dotlessFile = some false
      ∧ fuzzyFindTracksForSpotify.cleanTerm asciiTables "A.B.".toList = "a.b.".toList
      ∧ normalizedFileName asciiTables dotlessFile = "ab   song re.mp3".toList
      ∧ ruleArtistBaseTitle asciiTables scenarioTrack "A.B.".toList dotlessFile = false
      ∧ fuzzyFindTracksForSpotify.body asciiTables (fun _ => false) scenarioTrack "y".toList
          untaggedState dotlessFile = some untaggedState
      ∧ (untaggedState.disk.open dotlessFile).map (fun tag => tag.SpotifyID) = some []
      ∧ untaggedState.indexData.GetPath dotlessFile = none := by
  decide

/-- C9, amended: the untagged local file `a.b. - song remix.mp3`, which keeps the dots of
the artist, reconciled against the track with ID `123`, title `Song - Remix` and artists
`[A.B.]` is recognized as a match by the artist + base-title rule of
`fuzzyFindTracksForSpotify`, and after the user confirms with `y`, the tag being opened and
saved without error, its identifier tag is `123` and its Index status is Installed. -/
theorem reconcile_dotted_scenario (saveFails : Str → Bool) (track : Track)
    (st : ReconcileState) (tag : id3.StoredTag)
    (hid : track.ID = "123".toList) (htitle : track.Title = "Song - Remix".toList)
    (hartists : track.Artists = ["A.B.".toList])
    (hopen : st.disk.open dottedFile = some tag) (hsave : saveFails dottedFile = false) :
    ruleArtistTitle asciiTables track "A.B.".toList dottedFile = false
      ∧ ruleArtistBaseTitle asciiTables track "A.B.".toList dottedFile = true
      ∧ proposesMatch asciiTables track dottedFile = some true
      ∧ ∃ st2, fuzzyFindTracksForSpotify.body asciiTables saveFails track "y".toList st
            dottedFile = some st2
          ∧ (st2.disk.open dottedFile).map (fun tag => tag.SpotifyID) = some "123".toList
          ∧ st2.indexData.GetPath dottedFile = some index.Status.Installed := by
  have hterms : fuzzyFindTracksForSpotify.terms asciiTables track
      = fuzzyFindTracksForSpotify.terms asciiTables scenarioTrack := by
    unfold fuzzyFindTracksForSpotify.terms
    rw [hartists, htitle]
    rfl
  have hmatch : ∃ terms, fuzzyFindTracksForSpotify.terms asciiTables track = some terms
      ∧ fuzzyFindTracksForSpotify.isMatch asciiTables terms dottedFile = true := by
    rw [hterms]
    decide
  obtain ⟨terms, ht, hm⟩ := hmatch
  refine ⟨?_, ?_, ?_, ?_⟩
  · unfold ruleArtistTitle
    rw [htitle]
    decide
  · unfold ruleArtistBaseTitle
    rw [htitle]
    decide
  · rw [proposesMatch, ht, Option.map_some', hm]
  · have hy : strings.ToLower asciiTables "y".toList = "y".toList := by decide
    unfold fuzzyFindTracksForSpotify.body
    rw [ht, hartists]
    simp only [hm, hy, if_true, hopen, hsave, Bool.false_eq_true, if_false]
    refine ⟨_, rfl, ?_, ?_⟩
    · rw [Disk_open_save _ _ tag _ hopen, Option.map_some', ← hid]
      rfl
    · exact GetPath_SetPath _ _ _

/-- Witness of C9: the scenario track and the state with both files untagged. -/
theorem reconcile_dotted_scenario_witness :
    scenarioTrack.ID = "123".toList ∧ scenarioTrack.Title = "Song - Remix".toList
      ∧ scenarioTrack.Artists = ["A.B.".toList]
      ∧ untaggedState.disk.open dottedFile = some id3.StoredTag.empty
      ∧ ruleArtistTitle asciiTables scenarioTrack "A.B.".toList dottedFile = false
      ∧ ruleArtistBaseTitle asciiTables scenarioTrack "A.B.".toList dottedFile = true
      ∧ proposesMatch asciiTables scenarioTrack dottedFile = some true
      ∧ ∃ st2, fuzzyFindTracksForSpotify.body asciiTables (fun _ => false) scenarioTrack
            "y".toList untaggedState dottedFile = some st2
          ∧ (st2.disk.open dottedFile).map (fun tag => tag.SpotifyID) = some "123".toList
          ∧ st2.indexData.GetPath dottedFile = some index.Status.Installed :=
  ⟨rfl, rfl, rfl, by decide,
    reconcile_dotted_scenario (fun _ => false) scenarioTrack untaggedState
      id3.StoredTag.empty rfl rfl rfl (by decide) rfl⟩

/-- C11: for every track whose canonical final path holds a file whose stored Spotify ID
equals the ID of the track, one step of the Decider sets the Index status of the track to
Installed, writes no tag (the files stay as they are and `tag.Save()` is not called),
performs no provider search, and forwards nothing to the Collector queue; a second step on
the resulting state, whatever the surroundings supply, produces the same state and again
forwards nothing. -/
theorem decide_matching_id (env : DecideEnv) (inp : DecideInput) (track : Track)
    (st : DeciderState) (final : Str) (tag : id3.StoredTag)
    (hfinal : track.Final env.LegalizeFilename = some final)
    (hfile : st.disk.open (inWorkingDir env.outputDir final) = some tag)
    (hid : tag.SpotifyID = track.ID) :
    ∃ st2, routineDecide.step env inp track st = some (st2, false)
      ∧ st2.indexData.GetPath final = some index.Status.Installed
      ∧ st2.disk = st.disk ∧ st2.saves = st.saves
      ∧ st2.searches = st.searches
      ∧ st2.collect = st.collect
      ∧ ∀ inp2, routineDecide.step env inp2 track st2 = some (st2, false) := by
  refine ⟨{ st with indexData := st.indexData.SetPath final index.Status.Installed }, ?_,
    GetPath_SetPath _ _ _, rfl, rfl, rfl, rfl, fun inp2 => ?_⟩
  · rw [step_existing env inp track st final tag hfinal hfile, if_pos hid]
  · have h2 := step_existing env inp2 track
      { st with indexData := st.indexData.SetPath final index.Status.Installed } final tag
      hfinal hfile
    rw [h2, if_pos hid]
    dsimp only
    rw [SetPath_SetPath]

/-- Witness of C11: the scenario track, whose file in `/music` is tagged with its ID. -/
theorem decide_matching_id_witness :
    scenarioTrack.Final automaticEnv.LegalizeFilename = some "AB - Song (Remix).mp3".toList
      ∧ ∃ st2, routineDecide.step automaticEnv (quietInput (Except.ok []) false) scenarioTrack
            (installedState "123" "Old" []) = some (st2, false)
          ∧ st2.indexData.GetPath "AB - Song (Remix).mp3".toList
              = some index.Status.Installed
          ∧ st2.disk = (installedState "123" "Old" []).disk
          ∧ st2.saves = (installedState "123" "Old" []).saves
          ∧ st2.searches = (installedState "123" "Old" []).searches
          ∧ st2.collect = (installedState "123" "Old" []).collect
          ∧ ∀ inp2, routineDecide.step automaticEnv inp2 scenarioTrack st2
              = some (st2, false) :=
  ⟨by decide,
    decide_matching_id automaticEnv (quietInput (Except.ok []) false) scenarioTrack
      (installedState "123" "Old" []) "AB - Song (Remix).mp3".toList
      { id3.StoredTag.empty with SpotifyID := "123".toList, Title := "Old".toList }
      (by decide) (by decide) (by decide)⟩

/-- C12, as stated, fails: the file at the canonical final path of the scenario track has a
readable tag with the Spotify ID `999`; when `tag.Save()` returns an error, the step of the
Decider goes on to the next track and the stored Spotify ID is still `999`. -/
theorem decide_repair_save_error_counterexample :
    scenarioTrack.Final automaticEnv.LegalizeFilename = some "AB - Song (Remix).mp3".toList
      ∧ inWorkingDir automaticEnv.outputDir "AB - Song (Remix).mp3".toList = scenarioPath
      ∧ ((installedState "999" "Old" []).disk.open scenarioPath).map
          (fun tag => tag.SpotifyID) = some "999".toList
      ∧ scenarioTrack.ID = "123".toList
      ∧ (routineDecide.step automaticEnv (quietInput (Except.ok []) true) scenarioTrack
            (installedState "999" "Old" [])).map
          (fun r => ((r.1.disk.open scenarioPath).map (fun tag => tag.SpotifyID), r.2))
        = some (some "999".toList, false) := by
  decide

/-- C12, amended: for every track whose canonical final path holds a file with a readable
tag whose stored Spotify ID differs from the ID of the track, one step of the Decider calls
`tag.Save()` on that file and on no other, leaves every other file, the Index and the
provider alone, forwards nothing to the Collector queue and goes on to the next track.
When `tag.Save()` returns no error, the stored tag afterwards is the former tag with only
the Spotify-ID field changed, to the ID of the track (title, artist, album and all other
fields unchanged); when it returns an error, the files are as they were. -/
theorem decide_repair_id (env : DecideEnv) (inp : DecideInput) (track : Track)
    (st : DeciderState) (final : Str) (tag : id3.StoredTag)
    (hfinal : track.Final env.LegalizeFilename = some final)
    (hfile : st.disk.open (inWorkingDir env.outputDir final) = some tag)
    (hid : tag.SpotifyID ≠ track.ID) :
    ∃ st2, routineDecide.step env inp track st = some (st2, false)
      ∧ st2.saves = st.saves ++ [inWorkingDir env.outputDir final]
      ∧ (∀ other, other ≠ inWorkingDir env.outputDir final →
          st2.disk.open other = st.disk.open other)
      ∧ st2.indexData = st.indexData
      ∧ st2.searches = st.searches
      ∧ st2.collect = st.collect
      ∧ (inp.saveFails = false →
          st2.disk.open (inWorkingDir env.outputDir final)
            = some { tag with SpotifyID := track.ID })
      ∧ (inp.saveFails = true → st2.disk = st.disk) := by
  rw [step_existing env inp track st final tag hfinal hfile, if_neg hid]
  cases hsave : inp.saveFails
  · refine ⟨_, rfl, rfl, fun other hne => Disk_open_save_ne _ _ _ _ hne, rfl, rfl, rfl,
      fun _ => ?_, fun h => absurd h (by decide)⟩
    exact Disk_open_save _ _ tag _ hfile
  · exact ⟨_, rfl, rfl, fun _ _ => rfl, rfl, rfl, rfl, fun h => absurd h (by decide),
      fun _ => rfl⟩

/-- Witness of C12: the file of the scenario track is tagged `999` with the title `Old`;
the save succeeds and the stored tag has the ID `123` and still the title `Old`. -/
theorem decide_repair_id_witness :
    ∃ st2, routineDecide.step automaticEnv (quietInput (Except.ok []) false) scenarioTrack
        (installedState "999" "Old" []) = some (st2, false)
      ∧ st2.disk.open scenarioPath
          = some { id3.StoredTag.empty with SpotifyID := "123".toList, Title := "Old".toList }
      ∧ st2.indexData = []
      ∧ st2.collect = [] := by
  obtain ⟨st2, hstep, _, _, hindex, _, hcollect, hsaved, _⟩ :=
    decide_repair_id automaticEnv (quietInput (Except.ok []) false) scenarioTrack
      (installedState "999" "Old" []) "AB - Song (Remix).mp3".toList
      { id3.StoredTag.empty with SpotifyID := "999".toList, Title := "Old".toList }
      (by decide) (by decide) (by decide)
  exact ⟨st2, hstep, hsaved rfl, hindex, hcollect⟩

/-- C13: for every track with no file at its canonical final path, the Decider resolves the
Index status as follows: without entry, the entry is set to Online and the step goes on
with the track (to manual mode or to the provider search) in that Index; with the status
Online or Offline the step ends for the track with the whole state, Index and Collector
queue included, unchanged, and the Decider goes on to the next track. -/
theorem decide_no_file (env : DecideEnv) (inp : DecideInput) (track : Track)
    (st : DeciderState) (final : Str)
    (hfinal : track.Final env.LegalizeFilename = some final)
    (hstat : st.stat (inWorkingDir env.outputDir final) = false) :
    (st.indexData.GetPath final = none →
        routineDecide.step env inp track st
          = routineDecide.acquire env inp track final
              { st with indexData := st.indexData.SetPath final index.Status.Online }
        ∧ (st.indexData.SetPath final index.Status.Online).GetPath final
            = some index.Status.Online)
      ∧ (st.indexData.GetPath final = some index.Status.Online →
          routineDecide.step env inp track st = some (st, false))
      ∧ (st.indexData.GetPath final = some index.Status.Offline →
          routineDecide.step env inp track st = some (st, false)) := by
  rw [step_missing env inp track st final hfinal hstat]
  unfold routineDecide.resolve
  refine ⟨fun h => ⟨?_, GetPath_SetPath _ _ _⟩, fun h => ?_, fun h => ?_⟩ <;> rw [h]

/-- Witness of C13: the scenario track without any file, once without entry in the Index
(the provider then finds a match and the track is forwarded, its status Online), once with
the status Online and once with the status Offline. -/
theorem decide_no_file_witness :
    (∃ st2, routineDecide.step automaticEnv
          (quietInput (Except.ok [⟨"u".toList, 1⟩]) false) scenarioTrack (emptyState [])
          = some (st2, false)
        ∧ st2.indexData = [("AB - Song (Remix).mp3".toList, index.Status.Online)]
        ∧ st2.collect = [{ scenarioTrack with UpstreamURL := "u".toList }])
      ∧ routineDecide.step automaticEnv (quietInput (Except.ok [⟨"u".toList, 1⟩]) false)
          scenarioTrack (emptyState [("AB - Song (Remix).mp3".toList, index.Status.Online)])
        = some (emptyState [("AB - Song (Remix).mp3".toList, index.Status.Online)], false)
      ∧ routineDecide.step automaticEnv (quietInput (Except.ok [⟨"u".toList, 1⟩]) false)
          scenarioTrack (emptyState [("AB - Song (Remix).mp3".toList, index.Status.Offline)])
        = some (emptyState [("AB - Song (Remix).mp3".toList, index.Status.Offline)], false) :=
  ⟨⟨{ emptyState [("AB - Song (Remix).mp3".toList, index.Status.Online)] with
        searches := [scenarioTrack]
        collect := [{ scenarioTrack with UpstreamURL := "u".toList }] },
      ((decide_no_file automaticEnv (quietInput (Except.ok [⟨"u".toList, 1⟩]) false)
        scenarioTrack (emptyState []) "AB - Song (Remix).mp3".toList (by decide)
        (by decide)).1 (by decide)).1.trans (by decide), by decide, by decide⟩,
    (decide_no_file automaticEnv (quietInput (Except.ok [⟨"u".toList, 1⟩]) false)
      scenarioTrack (emptyState [("AB - Song (Remix).mp3".toList, index.Status.Online)])
      "AB - Song (Remix).mp3".toList (by decide) (by decide)).2.1 (by decide),
    (decide_no_file automaticEnv (quietInput (Except.ok [⟨"u".toList, 1⟩]) false)
      scenarioTrack (emptyState [("AB - Song (Remix).mp3".toList, index.Status.Offline)])
      "AB - Song (Remix).mp3".toList (by decide) (by decide)).2.2 (by decide)⟩

/-- C14: in automatic mode, for every track for which the provider search succeeds with an
empty result list, the search itself changes nothing but the record of the searches; the
step of the Decider forwards nothing to the Collector queue for that track, sends nothing
to the error channel, and the Decider goes on with the remaining tracks of its queue. -/
theorem decide_empty_search (env : DecideEnv) (inp : DecideInput) (track : Track)
    (st : DeciderState) (final : Str)
    (hauto : env.manualMode = false) (hfound : inp.found = Except.ok [])
    (hfinal : track.Final env.LegalizeFilename = some final) :
    (∀ s, routineDecide.acquire env inp track final s
        = some ({ s with searches := s.searches ++ [track] }, false))
      ∧ ∃ st2, routineDecide.step env inp track st = some (st2, false)
        ∧ st2.collect = st.collect ∧ st2.errors = st.errors
        ∧ ∀ rest, routineDecide.run env ((track, inp) :: rest) st
            = routineDecide.run env rest st2 := by
  refine ⟨fun s => acquire_empty_search env inp track final s hauto hfound, ?_⟩
  obtain ⟨st2, hstep, hcollect, herrors⟩ :=
    step_empty_search env inp track final st hauto hfound hfinal
  refine ⟨st2, hstep, hcollect, herrors, fun rest => ?_⟩
  rw [routineDecide.run, hstep]

/-- Witness of C14: the scenario track finds nothing, and the plain track after it is
searched, found and forwarded. -/
theorem decide_empty_search_witness :
    ∃ st2, routineDecide.step automaticEnv (quietInput (Except.ok []) false) scenarioTrack
        (emptyState []) = some (st2, false)
      ∧ st2.collect = [] ∧ st2.errors = []
      ∧ (routineDecide.run automaticEnv
          [(scenarioTrack, quietInput (Except.ok []) false),
            (plainTrack, quietInput (Except.ok [⟨"u".toList, 1⟩]) false)]
          (emptyState [])).map (fun st => (st.collect, st.errors, st.searches))
        = some ([{ plainTrack with UpstreamURL := "u".toList }], [],
            [scenarioTrack, plainTrack]) := by
  obtain ⟨_, st2, hstep, hcollect, herrors, hrun⟩ :=
    decide_empty_search automaticEnv (quietInput (Except.ok []) false) scenarioTrack
      (emptyState []) "AB - Song (Remix).mp3".toList rfl rfl (by decide)
  exact ⟨st2, hstep, hcollect, herrors, by decide⟩

/-- C15: in automatic mode, for every non-empty list of matches that the provider search
returns, the track that the Decider forwards to the Collector queue has as its
`UpstreamURL` the URL of one of these matches, and the score of that match is maximal
among all of them. -/
theorem decide_best_match (env : DecideEnv) (inp : DecideInput) (track : Track)
    (final : Str) (st : DeciderState) (raw : List provider.Match)
    (hauto : env.manualMode = false) (hfound : inp.found = Except.ok raw) (hraw : raw ≠ []) :
    ∃ best, best ∈ raw ∧ (∀ m ∈ raw, m.Score ≤ best.Score)
      ∧ routineDecide.acquire env inp track final st
        = some ({ st with
            searches := st.searches ++ [track]
            collect := st.collect ++ [{ track with UpstreamURL := best.URL }] }, false) := by
  exact acquire_search env inp track final st raw hauto hfound hraw

/-- Witness of C15: three matches, the second and the third with the highest score; the
scenario track is forwarded with the URL of the second. -/
theorem decide_best_match_witness :
    ∃ best, best ∈ ([⟨"u1".toList, 1⟩, ⟨"u2".toList, 3⟩, ⟨"u3".toList, 3⟩] :
          List provider.Match)
      ∧ (∀ m ∈ ([⟨"u1".toList, 1⟩, ⟨"u2".toList, 3⟩, ⟨"u3".toList, 3⟩] :
          List provider.Match), m.Score ≤ best.Score)
      ∧ routineDecide.acquire automaticEnv
          (quietInput (Except.ok [⟨"u1".toList, 1⟩, ⟨"u2".toList, 3⟩, ⟨"u3".toList, 3⟩]) false)
          scenarioTrack "AB - Song (Remix).mp3".toList (emptyState [])
        = some ({ emptyState [] with
            searches := (emptyState []).searches ++ [scenarioTrack]
            collect := (emptyState []).collect
              ++ [{ scenarioTrack with UpstreamURL := best.URL }] }, false) :=
  decide_best_match automaticEnv
    (quietInput (Except.ok [⟨"u1".toList, 1⟩, ⟨"u2".toList, 3⟩, ⟨"u3".toList, 3⟩]) false)
    scenarioTrack "AB - Song (Remix).mp3".toList (emptyState [])
    [⟨"u1".toList, 1⟩, ⟨"u2".toList, 3⟩, ⟨"u3".toList, 3⟩] rfl rfl (by decide)

/-- C16: in the local-file search of manual mode with `n ≥ 1` ranked candidates, a
candidate is selected if and only if the answer of the user is empty (then it is the
first candidate) or `strconv.Atoi` parses it as an integer `k` with `1 ≤ k ≤ n` (then it is
the `k`-th candidate, which exists); the answer 0 cancels; every other answer is invalid.
On a cancelled or invalid selection the step ends with the whole state (files, Index,
queues) unchanged and the Decider goes on with the rest of its queue. -/
theorem decide_selection (env : DecideEnv) (inp : DecideInput) (track : Track)
    (final : Str) (st : DeciderState) (fileMatches : List Str)
    (hmanual : env.manualMode = true)
    (hchoice : inp.choice = [] ∨ inp.choice = "2".toList)
    (hfinal : track.Final env.LegalizeFilename = some final)
    (hsearch : fuzzySearchLocalFiles env.U env.sortSlice inp.listing track = some fileMatches)
    (hn : 1 ≤ fileMatches.length) :
    ((∃ f, routineDecide.select fileMatches inp.selection = some (Selection.selected f))
        ↔ inp.selection = []
          ∨ ∃ k : Int, strconv.Atoi inp.selection = some k ∧ 1 ≤ k
            ∧ k ≤ (fileMatches.length : Int))
      ∧ (inp.selection = [] →
          ∃ f, fileMatches.get? 0 = some f
            ∧ routineDecide.select fileMatches inp.selection = some (Selection.selected f))
      ∧ (∀ k : Int, strconv.Atoi inp.selection = some k → 1 ≤ k →
          k ≤ (fileMatches.length : Int) →
          ∃ f, fileMatches.get? (k - 1).toNat = some f
            ∧ routineDecide.select fileMatches inp.selection = some (Selection.selected f))
      ∧ (routineDecide.select fileMatches inp.selection = some Selection.cancelled
          ↔ strconv.Atoi inp.selection = some 0)
      ∧ (routineDecide.select fileMatches inp.selection = some Selection.invalid
          ↔ inp.selection ≠ []
            ∧ ∀ k : Int, strconv.Atoi inp.selection = some k →
                k < 0 ∨ k > (fileMatches.length : Int))
      ∧ (routineDecide.select fileMatches inp.selection = some Selection.cancelled
          ∨ routineDecide.select fileMatches inp.selection = some Selection.invalid →
          routineDecide.acquire env inp track final st = some (st, false)) := by
  have hlocal : routineDecide.select fileMatches inp.selection = some Selection.cancelled
      ∨ routineDecide.select fileMatches inp.selection = some Selection.invalid →
      routineDecide.acquire env inp track final st = some (st, false) := fun h => by
    rw [acquire_localFile env inp track final st hmanual hchoice]
    exact localFile_not_selected env inp track final st fileMatches hfinal hsearch h.symm
  obtain ⟨h1, h2, h3, h4, h5⟩ := select_cases fileMatches inp.selection hn
  exact ⟨h1, h2, h3, h4, h5, hlocal⟩

/-- Witness of C16: with the two candidates of the scenario track, the answers `7`, `-1`
and `x` are invalid and the answer `0` cancels; the step leaves the state as it was and
the Decider goes on. -/
theorem decide_selection_witness :
    fuzzySearchLocalFiles manualEnv.U manualEnv.sortSlice twoCandidates scenarioTrack
        = some ["/music/ab song.mp3".toList, "/music/sub/x ab song remix.mp3".toList]
      ∧ routineDecide.select
          ["/music/ab song.mp3".toList, "/music/sub/x ab song remix.mp3".toList] "7".toList
        = some Selection.invalid
      ∧ routineDecide.acquire manualEnv (manualInput twoCandidates "7" false) scenarioTrack
          "AB - Song (Remix).mp3".toList twoCandidatesState = some (twoCandidatesState, false)
      ∧ routineDecide.step manualEnv (manualInput twoCandidates "-1" false) scenarioTrack
          (twoCandidatesState.forward plainTrack)
        = some ({ (twoCandidatesState.forward plainTrack) with
            indexData := [("AB - Song (Remix).mp3".toList, index.Status.Online)] }, false)
      ∧ routineDecide.select
          ["/music/ab song.mp3".toList, "/music/sub/x ab song remix.mp3".toList] "x".toList
        = some Selection.invalid
      ∧ routineDecide.select
          ["/music/ab song.mp3".toList, "/music/sub/x ab song remix.mp3".toList] "0".toList
        = some Selection.cancelled
      ∧ routineDecide.select
          ["/music/ab song.mp3".toList, "/music/sub/x ab song remix.mp3".toList] "2".toList
        = some (Selection.selected "/music/sub/x ab song remix.mp3".toList) :=
  ⟨by decide, by decide,
    (decide_selection manualEnv (manualInput twoCandidates "7" false) scenarioTrack
      "AB - Song (Remix).mp3".toList twoCandidatesState
      ["/music/ab song.mp3".toList, "/music/sub/x ab song remix.mp3".toList]
      rfl (Or.inl rfl) (by decide) (by decide) (by decide)).2.2.2.2.2 (Or.inr (by decide)),
    by decide, by decide, by decide, by decide⟩

/-- C17, as stated, fails: the second candidate of the scenario track lies in the
subdirectory `/music/sub` of the output directory `/music`; it is selected, tagged and
renamed without error, and afterwards it is at `/music/sub/AB - Song (Remix).mp3` with the
Spotify ID `123`, while there is no file at the canonical final path
`/music/AB - Song (Remix).mp3` of the track, whose Index status is Installed. -/
theorem decide_local_file_subdirectory_counterexample :
    scenarioTrack.Final manualEnv.LegalizeFilename = some "AB - Song (Remix).mp3".toList
      ∧ inWorkingDir manualEnv.outputDir "AB - Song (Remix).mp3".toList = scenarioPath
      ∧ ∃ st2, routineDecide.step manualEnv (manualInput twoCandidates "2" false)
            scenarioTrack twoCandidatesState = some (st2, false)
          ∧ st2.stat scenarioPath = false
          ∧ (st2.disk.open "/music/sub/AB - Song (Remix).mp3".toList).map
              (fun tag => tag.SpotifyID) = some "123".toList
          ∧ st2.stat "/music/sub/x ab song remix.mp3".toList = false
          ∧ st2.indexData.GetPath "AB - Song (Remix).mp3".toList
              = some index.Status.Installed
          ∧ st2.collect = [] :=
  ⟨by decide, by decide,
    (((routineDecide.step manualEnv (manualInput twoCandidates "2" false) scenarioTrack
      twoCandidatesState).map fun r => r.1).getD twoCandidatesState),
    by decide, by decide, by decide, by decide, by decide, by decide⟩

/-- C17, amended: for every local file selected in the local-file search of manual mode
for which tagging and renaming succeed (`id3.Open` and `tag.Save()` return no error, and
`util.FileMoveOrCopy` returns no error and leaves at the destination the file that was at
the source), afterwards the file is located in the directory in which it was found, under
the canonical file name of the track, that is at
`filepath.Join(filepath.Dir(selectedFile), track.Path().Final())`, tagged with the ID and
the title of the track; the Index status of the track is Installed, and the track is not
forwarded to the Collector queue. -/
theorem decide_local_file (env : DecideEnv) (inp : DecideInput) (track : Track)
    (final : Str) (st : DeciderState) (fileMatches : List Str) (selectedFile : Str)
    (tag : id3.StoredTag) (disk2 : Disk)
    (hmanual : env.manualMode = true)
    (hchoice : inp.choice = [] ∨ inp.choice = "2".toList)
    (hfinal : track.Final env.LegalizeFilename = some final)
    (hsearch : fuzzySearchLocalFiles env.U env.sortSlice inp.listing track = some fileMatches)
    (hn : 1 ≤ fileMatches.length)
    (hselect : routineDecide.select fileMatches inp.selection
      = some (Selection.selected selectedFile))
    (hopen : st.disk.open (inWorkingDir env.outputDir selectedFile) = some tag)
    (hsave : inp.saveFails = false)
    (hmove : env.FileMoveOrCopy
        (st.disk.save (inWorkingDir env.outputDir selectedFile)
          ((((((((tag.SetSpotifyID track.ID).SetTitle track.Title).SetArtist
            (track.Artists.headD [])).SetAlbum track.Album).SetArtworkURL
            track.Artwork.URL).SetDuration (strconv.Itoa track.Duration)).SetTrackNumber
            (strconv.Itoa track.Number)).SetYear (strconv.Itoa track.Year)))
        (inWorkingDir env.outputDir selectedFile)
        (inWorkingDir env.outputDir (filepath.Join [filepath.Dir selectedFile, final]))
        true = some disk2)
    (hmoved : disk2.open
        (inWorkingDir env.outputDir (filepath.Join [filepath.Dir selectedFile, final]))
      = (st.disk.save (inWorkingDir env.outputDir selectedFile)
          ((((((((tag.SetSpotifyID track.ID).SetTitle track.Title).SetArtist
            (track.Artists.headD [])).SetAlbum track.Album).SetArtworkURL
            track.Artwork.URL).SetDuration (strconv.Itoa track.Duration)).SetTrackNumber
            (strconv.Itoa track.Number)).SetYear (strconv.Itoa track.Year))).open
          (inWorkingDir env.outputDir selectedFile)) :
    ∃ st2 tag2, routineDecide.acquire env inp track final st = some (st2, false)
      ∧ st2.disk.open
          (inWorkingDir env.outputDir (filepath.Join [filepath.Dir selectedFile, final]))
        = some tag2
      ∧ tag2.SpotifyID = track.ID ∧ tag2.Title = track.Title
      ∧ st2.indexData.GetPath final = some index.Status.Installed
      ∧ st2.collect = st.collect := by
  have hlen : ¬ fileMatches.length = 0 := by omega
  obtain ⟨artist0, others, hartists⟩ := Final_artists _ _ _ hfinal
  have hhead : track.Artists.headD [] = artist0 := by rw [hartists]; rfl
  rw [hhead] at hmove hmoved
  rw [acquire_localFile env inp track final st hmanual hchoice]
  unfold routineDecide.localFile
  rw [hsearch, hartists]
  dsimp only
  rw [if_neg hlen, hselect]
  dsimp only
  rw [hopen]
  dsimp only
  rw [hsave, if_neg (by decide), hmove]
  refine ⟨_, (((((((((tag.SetSpotifyID track.ID).SetTitle track.Title).SetArtist
    artist0).SetAlbum track.Album).SetArtworkURL track.Artwork.URL).SetDuration
    (strconv.Itoa track.Duration)).SetTrackNumber
    (strconv.Itoa track.Number)).SetYear (strconv.Itoa track.Year))), rfl, ?_, rfl, rfl,
    GetPath_SetPath _ _ _, rfl⟩
  dsimp only
  rw [hmoved]
  exact Disk_open_save _ _ tag _ hopen

/-- Witness of C17: the first candidate of the scenario track, found directly in the
output directory `/music`, is selected by the empty answer and is afterwards at
`/music/AB - Song (Remix).mp3`, the canonical final path of the track. -/
theorem decide_local_file_witness :
    filepath.Join [filepath.Dir "/music/ab song.mp3".toList, "AB - Song (Remix).mp3".toList]
        = scenarioPath
      ∧ ∃ st2 tag2, routineDecide.acquire manualEnv (manualInput twoCandidates "" false)
            scenarioTrack "AB - Song (Remix).mp3".toList twoCandidatesState
            = some (st2, false)
          ∧ st2.disk.open (inWorkingDir manualEnv.outputDir
              (filepath.Join [filepath.Dir "/music/ab song.mp3".toList,
                "AB - Song (Remix).mp3".toList])) = some tag2
          ∧ tag2.SpotifyID = scenarioTrack.ID ∧ tag2.Title = scenarioTrack.Title
          ∧ st2.indexData.GetPath "AB - Song (Remix).mp3".toList
              = some index.Status.Installed
          ∧ st2.collect = twoCandidatesState.collect :=
  ⟨by decide,
    decide_local_file manualEnv (manualInput twoCandidates "" false) scenarioTrack
      "AB - Song (Remix).mp3".toList twoCandidatesState
      ["/music/ab song.mp3".toList, "/music/sub/x ab song remix.mp3".toList]
      "/music/ab song.mp3".toList id3.StoredTag.empty
      ((renameFile
        (twoCandidatesState.disk.save "/music/ab song.mp3".toList
          ((((((((id3.StoredTag.empty.SetSpotifyID scenarioTrack.ID).SetTitle
            scenarioTrack.Title).SetArtist "A.B.".toList).SetAlbum
            scenarioTrack.Album).SetArtworkURL scenarioTrack.Artwork.URL).SetDuration
            (strconv.Itoa scenarioTrack.Duration)).SetTrackNumber
            (strconv.Itoa scenarioTrack.Number)).SetYear (strconv.Itoa scenarioTrack.Year)))
        "/music/ab song.mp3".toList scenarioPath true).getD [])
      rfl (Or.inl rfl) (by decide) (by decide) (by decide) (by decide) (by decide) rfl
      (by decide) (by decide)⟩

/-- C18, what the code does: for every track whose Index status is Flush and whose
canonical final path holds a file whose stored Spotify ID is the ID of the track, in
automatic mode with a non-empty search result, the resolution of the Index status would
search and forward the track to the Collector queue with the URL of a match, but the step
of the Decider checks the file first: it performs no search, forwards nothing, and
replaces the status Flush by Installed, so that the track is not fetched again. -/
theorem decide_flush_not_refetched (env : DecideEnv) (inp : DecideInput) (track : Track)
    (st : DeciderState) (final : Str) (tag : id3.StoredTag) (raw : List provider.Match)
    (hauto : env.manualMode = false) (hfound : inp.found = Except.ok raw) (hraw : raw ≠ [])
    (hfinal : track.Final env.LegalizeFilename = some final)
    (hflush : st.indexData.GetPath final = some index.Status.Flush)
    (hfile : st.disk.open (inWorkingDir env.outputDir final) = some tag)
    (hid : tag.SpotifyID = track.ID) :
    (∃ st3 best, best ∈ raw
        ∧ routineDecide.resolve env inp track final st = some (st3, false)
        ∧ st3.collect = st.collect ++ [{ track with UpstreamURL := best.URL }])
      ∧ ∃ st2, routineDecide.step env inp track st = some (st2, false)
        ∧ st2.collect = st.collect
        ∧ st2.searches = st.searches
        ∧ st2.disk = st.disk
        ∧ st2.indexData.GetPath final = some index.Status.Installed := by
  refine ⟨?_,
    { st with indexData := st.indexData.SetPath final index.Status.Installed }, ?_, rfl, rfl,
    rfl, GetPath_SetPath _ _ _⟩
  · obtain ⟨best, hmem, _, hacquire⟩ := acquire_search env inp track final st raw hauto
      hfound hraw
    refine ⟨{ st with
        searches := st.searches ++ [track]
        collect := st.collect ++ [{ track with UpstreamURL := best.URL }] }, best, hmem, ?_,
      rfl⟩
    unfold routineDecide.resolve
    rw [hflush]
    exact hacquire
  · rw [step_existing env inp track st final tag hfinal hfile, if_pos hid]

/-- Witness of C18: the scenario track was requested through the fix input (its status is
Flush), its file in `/music` is tagged with its ID `123`, and the provider would find a
match; the step forwards nothing and sets the status to Installed. -/
theorem decide_flush_not_refetched_witness :
    ∃ st2, routineDecide.step automaticEnv (quietInput (Except.ok [⟨"u".toList, 1⟩]) false)
        scenarioTrack
        (installedState "123" "Song - Remix"
          [("AB - Song (Remix).mp3".toList, index.Status.Flush)]) = some (st2, false)
      ∧ st2.collect = []
      ∧ st2.searches = []
      ∧ st2.indexData.GetPath "AB - Song (Remix).mp3".toList
          = some index.Status.Installed := by
  obtain ⟨_, st2, hstep, hcollect, hsearches, _, hindex⟩ :=
    decide_flush_not_refetched automaticEnv (quietInput (Except.ok [⟨"u".toList, 1⟩]) false)
      scenarioTrack
      (installedState "123" "Song - Remix"
        [("AB - Song (Remix).mp3".toList, index.Status.Flush)])
      "AB - Song (Remix).mp3".toList
      { id3.StoredTag.empty with SpotifyID := "123".toList, Title := "Song - Remix".toList }
      [⟨"u".toList, 1⟩] rfl rfl (by decide) (by decide) (by decide) (by decide) (by decide)
  exact ⟨st2, hstep, hcollect, hsearches, hindex⟩

/-- C19, as stated, fails: the playlist has five tracks, of which the first is Installed
and the fourth Offline, so that the filtered list is the first and the fourth track; the
encoder returns an error from `Add` once it holds a track, and the Mixer adds the first
track only, sends the error and returns. -/
theorem mix_add_error_counterexample :
    fivePlaylist.Tracks.filter (mixable fullMixEnv.LegalizeFilename fiveIndex)
        = [numberedTrack "1", numberedTrack "4"]
      ∧ routineMix fullMixEnv "m3u".toList fiveIndex [fivePlaylist] MixState.start
        = { encoded := [(fivePlaylist, [numberedTrack "1"])]
            errors := ["no space left".toList] } := by
  decide

/-- C19, amended: for every playlist for which the Mixer gets an encoder and every Index
state, the tracks that the Mixer adds to the encoder of the playlist are an initial segment
of the track list of the playlist filtered to the tracks whose Index status is Installed or
Offline, in the original order of the playlist (tracks with no entry or with the status
Online or Flush are omitted); they are the whole filtered list when the loop over the
tracks ends without an error of `Add`, and so whenever `Add` never returns an error. -/
theorem mix_adds_filtered (env : MixEnv) (encoding : Str) (data : index.Index)
    (p : playlist.Playlist) (events : List playlist.Playlist) (st : MixState)
    (hencoder : env.Encoder p encoding = none) :
    ∃ more rest,
      (routineMix env encoding data (p :: events) st).encoded
          = st.encoded ++ (p, (routineMix.tracks env data p p.Tracks []).1) :: more
        ∧ (routineMix.tracks env data p p.Tracks []).1 ++ rest
          = p.Tracks.filter (mixable env.LegalizeFilename data)
        ∧ ((routineMix.tracks env data p p.Tracks []).2 = none → rest = [])
        ∧ ((∀ added track, env.Add p added track = none) → rest = []) := by
  obtain ⟨rest, h1, h2⟩ := tracks_spec env data p p.Tracks []
  have hmore : ∃ more, (routineMix env encoding data (p :: events) st).encoded
      = st.encoded ++ (p, (routineMix.tracks env data p p.Tracks []).1) :: more := by
    unfold routineMix
    rw [hencoder]
    dsimp only
    generalize routineMix.tracks env data p p.Tracks [] = r
    obtain ⟨added, err⟩ := r
    cases err with
    | some err => exact ⟨[], rfl⟩
    | none =>
      dsimp only
      cases env.Close p added with
      | some err => exact ⟨[], rfl⟩
      | none =>
        dsimp only
        obtain ⟨more, h⟩ := routineMix_encoded env encoding data events
          { st with encoded := st.encoded ++ [(p, added)] }
        exact ⟨more, by rw [h, List.append_assoc]; rfl⟩
  obtain ⟨more, hmore⟩ := hmore
  exact ⟨more, rest, hmore, h1, h2, fun hadd => h2 (tracks_no_error env data p hadd _ _)⟩

/-- Witness of C19: with an encoder that never fails, the Mixer adds the first and the
fourth of the five tracks. -/
theorem mix_adds_filtered_witness :
    routineMix soundMixEnv "m3u".toList fiveIndex [fivePlaylist] MixState.start
        = { encoded := [(fivePlaylist, [numberedTrack "1", numberedTrack "4"])], errors := [] }
      ∧ ∃ more rest,
        (routineMix soundMixEnv "m3u".toList fiveIndex [fivePlaylist] MixState.start).encoded
            = MixState.start.encoded
              ++ (fivePlaylist,
                (routineMix.tracks soundMixEnv fiveIndex fivePlaylist fivePlaylist.Tracks
                  []).1) :: more
          ∧ (routineMix.tracks soundMixEnv fiveIndex fivePlaylist fivePlaylist.Tracks []).1
              ++ rest
            = fivePlaylist.Tracks.filter (mixable soundMixEnv.LegalizeFilename fiveIndex)
          ∧ ((routineMix.tracks soundMixEnv fiveIndex fivePlaylist fivePlaylist.Tracks []).2
              = none → rest = [])
          ∧ ((∀ added track, soundMixEnv.Add fivePlaylist added track = none) → rest = []) :=
  ⟨by decide,
    mix_adds_filtered soundMixEnv "m3u".toList fiveIndex fivePlaylist [] MixState.start rfl⟩

/-- C20: the Fetcher sends no track to the Decider queue and no playlist to the Mixer queue
unless it has received true from both the Index signal and the Auth signal; if either
signal delivers false, it calls neither the catalog client nor the index, sends no error,
and only closes the Mixer queue and the Decider queue. -/
theorem fetch_waits_for_signals (env : FetchEnv) (args : FetchArgs)
    (indexSignal authSignal : Bool) (st : FetchState) :
    (indexSignal = false ∨ authSignal = false →
        routineFetch env args indexSignal authSignal st
          = { st with closed := st.closed ++ [Queue.Mix, Queue.Decide] })
      ∧ ((routineFetch env args indexSignal authSignal st).decide ≠ st.decide
          ∨ (routineFetch env args indexSignal authSignal st).mix ≠ st.mix →
        indexSignal = true ∧ authSignal = true) := by
  have h : indexSignal = false ∨ authSignal = false →
      routineFetch env args indexSignal authSignal st
        = { st with closed := st.closed ++ [Queue.Mix, Queue.Decide] } := by
    intro hs
    unfold routineFetch
    cases indexSignal
    · rfl
    · cases authSignal
      · rfl
      · rcases hs with hs | hs <;> exact absurd hs (by decide)
  refine ⟨h, fun hsent => ?_⟩
  cases hi : indexSignal
  · rw [h (Or.inl hi)] at hsent
    rcases hsent with hs | hs <;> exact absurd rfl hs
  · cases ha : authSignal
    · rw [h (Or.inr ha)] at hsent
      rcases hsent with hs | hs <;> exact absurd rfl hs
    · exact ⟨rfl, rfl⟩

/-- Witness of C20: with the Index signal true and the Auth signal false the Fetcher only
closes its two queues; with both signals true it sends four tracks and one playlist. -/
theorem fetch_waits_for_signals_witness :
    routineFetch smallFetchEnv smallFetchArgs true false FetchState.start
        = { FetchState.start with closed := [Queue.Mix, Queue.Decide] }
      ∧ (routineFetch smallFetchEnv smallFetchArgs true true FetchState.start).decide
        = [numberedTrack "1", numberedTrack "2", mkTrack "9" "Single" ["Artist"],
            numberedTrack "3"]
      ∧ ((routineFetch smallFetchEnv smallFetchArgs true true FetchState.start).mix.map
          fun p => p.ID) = ["p".toList]
      ∧ (routineFetch smallFetchEnv smallFetchArgs true true FetchState.start).closed
        = [Queue.Mix, Queue.Decide] :=
  ⟨(fetch_waits_for_signals smallFetchEnv smallFetchArgs true false FetchState.start).1
      (Or.inr rfl),
    by decide, by decide, by decide⟩

/-- C21, as stated, fails for the Installer: on an empty queue, and on a queue of one
track whose move fails, the Installer closes its signal without writing a boolean to
it. -/
theorem install_signal_counterexample :
    (routineInstall soundInstallEnv [] InstallState.start).map (fun st => st.signal)
        = some [SignalEvent.close]
      ∧ (routineInstall fullInstallEnv [numberedTrack "1"] InstallState.start).map
          (fun st => (st.signal, st.errors))
        = some ([SignalEvent.close], ["no space left".toList]) := by
  decide

/-- C21, amended: on every exit path without a run-time panic the Indexer writes exactly
one boolean to its signal and then closes it, false (with the error sent) when `Build`
fails and true otherwise, and the Indexer does not panic when every track of the library
has an artist; the Authenticator, on every exit path, writes exactly one boolean and then
closes its signal, false (with the error sent) when the authentication fails and true
otherwise; the Installer, on every exit path, writes no boolean and only closes its
signal. -/
theorem signals_written_once (ienv : IndexEnv) (authenticate : Option Str)
    (env : InstallEnv) (events : List Track) (st st2 : InstallState)
    (hinstall : routineInstall env events st = some st2) :
    ((routineIndex ienv).panicked = false →
        (routineIndex ienv).signal = [SignalEvent.send ienv.Build.isNone, SignalEvent.close]
          ∧ (routineIndex ienv).errors = ienv.Build.toList)
      ∧ ((∀ track ∈ ienv.Library.1, track.Artists ≠ []) → (routineIndex ienv).panicked = false)
      ∧ (routineAuth authenticate).signal
        = [SignalEvent.send authenticate.isNone, SignalEvent.close]
      ∧ (routineAuth authenticate).errors = authenticate.toList
      ∧ (routineAuth authenticate).panicked = false
      ∧ st2.signal = st.signal ++ [SignalEvent.close] := by
  refine ⟨routineIndex_signal ienv, routineIndex_no_panic ienv, ?_, ?_, ?_, ?_⟩
  · cases authenticate <;> rfl
  · cases authenticate <;> rfl
  · cases authenticate <;> rfl
  · unfold routineInstall at hinstall
    cases hl : routineInstall.loop env events st with
    | none => rw [hl] at hinstall; cases hinstall
    | some st3 =>
      rw [hl] at hinstall
      injection hinstall with hinstall
      rw [← hinstall, ← routineInstall_loop_signal env events st st3 hl]

/-- Witness of C21: an Indexer that matches the track of its library against an untagged
file, an Authenticator that succeeds, and an Installer that installs two tracks. -/
theorem signals_written_once_witness :
    (∀ track ∈ (smallIndexEnv none none).Library.1, track.Artists ≠ [])
      ∧ (routineIndex (smallIndexEnv none none)).panicked = false
      ∧ (routineIndex (smallIndexEnv none none)).signal
        = [SignalEvent.send true, SignalEvent.close]
      ∧ (routineIndex (smallIndexEnv none none)).errors = []
      ∧ (routineAuth none).signal = [SignalEvent.send true, SignalEvent.close]
      ∧ (routineAuth none).errors = []
      ∧ routineInstall soundInstallEnv [numberedTrack "1", numberedTrack "2"]
          InstallState.start
        = some { indexData := [("Artist - T1.mp3".toList, index.Status.Installed),
                   ("Artist - T2.mp3".toList, index.Status.Installed)]
                 signal := InstallState.start.signal ++ [SignalEvent.close], errors := [] } := by
  obtain ⟨h1, h2, h3, h4, _, _⟩ := signals_written_once
    (smallIndexEnv none none) none soundInstallEnv
    [numberedTrack "1", numberedTrack "2"] InstallState.start
    { indexData := [("Artist - T1.mp3".toList, index.Status.Installed),
        ("Artist - T2.mp3".toList, index.Status.Installed)]
      signal := [SignalEvent.close], errors := [] } (by decide)
  have hall : ∀ track ∈ (smallIndexEnv none none).Library.1, track.Artists ≠ [] := by decide
  exact ⟨hall, h2 hall, (h1 (h2 hall)).1, (h1 (h2 hall)).2, h3, h4, by decide⟩

/-- C23: after `PreRun` the flag `library` is true if the user supplied no playlist, no
playlist-tracks, no album, no track and no fix; if at least one of them was supplied, the
flag, like all the others, keeps the value that the user gave it. -/
theorem PreRun_library (flags : SyncFlags) :
    (flags.playlists = [] ∧ flags.playlistsTracks = [] ∧ flags.albums = []
        ∧ flags.tracks = [] ∧ flags.fixes = [] →
        cmdSync.PreRun flags = { flags with library := true })
      ∧ (flags.playlists ≠ [] ∨ flags.playlistsTracks ≠ [] ∨ flags.albums ≠ []
          ∨ flags.tracks ≠ [] ∨ flags.fixes ≠ [] →
        cmdSync.PreRun flags = flags) := by
  unfold cmdSync.PreRun
  constructor
  · rintro ⟨h1, h2, h3, h4, h5⟩
    rw [h1, h2, h3, h4, h5]
    rfl
  · intro h
    have hne : ∀ l : List Str, l ≠ [] → 0 < l.length := fun l hl =>
      List.length_pos.mpr hl
    rw [if_neg]
    rcases h with h | h | h | h | h <;> have := hne _ h <;> omega

/-- Witness of C23: without any collection the flag becomes true; with one track the flags
stay as given, the flag `library` false. -/
theorem PreRun_library_witness :
    cmdSync.PreRun { library := false, playlists := [], playlistsTracks := [], albums := []
                     tracks := [], fixes := [] }
        = { library := true, playlists := [], playlistsTracks := [], albums := []
            tracks := [], fixes := [] }
      ∧ cmdSync.PreRun { library := false, playlists := [], playlistsTracks := []
                         albums := [], tracks := ["9".toList], fixes := [] }
        = { library := false, playlists := [], playlistsTracks := [], albums := []
            tracks := ["9".toList], fixes := [] } :=
  ⟨(PreRun_library _).1 ⟨rfl, rfl, rfl, rfl, rfl⟩,
    (PreRun_library _).2 (Or.inr (Or.inr (Or.inr (Or.inl (by decide)))))⟩

/-- C22, as stated, fails: of the two fix paths, `/music/a.mp3` carries no Spotify ID and
`/music/b.mp3` carries the ID `7`; the Fetcher sends the error of the first path, makes no
catalog retrieval, sends nothing to the Decider queue and closes its queues: the ID `7` of
the remaining path is not fetched. -/
theorem fetch_fix_without_id_counterexample :
    (fixFetchEnv.disk.open "/music/a.mp3".toList).map (fun tag => tag.SpotifyID) = some []
      ∧ (fixFetchEnv.disk.open "/music/b.mp3".toList).map (fun tag => tag.SpotifyID)
        = some "7".toList
      ∧ routineFetch fixFetchEnv (fixFetchArgs ["/music/a.mp3", "/music/b.mp3"]) true true
          FetchState.start
        = { FetchState.start with
            errors := ["track /music/a.mp3 does not have spotify ID metadata set".toList]
            closed := [Queue.Mix, Queue.Decide] } := by
  decide

/-- C22, amended: for every list of fix paths, the first path whose file carries no
Spotify ID, the paths before it being read without error, is a fatal error of the Fetcher:
it sends the error `track <path> does not have spotify ID metadata set`, makes no catalog
retrieval, sends nothing to the Decider queue or the Mixer queue, and closes both; the
paths before it have got the Index status Flush, and no identifier of a fix path is
fetched. -/
theorem fetch_fix_without_id (env : FetchEnv) (args : FetchArgs) (st : FetchState)
    (pre : List Str) (path : Str) (post : List Str) (tag : id3.StoredTag)
    (hfixes : args.fixes = pre ++ path :: post)
    (hpre : ∀ p ∈ pre, ∃ t, env.disk.open p = some t ∧ goLen t.SpotifyID ≠ 0
      ∧ env.closeError p = none)
    (hopen : env.disk.open path = some tag) (hid : goLen tag.SpotifyID = 0) :
    routineFetch env args true true st
      = { st with
          indexData := pre.foldl (fun d p => d.SetPath p index.Status.Flush) st.indexData
          errors := st.errors
            ++ ["track ".toList ++ path ++ " does not have spotify ID metadata set".toList]
          closed := st.closed ++ [Queue.Mix, Queue.Decide] } := by
  unfold routineFetch
  rw [if_neg (by decide : ¬ (!true) = true), if_neg (by decide : ¬ (!true) = true), hfixes,
    fixes_append env _ pre [] _ hpre, routineFetchFixesIDs, hopen]
  dsimp only
  rw [if_pos hid]
  rfl

/-- Witness of C22: the fix path `/music/b.mp3` with the ID `7` comes first and gets the
status Flush; the path `/music/a.mp3` without ID is the fatal error. -/
theorem fetch_fix_without_id_witness :
    routineFetch fixFetchEnv (fixFetchArgs ["/music/b.mp3", "/music/a.mp3"]) true true
        FetchState.start
      = { FetchState.start with
          indexData := ["/music/b.mp3".toList].foldl
            (fun d p => d.SetPath p index.Status.Flush) FetchState.start.indexData
          errors := FetchState.start.errors
            ++ ["track ".toList ++ "/music/a.mp3".toList
              ++ " does not have spotify ID metadata set".toList]
          closed := FetchState.start.closed ++ [Queue.Mix, Queue.Decide] } :=
  fetch_fix_without_id fixFetchEnv (fixFetchArgs ["/music/b.mp3", "/music/a.mp3"])
    FetchState.start ["/music/b.mp3".toList] "/music/a.mp3".toList [] id3.StoredTag.empty rfl
    (by decide) (by decide) (by decide)

/-- C24, what the code does: whenever the retrievals succeed, `routineFetchPlaylists`,
which `routineFetch` calls on the playlists followed by the playlist-tracks, sends the
playlist of every one of these IDs to the Mixer queue, those given as playlist-tracks
included: the test `index < len(playlists)` is on the length of the list it ranges
over. -/
theorem fetch_playlist_tracks_mixed (env : FetchEnv) (playlists playlistsTracks : List Str)
    (st : FetchState)
    (hok : ∀ id ∈ playlists ++ playlistsTracks, (playlistOf env.client id).isSome) :
    (routineFetchPlaylists env (playlists ++ playlistsTracks) st).1.mix
      = st.mix ++ playlists.filterMap (playlistOf env.client)
        ++ playlistsTracks.filterMap (playlistOf env.client) := by
  unfold routineFetchPlaylists
  rw [(routineFetchPlaylists_mix env _ (playlists ++ playlistsTracks) 0 st
    (by omega) hok).1, List.filterMap_append, List.append_assoc]

/-- Witness of C24: a run asked for the tracks of the playlist `q` without its playlist
file sends the playlist `q` to the Mixer queue. -/
theorem fetch_playlist_tracks_mixed_witness :
    (routineFetchPlaylists smallFetchEnv ([] ++ ["q".toList]) FetchState.start).1.mix
        = FetchState.start.mix ++ ([] : List Str).filterMap (playlistOf smallFetchEnv.client)
          ++ ["q".toList].filterMap (playlistOf smallFetchEnv.client)
      ∧ ((routineFetch smallFetchEnv playlistTracksArgs true true FetchState.start).mix.map
          fun p => p.ID) = ["q".toList] :=
  ⟨fetch_playlist_tracks_mixed smallFetchEnv [] ["q".toList] FetchState.start (by decide),
    by decide⟩

/-- C25: if a catalog retrieval (Library, Album, Track or Playlist) fails, the Fetcher
sends exactly that error, has retrieved the sources before it in the order library,
albums, tracks (explicit IDs followed by fix IDs), playlists, retrieves none that comes
later, and still closes the Mixer queue and the Decider queue. -/
theorem fetch_stops_at_failure (env : FetchEnv) (args : FetchArgs) (st : FetchState)
    (indexData : index.Index) (fixIDs : List Str)
    (hfixes : routineFetchFixesIDs env args.fixes [] st.indexData
      = (indexData, Except.ok fixIDs)) :
    (routineFetch env args true true st).calls
        = st.calls ++ (callsUntilFailure env.client (plannedCalls args fixIDs)).1
      ∧ (routineFetch env args true true st).errors
        = st.errors ++ (callsUntilFailure env.client (plannedCalls args fixIDs)).2.toList
      ∧ (routineFetch env args true true st).closed = st.closed ++ [Queue.Mix, Queue.Decide]
      ∧ (∃ later, plannedCalls args fixIDs
          = (callsUntilFailure env.client (plannedCalls args fixIDs)).1 ++ later
        ∧ ((callsUntilFailure env.client (plannedCalls args fixIDs)).2 = none → later = []))
      ∧ ∀ err, (callsUntilFailure env.client (plannedCalls args fixIDs)).2 = some err →
        ∃ before c, (callsUntilFailure env.client (plannedCalls args fixIDs)).1 = before ++ [c]
          ∧ callError env.client c = some err
          ∧ ∀ b ∈ before, callError env.client b = none := by
  have hplanned : plannedCalls args fixIDs
      = (if args.library then [spotify.Call.Library args.libraryLimit] else [])
        ++ (args.albums.map spotify.Call.Album
          ++ ((args.tracks ++ fixIDs).map spotify.Call.Track
            ++ ((args.playlists ++ args.playlistsTracks).map spotify.Call.Playlist ++ []))) := by
    unfold plannedCalls
    simp only [List.append_assoc, List.append_nil]
  have hout : FetchOutcome env.client (plannedCalls args fixIDs) st
      (routineFetch env args true true st) := by
    have h := FetchOutcome_cons env.client _ _ { st with indexData := indexData } _ _
      (routineFetchLibrary_calls env args.library args.libraryLimit
        { st with indexData := indexData })
      (fun s => FetchOutcome_cons env.client _ _ s _ _
        (routineFetchAlbums_calls env args.albums s)
        (fun s => FetchOutcome_cons env.client _ _ s _ _
          (routineFetchTracks_calls env (args.tracks ++ fixIDs) s)
          (fun s => FetchOutcome_cons env.client _ _ s _ _
            (routineFetchPlaylists_calls env (args.playlists ++ args.playlistsTracks).length
              (args.playlists ++ args.playlistsTracks) 0 s)
            (fun s => FetchOutcome_nil env.client s))))
    rw [hplanned]
    unfold routineFetch
    rw [if_neg (by decide : ¬ (!true) = true), if_neg (by decide : ¬ (!true) = true), hfixes]
    exact h
  obtain ⟨h1, h2, h3⟩ := hout
  obtain ⟨h4, h5⟩ := callsUntilFailure_spec env.client (plannedCalls args fixIDs)
  exact ⟨h1, h2, h3, h4, h5⟩

/-- Witness of C25: the library and one album, one track and one playlist are asked for,
and the retrieval of the album fails: the library and the album are retrieved, the track
and the playlist are not, the error of the album is sent, and both queues are closed. -/
theorem fetch_stops_at_failure_witness :
    (routineFetch albumFailingEnv smallFetchArgs true true FetchState.start).calls
        = [spotify.Call.Library 0, spotify.Call.Album "a".toList]
      ∧ (routineFetch albumFailingEnv smallFetchArgs true true FetchState.start).errors
        = ["failure".toList]
      ∧ (routineFetch albumFailingEnv smallFetchArgs true true FetchState.start).closed
        = [Queue.Mix, Queue.Decide]
      ∧ plannedCalls smallFetchArgs []
        = [spotify.Call.Library 0, spotify.Call.Album "a".toList,
            spotify.Call.Track "9".toList, spotify.Call.Playlist "p".toList] := by
  obtain ⟨h1, h2, h3, _, _⟩ := fetch_stops_at_failure albumFailingEnv smallFetchArgs
    FetchState.start [] [] rfl
  refine ⟨h1.trans (by decide), h2.trans (by decide), h3, by decide⟩

/-- C26, as stated, fails: the track ` X - Y` by `Artist` has the canonical file name
`Artist - X (Y).mp3`, which legalization leaves unchanged; the pattern of
`fuzzySearchLocalFiles` for this track is `Artist -  X`, with the blank of the title, and
does not match that file name, so the file gets no pattern bonus: its score is 125. -/
theorem canonical_file_no_bonus_counterexample :
    leadingBlankTrack.Final id = some "Artist - X (Y).mp3".toList
      ∧ (fuzzySearchLocalFiles.terms asciiTables leadingBlankTrack).map
          (fun terms => (terms.expectedFilenamePattern,
            regexp.MatchFold asciiTables terms.expectedFilenamePattern
              (filepath.Base "Artist - X (Y).mp3".toList)))
        = some ("Artist -  X".toList, false)
      ∧ fuzzyScore asciiTables leadingBlankTrack "Artist - X (Y).mp3".toList = some 125 := by
  decide

/-- C26, amended: for every track with at least one artist whose canonical file name is
left unchanged by legalization, and whose title either has no ` - ` after its first
position or has no white space at the start and the end of the text before its first
` - `, a file named exactly `TrackPath.Final()` matches the `Artist - Title` pattern of
`fuzzySearchLocalFiles` for that same track and so receives the bonus of 100 (every rune
folding to itself); its score is at least 100, and when the walk reports it as a music file
and at most ten files of the listing have a positive score, it is among the candidates
returned. -/
theorem canonical_file_bonus (U : CaseTables) (hrefl : ∀ c, U.foldEq c c = true)
    (LegalizeFilename : Str → Str) (track : Track) (artist0 : Str) (others : List Str)
    (hartists : track.Artists = artist0 :: others)
    (hlegal : track.Final LegalizeFilename = track.Final id)
    (htrim : strings.Index track.Title " - ".toList > 0 →
      strings.TrimSpace (track.Title.take (strings.Index track.Title " - ".toList).toNat)
        = track.Title.take (strings.Index track.Title " - ".toList).toNat)
    (name path : Str) (hname : track.Final LegalizeFilename = some name)
    (hbase : filepath.Base path = name) :
    (∃ terms, fuzzySearchLocalFiles.terms U track = some terms
        ∧ regexp.MatchFold U terms.expectedFilenamePattern (filepath.Base path) = true)
      ∧ (∃ score, fuzzyScore U track path = some score ∧ 100 ≤ score)
      ∧ ∀ sortSlice dir e, SortSliceContract sortSlice → e ∈ dir → e.path = path →
          fuzzySearchLocalFiles.isMusicFile U e = true →
          (positiveFiles U track dir).length ≤ 10 →
          ∃ result, fuzzySearchLocalFiles U sortSlice dir track = some result
            ∧ path ∈ result := by
  obtain ⟨rest, hrest⟩ := Final_song_prefix id track artist0 others hartists htrim
  rw [hlegal, hrest] at hname
  injection hname with hname
  have hmatch : regexp.MatchFold U (withoutDots artist0 ++ " - ".toList ++ track.Song)
      (filepath.Base path) = true := by
    rw [hbase, ← hname]
    exact MatchFold_infix U hrefl (withoutDots artist0 ++ " - ".toList ++ track.Song) [] rest
  have hterms := terms_cons U track artist0 others hartists
  have hscore : 100 ≤ pathScore U track path := by
    have hb := score_lower_bound U
      { artist0 := artist0
        baseTitle := track.Song
        expectedFilenamePattern := withoutDots artist0 ++ " - ".toList ++ track.Song
        cleanedTitle := fuzzySearchLocalFiles.cleanTerm U track.Title
        cleanedBaseTitle := fuzzySearchLocalFiles.cleanTerm U track.Song
        cleanedArtist := fuzzySearchLocalFiles.cleanTerm U artist0
        titleWords := strings.Fields (fuzzySearchLocalFiles.cleanTerm U track.Title)
        artistWords := strings.Fields (fuzzySearchLocalFiles.cleanTerm U artist0) } path
    dsimp only at hb
    rw [hmatch] at hb
    rw [pathScore, fuzzyScore, hterms, Option.map_some', Option.getD_some]
    have h1 : indicator true = 1 := rfl
    rw [h1] at hb
    omega
  refine ⟨⟨_, hterms, hmatch⟩, ⟨pathScore U track path, ?_, hscore⟩, ?_⟩
  · rw [pathScore, fuzzyScore, hterms, Option.map_some', Option.getD_some]
  · intro sortSlice dir e hsort hmem hpath hmusic hlen
    refine ⟨_, fuzzySearch_eq U sortSlice dir track artist0 others hartists, ?_⟩
    obtain ⟨hperm, _⟩ := ranked_spec U sortSlice hsort dir track
    have hlen2 : (sortSlice fuzzySearchLocalFiles.less
        ((positiveFiles U track dir).map fun e =>
          ({ Path := e.path, Score := pathScore U track e.path } : ScoredMatch))).length
        ≤ 10 := by
      rw [hperm.length_eq, List.length_map]
      exact hlen
    rw [List.take_of_length_le hlen2]
    have hpos : e ∈ positiveFiles U track dir := by
      unfold positiveFiles
      rw [List.mem_filter]
      refine ⟨hmem, ?_⟩
      rw [hmusic, hpath]
      simp only [Bool.true_and, decide_eq_true_eq]
      omega
    have hin : ({ Path := e.path, Score := pathScore U track e.path } : ScoredMatch)
        ∈ (positiveFiles U track dir).map fun e =>
          ({ Path := e.path, Score := pathScore U track e.path } : ScoredMatch) :=
      List.mem_map.mpr ⟨e, hpos, rfl⟩
    have hin2 := hperm.symm.subset hin
    rw [← hpath]
    exact List.mem_map.mpr ⟨_, hin2, rfl⟩

/-- Witness of C26: the scenario track `Song - Remix` by `A.B.` and the file
`/music/AB - Song (Remix).mp3`, with the ASCII case tables and a legalization that changes
nothing; the file is the first candidate of a listing of two files. -/
theorem canonical_file_bonus_witness :
    scenarioTrack.Final id = some "AB - Song (Remix).mp3".toList
      ∧ filepath.Base scenarioPath = "AB - Song (Remix).mp3".toList
      ∧ (∃ terms, fuzzySearchLocalFiles.terms asciiTables scenarioTrack = some terms
        ∧ regexp.MatchFold asciiTables terms.expectedFilenamePattern
            (filepath.Base scenarioPath) = true)
      ∧ (∃ score, fuzzyScore asciiTables scenarioTrack scenarioPath = some score
        ∧ 100 ≤ score)
      ∧ fuzzySearchLocalFiles asciiTables stableSort
          [file "/music/ab song.mp3", file "/music/AB - Song (Remix).mp3"] scenarioTrack
        = some [scenarioPath, "/music/ab song.mp3".toList] := by
  obtain ⟨h1, h2, _⟩ := canonical_file_bonus asciiTables (fun c => by simp [asciiTables]) id
    scenarioTrack "A.B.".toList [] rfl rfl (by decide) "AB - Song (Remix).mp3".toList
    scenarioPath (by decide) (by decide)
  exact ⟨by decide, by decide, h1, h2, by decide⟩

/-- C28: in automatic mode, with no file at any canonical final path of the incoming
tracks and an Index that initially holds no entry for them, for every sequence of tracks
(each with an artist) arriving on the Decider queue, the Decider ends having forwarded to
the Collector queue at most one track per canonical final path; every forwarded track has
the Index status Online, and has it at the moment it is forwarded: a step, after any of
the steps before it, either forwards nothing or forwards its track, whose path had no
entry before and is Online after. -/
theorem decide_forwards_once (env : DecideEnv) (events : List (Track × DecideInput))
    (st : DeciderState) (hauto : env.manualMode = false)
    (hartists : ∀ e ∈ events, ∃ f, e.1.Final env.LegalizeFilename = some f)
    (hnofile : ∀ e ∈ events, ∀ f, e.1.Final env.LegalizeFilename = some f →
      st.stat (inWorkingDir env.outputDir f) = false)
    (hnoentry : ∀ e ∈ events, ∀ f, e.1.Final env.LegalizeFilename = some f →
      st.indexData.GetPath f = none)
    (hempty : st.collect = []) :
    ∃ st2, routineDecide.run env events st = some st2
      ∧ (st2.collect.map (Track.Final env.LegalizeFilename)).Nodup
      ∧ (∀ t ∈ st2.collect, ∃ f, t.Final env.LegalizeFilename = some f
          ∧ st2.indexData.GetPath f = some index.Status.Online)
      ∧ ∀ pre e post s1 s2 stop, events = pre ++ e :: post →
          routineDecide.run env pre st = some s1 →
          routineDecide.step env e.2 e.1 s1 = some (s2, stop) →
          s2.collect = s1.collect
            ∨ ∃ f url, e.1.Final env.LegalizeFilename = some f
              ∧ s2.collect = s1.collect ++ [{ e.1 with UpstreamURL := url }]
              ∧ s1.indexData.GetPath f = none
              ∧ s2.indexData.GetPath f = some index.Status.Online := by
  have hinv : ForwardedOnce env.LegalizeFilename env.outputDir
      (fun f => ∃ e ∈ events, e.1.Final env.LegalizeFilename = some f) st := by
    refine ⟨fun f ⟨e, he, hf⟩ => hnofile e he f hf,
      fun f ⟨e, he, hf⟩ => Or.inl (hnoentry e he f hf), ?_, ?_⟩
    · rw [hempty]; intro t ht; cases ht
    · rw [hempty]; exact List.nodup_nil
  have hev : ∀ sub : List (Track × DecideInput), (∀ e ∈ sub, e ∈ events) →
      ∀ e ∈ sub, ∃ f, e.1.Final env.LegalizeFilename = some f
        ∧ ∃ e2 ∈ events, e2.1.Final env.LegalizeFilename = some f := by
    intro sub hsub e he
    obtain ⟨f, hf⟩ := hartists e (hsub e he)
    exact ⟨f, hf, e, hsub e he, hf⟩
  obtain ⟨st2, hrun, _, _, h3, h4⟩ := run_forwardedOnce env _ hauto events st hinv
    (hev events (fun e he => he))
  refine ⟨st2, hrun, h4, h3, ?_⟩
  intro pre e post s1 s2 stop hsplit hpre hstep
  have hsub : ∀ x ∈ pre, x ∈ events := by
    intro x hx
    rw [hsplit]
    exact List.mem_append_left _ hx
  have hmem : e ∈ events := by
    rw [hsplit]
    exact List.mem_append_right _ (List.mem_cons_self _ _)
  obtain ⟨s1b, hrun1, hinv1⟩ := run_forwardedOnce env _ hauto pre st hinv (hev pre hsub)
  rw [hpre] at hrun1
  injection hrun1 with hrun1
  rw [← hrun1] at hinv1
  obtain ⟨f, hf⟩ := hartists e hmem
  obtain ⟨s2b, stopb, hstepb, _, hforward⟩ := step_forwardedOnce env e.2 e.1 f _ s1 hauto
    hinv1 hf ⟨e, hmem, hf⟩
  rw [hstep] at hstepb
  injection hstepb with hstepb
  injection hstepb with hs2 _
  rw [← hs2] at hforward
  rcases hforward with hc | ⟨url, hc, hn, ho⟩
  · exact Or.inl hc
  · exact Or.inr ⟨f, url, hf, hc, hn, ho⟩

/-- Witness of C28: the scenario track arrives twice, then the plain track, for which the
provider finds nothing, then the track `T1`; the first, and only the first, arrival of the
scenario track and the track `T1` are forwarded. -/
theorem decide_forwards_once_witness :
    (routineDecide.run automaticEnv
        [(scenarioTrack, quietInput (Except.ok [⟨"u1".toList, 1⟩]) false),
          (scenarioTrack, quietInput (Except.ok [⟨"u2".toList, 1⟩]) false),
          (plainTrack, quietInput (Except.ok []) false),
          (numberedTrack "1", quietInput (Except.ok [⟨"u3".toList, 1⟩]) false)]
        (emptyState [])).map (fun st => (st.collect, st.indexData))
      = some ([{ scenarioTrack with UpstreamURL := "u1".toList },
            { numberedTrack "1" with UpstreamURL := "u3".toList }],
          [("AB - Song (Remix).mp3".toList, index.Status.Online),
            ("Artist - Title.mp3".toList, index.Status.Online),
            ("Artist - T1.mp3".toList, index.Status.Online)])
      ∧ ∃ st2, routineDecide.run automaticEnv
          [(scenarioTrack, quietInput (Except.ok [⟨"u1".toList, 1⟩]) false),
            (scenarioTrack, quietInput (Except.ok [⟨"u2".toList, 1⟩]) false),
            (plainTrack, quietInput (Except.ok []) false),
            (numberedTrack "1", quietInput (Except.ok [⟨"u3".toList, 1⟩]) false)]
          (emptyState []) = some st2
        ∧ (st2.collect.map (Track.Final automaticEnv.LegalizeFilename)).Nodup
        ∧ ∀ t ∈ st2.collect, ∃ f, t.Final automaticEnv.LegalizeFilename = some f
            ∧ st2.indexData.GetPath f = some index.Status.Online := by
  obtain ⟨st2, h1, h2, h3, _⟩ := decide_forwards_once automaticEnv
    [(scenarioTrack, quietInput (Except.ok [⟨"u1".toList, 1⟩]) false),
      (scenarioTrack, quietInput (Except.ok [⟨"u2".toList, 1⟩]) false),
      (plainTrack, quietInput (Except.ok []) false),
      (numberedTrack "1", quietInput (Except.ok [⟨"u3".toList, 1⟩]) false)]
    (emptyState []) rfl
    (fun e he => by
      simp only [List.mem_cons, List.mem_singleton, List.not_mem_nil, or_false] at he
      rcases he with rfl | rfl | rfl | rfl <;> exact ⟨_, rfl⟩)
    (fun _ _ _ _ => rfl) (fun _ _ _ _ => rfl) rfl
  exact ⟨by decide, st2, h1, h2, h3⟩

/-- C27, what the code does: for every tag whose cache holds a value for the key
`Spotify ID`, `Tag.SpotifyID()` called after `Tag.SetSpotifyID(id)` returns the value of
the cache, whatever `id` is: the write adds the frame and leaves the cache as it was. -/
theorem SpotifyID_stale (U : CaseTables) (tag : id3.Tag) (id old : Str)
    (hcache : id3.Tag.cached tag.Cache id3.frameSpotifyID = some old) :
    ((tag.SetSpotifyID id).SpotifyID U).1 = old
      ∧ id3.Tag.cached (tag.SetSpotifyID id).frames id3.frameSpotifyID = some id := by
  constructor
  · unfold id3.Tag.SpotifyID id3.Tag.userDefinedText id3.Tag.SetSpotifyID
      id3.Tag.setUserDefinedText
    dsimp only
    rw [hcache]
  · unfold id3.Tag.SetSpotifyID id3.Tag.setUserDefinedText
    dsimp only
    generalize tag.frames = frames
    induction frames with
    | nil => simp [id3.Tag.addFrame, id3.Tag.cached]
    | cons e rest ih =>
      obtain ⟨k, v⟩ := e
      by_cases hk : k = id3.frameSpotifyID
      · simp [id3.Tag.addFrame, id3.Tag.cached, hk]
      · simp only [id3.Tag.addFrame, hk, if_false, id3.Tag.cached]
        exact ih

/-- Witness of C27: the tag is opened from a file whose Spotify ID is `999`; the ID is
read, which fills the cache, then set to `123`, and read again: the second read returns
`999`, while the frame holds `123`. Without the first read the second returns `123`. -/
theorem SpotifyID_stale_witness :
    (taggedFile.SpotifyID asciiTables).1 = "999".toList
      ∧ id3.Tag.cached (taggedFile.SpotifyID asciiTables).2.Cache id3.frameSpotifyID
        = some "999".toList
      ∧ ((((taggedFile.SpotifyID asciiTables).2.SetSpotifyID "123".toList).SpotifyID
          asciiTables).1 = "999".toList
        ∧ id3.Tag.cached ((taggedFile.SpotifyID asciiTables).2.SetSpotifyID "123".toList).frames
            id3.frameSpotifyID = some "123".toList)
      ∧ ((taggedFile.SetSpotifyID "123".toList).SpotifyID asciiTables).1 = "123".toList :=
  ⟨by decide, by decide,
    SpotifyID_stale asciiTables (taggedFile.SpotifyID asciiTables).2 "123".toList
      "999".toList (by decide),
    by decide⟩

/-- C29, what the code does: for every non-empty length text without a colon, the length
parser of `youTube.search` panics on its access to the second field. -/
theorem length_without_colon (length : Str) (hne : length ≠ []) (hcolon : ':' ∉ length) :
    provider.youTube.length length = none := by
  have hsplit : strings.Split length ":".toList = [length] := by
    unfold strings.Split
    rw [if_neg (by decide)]
    exact splitGo_without_sep ':' length [] hcolon
  unfold provider.youTube.length
  rw [if_neg hne, hsplit]
  rfl

/-- Witness of C29: the text `45` makes the parser panic; the text `3:45` gives 225
seconds. -/
theorem length_without_colon_witness :
    provider.youTube.length "45".toList = none
      ∧ provider.youTube.length "3:45".toList = some 225 :=
  ⟨length_without_colon "45".toList (by decide) (by decide), by decide⟩

/-- C30, as stated, fails: for a track of `2^55` seconds, the result of `2^55 + 12` seconds
is closer to the duration than the result of `2^55 - 13` seconds, owner, title and views
being the same; its duration score is 32, not twice 12, because `float64` rounds its
length to `2^55 + 16`, and its score, -32, is below the score of the other, -24. -/
theorem score_rounding_counterexample :
    ((36028797018963968 + 12 : Int) - longTrack.Duration).natAbs
        < ((36028797018963968 - 13 : Int) - longTrack.Duration).natAbs
      ∧ provider.youTube.durationScore (36028797018963968 + 12) longTrack.Duration = some 32
      ∧ provider.youTube.score lengthOnlyEnv longTrack (resultOfLength (36028797018963968 + 12))
        = some (-32)
      ∧ provider.youTube.score lengthOnlyEnv longTrack (resultOfLength (36028797018963968 - 13))
        = some (-24) := by
  decide

/-- C30, amended: for every track and every two provider results with the same owner,
title and view count, whose lengths, like the duration of the track, are below `2^52`
seconds in size (where `float64` holds every integer exactly), the views and title scores
being below `2^61` in size, the score of each is `viewsScore - titleScore - durationScore`
with `durationScore` exactly twice the distance of its length from the duration, and the
result whose length is at least as close to the duration has a score greater than or
equal to the score of the other. -/
theorem score_prefers_closer_length (env : provider.ScoreEnv) (track : Track)
    (r1 r2 : provider.youTubeResult)
    (howner : r1.owner = r2.owner) (htitle : r1.title = r2.title)
    (hviews : r1.views = r2.views)
    (hd : -4503599627370496 < track.Duration ∧ track.Duration < 4503599627370496)
    (hl1 : -4503599627370496 < r1.length ∧ r1.length < 4503599627370496)
    (hl2 : -4503599627370496 < r2.length ∧ r2.length < 4503599627370496)
    (hV : -2305843009213693952 < env.viewsScore r1.views
      ∧ env.viewsScore r1.views < 2305843009213693952)
    (hT : -2305843009213693952 < env.titleScore track.Title r1.owner r1.title
      ∧ env.titleScore track.Title r1.owner r1.title < 2305843009213693952)
    (hcloser : (r1.length - track.Duration).natAbs ≤ (r2.length - track.Duration).natAbs) :
    provider.youTube.durationScore r1.length track.Duration
        = some (2 * ((r1.length - track.Duration).natAbs : Int))
      ∧ provider.youTube.durationScore r2.length track.Duration
        = some (2 * ((r2.length - track.Duration).natAbs : Int))
      ∧ ∃ s1 s2, provider.youTube.score env track r1 = some s1
        ∧ provider.youTube.score env track r2 = some s2
        ∧ s1 = env.viewsScore r1.views - env.titleScore track.Title r1.owner r1.title
            - 2 * ((r1.length - track.Duration).natAbs : Int)
        ∧ s2 = env.viewsScore r2.views - env.titleScore track.Title r2.owner r2.title
            - 2 * ((r2.length - track.Duration).natAbs : Int)
        ∧ s2 ≤ s1 := by
  have e1 := durationScore_exact r1.length track.Duration hl1.1 hl1.2 hd.1 hd.2
  have e2 := durationScore_exact r2.length track.Duration hl2.1 hl2.2 hd.1 hd.2
  refine ⟨e1, e2, _, _, ?_, ?_, rfl, rfl, ?_⟩
  · unfold provider.youTube.score
    dsimp only
    rw [e1, Option.map_some',
      wrapInt_eq (env.viewsScore r1.views - env.titleScore track.Title r1.owner r1.title)
        (by omega) (by omega), wrapInt_eq _ (by omega) (by omega)]
  · unfold provider.youTube.score
    dsimp only
    rw [e2, Option.map_some', ← howner, ← htitle, ← hviews,
      wrapInt_eq (env.viewsScore r1.views - env.titleScore track.Title r1.owner r1.title)
        (by omega) (by omega), wrapInt_eq _ (by omega) (by omega)]
  · rw [← howner, ← htitle, ← hviews]
    omega

/-- Witness of C30: for the plain track, of 0 seconds, a result of 200 seconds and a
result of 215 seconds. -/
theorem score_prefers_closer_length_witness :
    provider.youTube.durationScore 200 plainTrack.Duration = some 400
      ∧ provider.youTube.score lengthOnlyEnv plainTrack (resultOfLength 200) = some (-400)
      ∧ provider.youTube.score lengthOnlyEnv plainTrack (resultOfLength 215) = some (-430) := by
  obtain ⟨h1, _, s1, s2, hs1, hs2, e1, e2, _⟩ := score_prefers_closer_length lengthOnlyEnv
    plainTrack (resultOfLength 200) (resultOfLength 215) rfl rfl rfl (by decide) (by decide)
    (by decide) (by decide) (by decide) (by decide)
  refine ⟨h1.trans (by decide), hs1.trans ?_, hs2.trans ?_⟩
  · rw [e1]; decide
  · rw [e2]; decide

end Spotitube
